import Mathlib

/-!
# prisma-microseg-linter: namespace tree construction, validation and sanitizing

A shallow embedding of `processor/processor.go`, `processor/constants.go` and the
data types of `prisma/types.go` and the conversions of `prisma/enums.go`, followed by theorems about tree construction
(`NewNamespace`, `Namespace.read`, `Namespace.newNamespace`), about the validator
(`Namespace.Validate`, `file.validate` and its closures) and about the sanitizer
(`file.sanatize`, `Namespace.Sanatize`).

Modelling conventions.

* Go strings are modelled by `String`; the byte-level functions `strings.HasSuffix` and
  `strings.Split` are only ever called with ASCII patterns (`"yml"`, `"yaml"`, `"="`), for
  which the byte-level and the character-level result coincide on UTF-8 text.
  `strings.ToUpper` is given on the ASCII characters; the case table of the Go library for
  the other characters is a parameter of the functions that call it.
* A Go pointer that may be nil is an `Option`; a slice is a `List` (a nil slice and an empty
  slice are both `[]`, the code of the processor never distinguishes them; the JSON string
  of a ruleset, which `sanatize` compares, is a function of the modelled value).
* A Go map with string keys is an association list with unique keys (`mapSet` replaces the
  value of a key already present).  The order of the list is the order of first insertion;
  Go leaves the iteration order unspecified.
* The pointer graph of the source is a tree with back pointers (`rootNamespace`,
  `file.parent`).  The tree is an inductive type; a function that follows a back pointer takes
  the node it points to as an explicit argument.
* A Go `panic` (explicit, or a nil dereference) is the result `none` of a function returning
  `Option`.
* `*multierror.Error` is the list of the errors it wraps: `multierror.Append` of a plain error
  adds one element, `multierror.Append` of another `*multierror.Error` adds its elements,
  and `ErrorOrNil` is nil exactly for the empty list.
* The file system is an input: a directory is the result of `ioutil.ReadDir` on it, a file is
  the result of `file.load` on it.  Logging is not modelled.
* What `sanatize` asks of the operating system and of the encoders (`os.MkdirAll`, `os.Rename`,
  `yaml.Marshal`, `ioutil.WriteFile`, `json.Marshal`) is answered by an environment `Env`;
  the file system operations that succeed are recorded in the order they happen.
-/

namespace prisma

/-- Payload of an `interface{}` field (never inspected by the processor). -/
abbrev Annotations := Option String

/-- The struct `prisma.Rule` (types.go). -/
structure Rule where
  Action : String
  LogsDisabled : Bool
  Object : List (List String)
  ObservationEnabled : Bool
  ProtocolPorts : List String
deriving DecidableEq, Repr

/-- The struct `prisma.APIAuthorizationPolicy` (types.go). -/
structure APIAuthorizationPolicy where
  Name : String
  Description : String
  Protected : Bool
  Propagate : Bool
  AssociatedTags : List String
  Annotations : Annotations
  Subject : List (List String)
  AuthorizedIdentities : List String
  AuthorizedNamespace : String
deriving DecidableEq, Repr

/-- The struct `prisma.Externalnetwork` (types.go). -/
structure Externalnetwork where
  Name : String
  Description : String
  Protected : Bool
  Propagate : Bool
  AssociatedTags : List String
  Annotations : Annotations
  Entries : List String
deriving DecidableEq, Repr

/-- The struct `prisma.Networkrulesetpolicy` (types.go); the rule lists hold pointers. -/
structure Networkrulesetpolicy where
  Description : String
  Name : String
  IncomingRules : List (Option Rule)
  OutgoingRules : List (Option Rule)
  Propagate : Bool
  Subject : List (List String)
  Protected : Bool
  AssociatedTags : List String
  Annotations : Annotations
deriving DecidableEq, Repr

/-- The struct `prisma.Data` (types.go); every list holds pointers. -/
structure Data where
  Apiauthorizationpolicies : List (Option APIAuthorizationPolicy)
  Externalnetworks : List (Option Externalnetwork)
  Networkrulesetpolicies : List (Option Networkrulesetpolicy)
deriving DecidableEq, Repr

/-- The struct `prisma.Config` (types.go); `Data` is a pointer. -/
structure Config where
  Label : String
  APIVersion : Int
  Data : Option Data
  Identities : List String
deriving DecidableEq, Repr

/-- The function `strings.ToUpper`, which maps every character of the string by
`unicode.ToUpper`: the letters `a` to `z` go to `A` to `Z` and every other ASCII character is
kept; a character outside ASCII is mapped by `upper`, which stands for the case table of the
Go library (not part of this repository; it maps, for instance, U+017F to `S`). -/
def ToUpper (upper : Char → Char) (s : String) : String :=
  String.mk (s.data.map (fun c => if c.toNat < 128 then Char.toUpper c else upper c))

/-- The type `TrafficAction` (enums.go 10-11), a string type. -/
abbrev TrafficAction := String

/-- The constant `TrafficActionUndefined`: not a type, it stands for an invalid or undefined
type. -/
def TrafficActionUndefined : TrafficAction := "Undefined"

/-- The constant `TrafficActionInherit`: inherits the behaviour of the parent namespace. -/
def TrafficActionInherit : TrafficAction := "Inherit"

/-- The constant `TrafficActionAllow`: accepts traffic. -/
def TrafficActionAllow : TrafficAction := "Allow"

/-- The constant `TrafficActionReject`: rejects traffic. -/
def TrafficActionReject : TrafficAction := "Reject"

/-- The function `TrafficActionFromString` (enums.go 24-36): the action and the error, `none`
for a nil error, else the text of the error; `upper` is the case table `ToUpper` uses. -/
def TrafficActionFromString (upper : Char → Char) (s : String) :
    TrafficAction × Option String :=
  if ToUpper upper s = "ALLOW" then (TrafficActionAllow, none)
  else if ToUpper upper s = "REJECT" then (TrafficActionReject, none)
  else (TrafficActionUndefined, some ("String " ++ s ++ " is not a valid TrafficAction type"))

/-- The type `NamespaceType` (enums.go 40-41), a string type. -/
abbrev NamespaceType := String

/-- The constant `NamespaceTypeUndefined`: an invalid namespace type, usable as a
placeholder. -/
def NamespaceTypeUndefined : NamespaceType := "Undefined"

/-- The constant `NamespaceTypeCloudAccount`: a cloud account. -/
def NamespaceTypeCloudAccount : NamespaceType := "CloudAccount"

/-- The constant `NamespaceTypeGroup`: a logical grouping of vms or a Kubernetes cluster. -/
def NamespaceTypeGroup : NamespaceType := "Group"

/-- The constant `NamespaceTypeKubernetes`: a Kubernetes namespace. -/
def NamespaceTypeKubernetes : NamespaceType := "Kubernetes"

/-- The function `NamespaceTypeFromString` (enums.go 55-67), documented as: if the string is
not a valid type an error will be returned. -/
def NamespaceTypeFromString (upper : Char → Char) (s : String) :
    NamespaceType × Option String :=
  if ToUpper upper s = "GROUP" then (NamespaceTypeGroup, none)
  else if ToUpper upper s = "KUBERNETES" then (NamespaceTypeKubernetes, none)
  else (NamespaceTypeUndefined, some ("String " ++ s ++ " is not a valid NamespaceType type"))

end prisma

namespace processor

/-- The type `metaLevel` with its five constants (constants.go). -/
inductive metaLevel where
  | metaLevelRoot
  | metaLevelTenant
  | metaLevelCloud
  | metaLevelGroup
  | metaLevelKubernetes
deriving DecidableEq, Repr

/-- The string value of a `metaLevel` constant (constants.go). -/
def metaLevel.toString : metaLevel → String
  | .metaLevelRoot => "root"
  | .metaLevelTenant => "tenant"
  | .metaLevelCloud => "cloud"
  | .metaLevelGroup => "group"
  | .metaLevelKubernetes => "kubernetes"

/-- The array `configFileExtensions` (constants.go). -/
def configFileExtensions : List String := ["yml", "yaml"]

/-- Go `strings.HasSuffix`. -/
def HasSuffix (s suffix : String) : Bool := suffix.data.isSuffixOf s.data

/-- Go `strings.HasPrefix`. -/
def HasPrefix (s start : String) : Bool := start.data.isPrefixOf s.data

/-- Go `strings.Split` of a character list at a one-character separator: the pieces between
the separators, always at least one piece. -/
def splitChars (sep : Char) : List Char → List (List Char)
  | [] => [[]]
  | c :: cs =>
    if c = sep then [] :: splitChars sep cs
    else
      match splitChars sep cs with
      | [] => [[c]]
      | piece :: pieces => (c :: piece) :: pieces

/-- Go `strings.Split(s, sep)` for a one-character separator. -/
def Split (s : String) (sep : Char) : List String := (splitChars sep s.data).map String.mk

/-- The errors the processor creates with `fmt.Errorf`, one constructor for each format
string, carrying the arguments of the format; `io` is an error handed back by
`ioutil.ReadDir`, `ioutil.ReadFile` or `yaml.Unmarshal`. -/
inductive Err where
  | pathRequired
  | io (msg : String)
  | dirHasChildren (dir : String)
  | fileInRoot (path : String)
  | missingPrismaConfig (path : String)
  | missingData (path : String)
  | noTag (level : metaLevel) (rule path : String)
  | nonExistent (level : metaLevel) (rule path ns : String)
  | labelMismatch (got want path : String)
  | renameFailed (path original msg : String)
  | writeFailed (path msg : String)
deriving DecidableEq, Repr

/-- The text of an error: the format strings of processor.go. -/
def Err.Error : Err → String
  | .pathRequired => "path is required"
  | .io msg => msg
  | .dirHasChildren dir => "Directory \"" ++ dir ++ "\" has child directories; this is not valid"
  | .fileInRoot path => "File \"" ++ path ++ "\" exist in root directory; this is not valid"
  | .missingPrismaConfig path => "missing prismaConfig in file " ++ path
  | .missingData path => "missing prismaConfig.Data in file " ++ path
  | .noTag level rule path =>
    "subject " ++ rule ++ " does not have a " ++ level.toString ++ " tag in file \"" ++ path ++ "\""
  | .nonExistent level rule path ns =>
    "subject " ++ rule ++ " in file \"" ++ path ++ "\" references non existent "
      ++ level.toString ++ " namespace " ++ ns
  | .labelMismatch got want path =>
    "label \"" ++ got ++ "\" should be \"" ++ want ++ "\" in file \"" ++ path ++ "\""
  | .renameFailed path original msg =>
    "failed to rename file " ++ path ++ " to " ++ original ++ ": " ++ msg
  | .writeFailed path msg => "failed to write file " ++ path ++ " : " ++ msg

/-- Go map lookup `m[k]`: the value stored for `k`, nil (`none`) when there is none. -/
def mapGet {β : Type} (m : List (String × β)) (k : String) : Option β :=
  match m with
  | [] => none
  | (k1, v) :: rest => if k1 = k then some v else mapGet rest k

/-- Go map assignment `m[k] = v`. -/
def mapSet {β : Type} (m : List (String × β)) (k : String) (v : β) : List (String × β) :=
  match m with
  | [] => [(k, v)]
  | (k1, v1) :: rest => if k1 = k then (k, v) :: rest else (k1, v1) :: mapSet rest k v

/-- The struct `file` (processor.go) without its `parent` pointer. -/
structure file where
  filename : String
  path : String
  rpath : String
  label : String
  prismaConfig : Option prisma.Config
deriving DecidableEq, Repr

/-- The struct `Namespace` (processor.go) without its `rootNamespace` pointer. -/
inductive Namespace where
  | mk (childMap : List (String × Namespace)) (level : metaLevel)
      (tenant cloud group kubernetes : String)
      (fileMap : List (String × file))
      (path rpath label : String) (restore : String) (verbose : Bool)

/-- Field `childMap`. -/
def Namespace.childMap : Namespace → List (String × Namespace)
  | .mk childMap _ _ _ _ _ _ _ _ _ _ _ => childMap

/-- Field `level`. -/
def Namespace.level : Namespace → metaLevel
  | .mk _ level _ _ _ _ _ _ _ _ _ _ => level

/-- Field `tenant`. -/
def Namespace.tenant : Namespace → String
  | .mk _ _ tenant _ _ _ _ _ _ _ _ _ => tenant

/-- Field `cloud`. -/
def Namespace.cloud : Namespace → String
  | .mk _ _ _ cloud _ _ _ _ _ _ _ _ => cloud

/-- Field `group`. -/
def Namespace.group : Namespace → String
  | .mk _ _ _ _ group _ _ _ _ _ _ _ => group

/-- Field `kubernetes`. -/
def Namespace.kubernetes : Namespace → String
  | .mk _ _ _ _ _ kubernetes _ _ _ _ _ _ => kubernetes

/-- Field `fileMap`. -/
def Namespace.fileMap : Namespace → List (String × file)
  | .mk _ _ _ _ _ _ fileMap _ _ _ _ _ => fileMap

/-- Field `path`. -/
def Namespace.path : Namespace → String
  | .mk _ _ _ _ _ _ _ path _ _ _ _ => path

/-- Field `rpath`. -/
def Namespace.rpath : Namespace → String
  | .mk _ _ _ _ _ _ _ _ rpath _ _ _ => rpath

/-- Field `label`. -/
def Namespace.label : Namespace → String
  | .mk _ _ _ _ _ _ _ _ _ label _ _ => label

/-- Field `restore`. -/
def Namespace.restore : Namespace → String
  | .mk _ _ _ _ _ _ _ _ _ _ restore _ => restore

/-- Field `verbose`. -/
def Namespace.verbose : Namespace → Bool
  | .mk _ _ _ _ _ _ _ _ _ _ _ verbose => verbose

/-- The assignment `t.childMap[k] = c`. -/
def Namespace.setChild (t : Namespace) (k : String) (c : Namespace) : Namespace :=
  .mk (mapSet t.childMap k c) t.level t.tenant t.cloud t.group t.kubernetes t.fileMap
    t.path t.rpath t.label t.restore t.verbose

/-- The assignment `t.fileMap[k] = f`. -/
def Namespace.setFile (t : Namespace) (k : String) (f : file) : Namespace :=
  .mk t.childMap t.level t.tenant t.cloud t.group t.kubernetes (mapSet t.fileMap k f)
    t.path t.rpath t.label t.restore t.verbose

/-- The method `newNamespace` (processor.go 80-134); `none` is the panic
"depth recursion limit exceeded". -/
def Namespace.newNamespace (t : Namespace) (name : String) : Option Namespace :=
  let label := if t.label = "" then name else t.label ++ ":" ++ name
  let rpath := if t.rpath = "" then name else t.rpath ++ "/" ++ name
  let path := t.path ++ "/" ++ name
  match t.level with
  | .metaLevelRoot =>
    some (.mk [] .metaLevelTenant name t.cloud t.group t.kubernetes [] path rpath label ""
      t.verbose)
  | .metaLevelTenant =>
    some (.mk [] .metaLevelCloud t.tenant name t.group t.kubernetes [] path rpath label ""
      t.verbose)
  | .metaLevelCloud =>
    some (.mk [] .metaLevelGroup t.tenant t.cloud name t.kubernetes [] path rpath label ""
      t.verbose)
  | .metaLevelGroup =>
    some (.mk [] .metaLevelKubernetes t.tenant t.cloud t.group name [] path rpath label ""
      t.verbose)
  | .metaLevelKubernetes => none

/-- The method `newFile` (processor.go 198-207). -/
def Namespace.newFile (t : Namespace) (filename : String) : file :=
  { filename := filename
    path := t.path ++ "/" ++ filename
    rpath := t.rpath ++ "/" ++ filename
    label := t.label ++ ":" ++ filename
    prismaConfig := none }

/-- What the file system holds at a path.  A regular file is given by what `file.load` gets
from `ioutil.ReadFile` and `yaml.Unmarshal` on it: the error, if any, and the value left in
`prismaConfig`.  A directory is given by what `ioutil.ReadDir` gets: an error, or the entries
(the argument `entries` is ignored when `readErr` is an error). -/
inductive FsEntry where
  | file (name : String) (loadErr : Option String) (config : Option prisma.Config)
  | dir (name : String) (readErr : Option String) (entries : List FsEntry)

/-- The method `file.load` (processor.go 652-664) on a file whose reading and decoding give
`loadErr` and `config`. -/
def file.load (t : file) (loadErr : Option String) (config : Option prisma.Config) :
    file × Option Err :=
  ({ t with prismaConfig := config }, loadErr.map Err.io)

/-- The closure `extensionCheck` of `read` (processor.go 216-223). -/
def extensionCheck (filename : String) : Bool :=
  configFileExtensions.any (fun m => HasSuffix filename m)

mutual
/-- The method `read` (processor.go 213-291) of the namespace `t` whose `path` holds `fs`.
The result is the namespace after the call and the returned error; `none` is a panic. -/
def Namespace.read (t : Namespace) : FsEntry → Option (Namespace × List Err)
  | .file _ _ _ => some (t, [Err.io "not a directory"])
  | .dir _ (some e) _ => some (t, [Err.io e])
  | .dir _ none files => Namespace.readLoop t [] files
/-- The loop `for _, file := range files` of `read` (processor.go 232-288), started with the
namespace `t` and the errors collected so far. -/
def Namespace.readLoop (t : Namespace) (errors : List Err) :
    List FsEntry → Option (Namespace × List Err)
  | [] => some (t, errors)
  | .dir fileName readErr entries :: files =>
    if fileName = ".original" then Namespace.readLoop t errors files
    else if t.level = .metaLevelKubernetes then
      Namespace.readLoop t (errors ++ [Err.dirHasChildren (t.path ++ "/" ++ fileName)]) files
    else
      match t.newNamespace fileName with
      | none => none
      | some newMeta =>
        match Namespace.read newMeta (.dir fileName readErr entries) with
        | none => none
        | some (newMeta1, err) =>
          Namespace.readLoop (t.setChild fileName newMeta1) (errors ++ err) files
  | .file fileName loadErr config :: files =>
    if extensionCheck fileName then
      if t.level = .metaLevelRoot then
        Namespace.readLoop t (errors ++ [Err.fileInRoot (t.path ++ "/" ++ fileName)]) files
      else
        let loaded := (t.newFile fileName).load loadErr config
        Namespace.readLoop (t.setFile fileName loaded.1) (errors ++ loaded.2.toList) files
    else Namespace.readLoop t errors files
end

/-- One pass through the body of the loop of `read` (processor.go 234-286) for the entry
`file`; `Namespace.readLoop` runs it for each entry in turn (`readLoop_cons`). -/
def Namespace.readStep (t : Namespace) (errors : List Err) :
    FsEntry → Option (Namespace × List Err)
  | .dir fileName readErr entries =>
    if fileName = ".original" then some (t, errors)
    else if t.level = .metaLevelKubernetes then
      some (t, errors ++ [Err.dirHasChildren (t.path ++ "/" ++ fileName)])
    else
      match t.newNamespace fileName with
      | none => none
      | some newMeta =>
        match Namespace.read newMeta (.dir fileName readErr entries) with
        | none => none
        | some (newMeta1, err) => some (t.setChild fileName newMeta1, errors ++ err)
  | .file fileName loadErr config =>
    if extensionCheck fileName then
      if t.level = .metaLevelRoot then
        some (t, errors ++ [Err.fileInRoot (t.path ++ "/" ++ fileName)])
      else
        let loaded := (t.newFile fileName).load loadErr config
        some (t.setFile fileName loaded.1, errors ++ loaded.2.toList)
    else some (t, errors)

/-- The function `NewNamespace` (processor.go 58-77) on a file system that holds `fs` at
`path`.  The result is the returned pair (namespace pointer, error); `none` is a panic. -/
def NewNamespace (path : String) (verbose : Bool) (fs : FsEntry) :
    Option (Option Namespace × List Err) :=
  if path = "" then some (none, [Err.pathRequired])
  else
    match (Namespace.mk [] .metaLevelRoot "" "" "" "" [] path "" "" "" verbose).read fs with
    | none => none
    | some (t, err) => some (some t, err)

/-- The function `keyValueSplit` (processor.go 299-308); `Split` always has a first piece. -/
def keyValueSplit (keyValuePair : String) : String × String :=
  let split := Split keyValuePair '='
  let key := split.headD ""
  let value := if split.length > 1 then split.getD 1 "" else ""
  (key, value)

/-- The four local variables `tenant`, `cloud`, `group`, `kubernetes` of the closure
`objectCheck` (processor.go 421-424). -/
structure orgValues where
  tenant : String
  cloud : String
  group : String
  kubernetes : String
deriving DecidableEq, Repr

/-- The body of the loop of `objectCheck` (processor.go 435-451): the `switch key`. -/
def objectCheckStep (s : orgValues) (keyValuePair : String) : orgValues :=
  let kv := keyValueSplit keyValuePair
  if kv.1 = "@org:tenant" then { s with tenant := kv.2 }
  else if kv.1 = "@org:cloudaccount" then { s with cloud := kv.2 }
  else if kv.1 = "@org:group" then { s with group := kv.2 }
  else if kv.1 = "@org:kubernetes" then { s with kubernetes := kv.2 }
  else s

/-- The loop of `objectCheck` (processor.go 421-453): the values the four variables hold when
`nsCheck` is called. -/
def objectCheckValues (object : List String) : orgValues :=
  object.foldl objectCheckStep { tenant := "", cloud := "", group := "", kubernetes := "" }

/-- The closure `tenantCheck` of `validate` (processor.go 328-340).  The closures share the
variable `errors`: it is passed in and handed back. -/
def tenantCheck (rootNamespace : Namespace) (t : file) (errors : List Err)
    (rule tenant : String) : Option Namespace × List Err :=
  if tenant = "" then (none, errors ++ [Err.noTag .metaLevelTenant rule t.path])
  else
    match mapGet rootNamespace.childMap tenant with
    | none =>
      (none, errors ++ [Err.nonExistent .metaLevelTenant rule t.path
        (rootNamespace.path ++ "/" ++ tenant)])
    | some ns => (some ns, errors)

/-- The closure `cloudCheck` of `validate` (processor.go 342-359). -/
def cloudCheck (rootNamespace : Namespace) (t : file) (errors : List Err)
    (rule tenant cloud : String) : Option Namespace × List Err :=
  match tenantCheck rootNamespace t errors rule tenant with
  | (none, errors) => (none, errors)
  | (some parentNS, errors) =>
    if cloud = "" then (none, errors ++ [Err.noTag .metaLevelCloud rule t.path])
    else
      match mapGet parentNS.childMap cloud with
      | none =>
        (none, errors ++ [Err.nonExistent .metaLevelCloud rule t.path
          (rootNamespace.path ++ "/" ++ tenant ++ "/" ++ cloud)])
      | some ns => (some ns, errors)

/-- The closure `groupCheck` of `validate` (processor.go 361-378). -/
def groupCheck (rootNamespace : Namespace) (t : file) (errors : List Err)
    (rule tenant cloud group : String) : Option Namespace × List Err :=
  match cloudCheck rootNamespace t errors rule tenant cloud with
  | (none, errors) => (none, errors)
  | (some parentNS, errors) =>
    if group = "" then (none, errors ++ [Err.noTag .metaLevelGroup rule t.path])
    else
      match mapGet parentNS.childMap group with
      | none =>
        (none, errors ++ [Err.nonExistent .metaLevelGroup rule t.path
          (rootNamespace.path ++ "/" ++ tenant ++ "/" ++ cloud ++ "/" ++ group)])
      | some ns => (some ns, errors)

/-- The closure `kubernetesCheck` of `validate` (processor.go 380-396). -/
def kubernetesCheck (rootNamespace : Namespace) (t : file) (errors : List Err)
    (rule tenant cloud group kubernetes : String) : List Err :=
  match groupCheck rootNamespace t errors rule tenant cloud group with
  | (none, errors) => errors
  | (some parentNS, errors) =>
    if kubernetes = "" then errors ++ [Err.noTag .metaLevelKubernetes rule t.path]
    else
      match mapGet parentNS.childMap kubernetes with
      | none =>
        errors ++ [Err.nonExistent .metaLevelKubernetes rule t.path
          (rootNamespace.path ++ "/" ++ tenant ++ "/" ++ cloud ++ "/" ++ group ++ "/"
            ++ kubernetes)]
      | some _ => errors

/-- The closure `nsCheck` of `validate` (processor.go 398-416). -/
def nsCheck (rootNamespace : Namespace) (t : file) (errors : List Err)
    (rule tenant cloud group kubernetes : String) : List Err :=
  if kubernetes ≠ "" then kubernetesCheck rootNamespace t errors rule tenant cloud group kubernetes
  else if group ≠ "" then (groupCheck rootNamespace t errors rule tenant cloud group).2
  else if cloud ≠ "" then (cloudCheck rootNamespace t errors rule tenant cloud).2
  else (tenantCheck rootNamespace t errors rule tenant).2

/-- The closure `objectCheck` of `validate` (processor.go 419-456). -/
def objectCheck (rootNamespace : Namespace) (t : file) (errors : List Err)
    (rule : String) (object : List String) : List Err :=
  let v := objectCheckValues object
  nsCheck rootNamespace t errors rule v.tenant v.cloud v.group v.kubernetes

/-- The closure `ruleCheck` of `validate` (processor.go 459-471); `rules.Object` of a nil
rule is a nil dereference, the result `none`.  For an empty `Object` the source only logs,
and the loop over it does nothing. -/
def ruleCheck (rootNamespace : Namespace) (t : file) (errors : List Err) (rule : String) :
    List (Option prisma.Rule) → Option (List Err)
  | [] => some errors
  | none :: _ => none
  | some rules :: rest =>
    ruleCheck rootNamespace t
      (rules.Object.foldl (fun errs object => objectCheck rootNamespace t errs rule object)
        errors)
      rule rest

/-- The loop over `Networkrulesetpolicies` in `validate` (processor.go 479-488); a nil
ruleset is only logged. -/
def rulesetsCheck (rootNamespace : Namespace) (t : file) (errors : List Err) :
    List (Option prisma.Networkrulesetpolicy) → Option (List Err)
  | [] => some errors
  | none :: rest => rulesetsCheck rootNamespace t errors rest
  | some ruleset :: rest =>
    match ruleCheck rootNamespace t errors "OutgoingRules" ruleset.OutgoingRules with
    | none => none
    | some errors1 =>
      match ruleCheck rootNamespace t errors1 "IncomingRules" ruleset.IncomingRules with
      | none => none
      | some errors2 => rulesetsCheck rootNamespace t errors2 rest

/-- The method `file.validate` (processor.go 314-497) of a file of a tree whose root is
`rootNamespace` (the source reaches it as `t.parent.rootNamespace`).  The result is the
returned error; `none` is a panic. -/
def file.validate (rootNamespace : Namespace) (t : file) : Option (List Err) :=
  match t.prismaConfig with
  | none => some [Err.missingPrismaConfig t.path]
  | some prismaConfig =>
    match prismaConfig.Data with
    | none => some [Err.missingData t.path]
    | some data =>
      match rulesetsCheck rootNamespace t [] data.Networkrulesetpolicies with
      | none => none
      | some errors =>
        if prismaConfig.Label ≠ t.label then
          some (errors ++ [Err.labelMismatch prismaConfig.Label t.label t.path])
        else some errors

/-- The loop over `t.fileMap` of `Validate` (processor.go 187-191), started with the errors
collected so far; the list order stands for the order of the iteration. -/
def Namespace.validateFileMap (rootNamespace : Namespace) (errors : List Err) :
    List (String × file) → Option (List Err)
  | [] => some errors
  | (_, m) :: rest =>
    match m.validate rootNamespace with
    | none => none
    | some err => Namespace.validateFileMap rootNamespace (errors ++ err) rest

mutual
/-- The method `Validate` (processor.go 177-194) of a node of the tree whose root is
`rootNamespace`.  The result is the returned error; `none` is a panic. -/
def Namespace.Validate (rootNamespace : Namespace) : Namespace → Option (List Err)
  | .mk childMap _ _ _ _ _ fileMap _ _ _ _ _ =>
    match Namespace.validateChildMap rootNamespace [] childMap with
    | none => none
    | some errors => Namespace.validateFileMap rootNamespace errors fileMap
/-- The loop over `t.childMap` of `Validate` (processor.go 181-185), started with the errors
collected so far. -/
def Namespace.validateChildMap (rootNamespace : Namespace) (errors : List Err) :
    List (String × Namespace) → Option (List Err)
  | [] => some errors
  | (_, m) :: rest =>
    match Namespace.Validate rootNamespace m with
    | none => none
    | some err => Namespace.validateChildMap rootNamespace (errors ++ err) rest
end

/-- A file system operation that `sanatize` carries out. -/
inductive FsOp where
  | mkdirAll (path : String)
  | rename (oldpath newpath : String)
  | writeConfig (path : String) (prismaConfig : prisma.Config)
  | writeScript (path : String) (content : String)
deriving DecidableEq, Repr

/-- The answers of the operating system and of the encoders to the calls of `sanatize`:
the error of `os.MkdirAll(path, _)`, of `os.Rename(oldpath, newpath)`, of
`yaml.Marshal(&prismaConfig)` and of `ioutil.WriteFile(path, _, _)`, if any, and the string
`ruleset.String()` of a ruleset pointer (types.go 408-411: `json.Marshal` of it). -/
structure Env where
  mkdirAll : String → Option String
  rename : String → String → Option String
  marshal : prisma.Config → Option String
  writeFile : String → Option String
  rulesetString : Option prisma.Networkrulesetpolicy → String

/-- The closure `ruleSetHash` of `sanatize` (processor.go 519-527). -/
def ruleSetHash (env : Env) (policies : List (Option prisma.Networkrulesetpolicy)) : String :=
  policies.foldl (fun result ruleset => result ++ env.rulesetString ruleset) ""

/-- The closure `addTenant` of `sanatize` (processor.go 535-537). -/
def addTenant (parent : Namespace) (newSubs : List String) : List String :=
  newSubs ++ ["@org:tenant=" ++ parent.tenant]

/-- The closure `addCloud` of `sanatize` (processor.go 539-542). -/
def addCloud (parent : Namespace) (newSubs : List String) : List String :=
  addTenant parent newSubs ++ ["@org:cloudaccount=" ++ parent.cloud]

/-- The closure `addGroup` of `sanatize` (processor.go 544-547). -/
def addGroup (parent : Namespace) (newSubs : List String) : List String :=
  addCloud parent newSubs ++ ["@org:group=" ++ parent.group]

/-- The closure `addKubernetes` of `sanatize` (processor.go 549-552). -/
def addKubernetes (parent : Namespace) (newSubs : List String) : List String :=
  addGroup parent newSubs ++ ["@org:kubernetes=" ++ parent.kubernetes]

/-- The body of the loop over the rulesets in `sanatize` (processor.go 533-581): the new
value of `ruleset.Subject`. -/
def sanatizeSubject (parent : Namespace) (subject : List (List String)) : List (List String) :=
  let newSubs := subject.flatten.filter (fun sub => !HasPrefix sub "@org:")
  let newSubs :=
    match parent.level with
    | .metaLevelRoot => newSubs
    | .metaLevelTenant => addTenant parent newSubs
    | .metaLevelCloud => addCloud parent newSubs
    | .metaLevelGroup => addGroup parent newSubs
    | .metaLevelKubernetes => addKubernetes parent newSubs
  [newSubs]

/-- The loop over the rulesets in `sanatize` (processor.go 531-582): the rulesets after it;
`ruleset.Subject` of a nil ruleset is a nil dereference, the result `none`. -/
def sanatizeRulesets (parent : Namespace) :
    List (Option prisma.Networkrulesetpolicy) → Option (List (Option prisma.Networkrulesetpolicy))
  | [] => some []
  | none :: _ => none
  | some ruleset :: rest =>
    match sanatizeRulesets parent rest with
    | none => none
    | some rest1 =>
      some (some { ruleset with Subject := sanatizeSubject parent ruleset.Subject } :: rest1)

/-- What a call of `file.sanatize` leaves behind: the file, the field `restore` of the root
namespace, the file system operations carried out, and the returned error. -/
structure sanatizeResult where
  t : file
  restore : String
  ops : List FsOp
  err : Option Err
deriving DecidableEq, Repr

/-- The last part of `sanatize` (processor.go 611-648) for a file found dirty, whose
document `prismaConfig` has been rewritten in memory already. -/
def file.sanatizeDirty (env : Env) (parent : Namespace) (restore : String) (t : file)
    (prismaConfig : prisma.Config) : sanatizeResult :=
  let originalDirPath := parent.path ++ "/.original"
  let originalDirRPath := parent.rpath ++ "/.original"
  match env.mkdirAll originalDirPath with
  | some e => { t := t, restore := restore, ops := [], err := some (Err.io e) }
  | none =>
    let originalFilePath := originalDirPath ++ "/" ++ t.filename
    let originalFileRPath := originalDirRPath ++ "/" ++ t.filename
    match env.rename t.path originalFilePath with
    | some e =>
      { t := t, restore := restore, ops := [FsOp.mkdirAll originalDirPath],
        err := some (Err.renameFailed t.path originalFilePath e) }
    | none =>
      let restore1 := restore ++ ("cp " ++ originalFileRPath ++ " " ++ t.rpath ++ "\n")
      match env.marshal prismaConfig with
      | some e =>
        { t := t, restore := restore1,
          ops := [FsOp.mkdirAll originalDirPath, FsOp.rename t.path originalFilePath],
          err := some (Err.io e) }
      | none =>
        match env.writeFile t.path with
        | some e =>
          { t := t, restore := restore1,
            ops := [FsOp.mkdirAll originalDirPath, FsOp.rename t.path originalFilePath],
            err := some (Err.writeFailed t.path e) }
        | none =>
          { t := t, restore := restore1,
            ops := [FsOp.mkdirAll originalDirPath, FsOp.rename t.path originalFilePath,
              FsOp.writeConfig t.path prismaConfig],
            err := none }

/-- Whether `sanatize` finds the file dirty (processor.go 584-607): the strings of the
rulesets before and after the rewrite differ, or the label is not the label of the file. -/
def file.dirty (env : Env) (t : file) (prismaConfig : prisma.Config)
    (before after : List (Option prisma.Networkrulesetpolicy)) : Bool :=
  decide (ruleSetHash env before ≠ ruleSetHash env after) || decide (prismaConfig.Label ≠ t.label)

/-- The method `file.sanatize` (processor.go 502-649) of a file of the node `parent`, called
when the field `restore` of the root namespace holds `restore`.  Reading
`t.prismaConfig.Data.Networkrulesetpolicies` with `Data` nil is a nil dereference; `none`
is a panic. -/
def file.sanatize (env : Env) (parent : Namespace) (restore : String) (t : file) :
    Option sanatizeResult :=
  match t.prismaConfig with
  | none => some { t := t, restore := restore, ops := [], err := none }
  | some prismaConfig =>
    match prismaConfig.Data with
    | none => none
    | some data =>
      match sanatizeRulesets parent data.Networkrulesetpolicies with
      | none => none
      | some policies =>
        let newConfig : prisma.Config :=
          { prismaConfig with
            Label := t.label
            Data := some { data with Networkrulesetpolicies := policies } }
        let t1 : file := { t with prismaConfig := some newConfig }
        if file.dirty env t prismaConfig data.Networkrulesetpolicies policies then
          some (file.sanatizeDirty env parent restore t1 newConfig)
        else some { t := t1, restore := restore, ops := [], err := none }

/-- The constant `restoreScript` (constants.go 15-20): a raw string literal that starts with
the line break after the opening back quote. -/
def restoreScript : String := "\n#!/bin/sh -e\n\ncd \"$(dirname \"$0\")\"\n\n"

/-- What a pass of `Sanatize` over a part of the tree leaves behind: the part of the tree
after the pass, the field `restore` of the root namespace, the file system operations
carried out, and the errors collected (the `*multierror.Error`). -/
structure passResult (α : Type) where
  value : α
  restore : String
  ops : List FsOp
  err : List Err

/-- The loop over `t.fileMap` of `Sanatize` (processor.go 151-155) for the node `parent`,
entered when the field `restore` of the root namespace holds `restore`; the list order
stands for the order of the iteration. -/
def Namespace.sanatizeFileMap (env : Env) (parent : Namespace) (restore : String) :
    List (String × file) → Option (passResult (List (String × file)))
  | [] => some { value := [], restore := restore, ops := [], err := [] }
  | (k, x) :: rest =>
    match x.sanatize env parent restore with
    | none => none
    | some r =>
      match Namespace.sanatizeFileMap env parent r.restore rest with
      | none => none
      | some rr =>
        some { value := (k, r.t) :: rr.value, restore := rr.restore, ops := r.ops ++ rr.ops,
               err := r.err.toList ++ rr.err }

mutual
/-- The method `Sanatize` (processor.go 139-171) of a node, called when the field `restore`
of the root namespace holds `restore`.  The flag `self` says whether the node is the root
namespace itself (`t.rootNamespace == t`, the case of the node `NewNamespace` returns): then
`t.restore` is the string the calls below have added to, otherwise it is the field of the
node, which no call changes.  `none` is a panic. -/
def Namespace.Sanatize (env : Env) (self : Bool) (restore : String) :
    Namespace → Option (passResult Namespace)
  | .mk childMap level tenant cloud group kubernetes fileMap path rpath label restore0
      verbose =>
    match Namespace.sanatizeChildMap env restore childMap with
    | none => none
    | some rc =>
      match
        (if level ≠ .metaLevelRoot then
          Namespace.sanatizeFileMap env
            (.mk childMap level tenant cloud group kubernetes fileMap path rpath label restore0
              verbose)
            rc.restore fileMap
        else some { value := fileMap, restore := rc.restore, ops := [], err := [] }) with
      | none => none
      | some rf =>
        let restore1 := if self then rf.restore else restore0
        let t1 := Namespace.mk rc.value level tenant cloud group kubernetes rf.value path rpath
          label restore1 verbose
        if restore1 ≠ "" then
          match env.writeFile (path ++ "/restore.sh") with
          | some e =>
            some { value := t1, restore := rf.restore, ops := rc.ops ++ rf.ops,
                   err := rc.err ++ rf.err ++ [Err.io e] }
          | none =>
            some { value := t1, restore := rf.restore,
                   ops := rc.ops ++ rf.ops
                     ++ [FsOp.writeScript (path ++ "/restore.sh") (restoreScript ++ restore1)],
                   err := rc.err ++ rf.err }
        else some { value := t1, restore := rf.restore, ops := rc.ops ++ rf.ops,
                    err := rc.err ++ rf.err }
/-- The loop over `t.childMap` of `Sanatize` (processor.go 143-147). -/
def Namespace.sanatizeChildMap (env : Env) (restore : String) :
    List (String × Namespace) → Option (passResult (List (String × Namespace)))
  | [] => some { value := [], restore := restore, ops := [], err := [] }
  | (k, x) :: rest =>
    match Namespace.Sanatize env false restore x with
    | none => none
    | some r =>
      match Namespace.sanatizeChildMap env r.restore rest with
      | none => none
      | some rr =>
        some { value := (k, r.value) :: rr.value, restore := rr.restore, ops := r.ops ++ rr.ops,
               err := r.err ++ rr.err }
end

/-! ## Notions used to state the properties -/

/-- The node reached from `t` through the child maps along the names `names`. -/
def descend : List String → Namespace → Option Namespace
  | [], t => some t
  | name :: names, t =>
    match mapGet t.childMap name with
    | none => none
    | some child => descend names child

/-- The nesting depth a level stands for. -/
def metaLevel.depth : metaLevel → Nat
  | .metaLevelRoot => 0
  | .metaLevelTenant => 1
  | .metaLevelCloud => 2
  | .metaLevelGroup => 3
  | .metaLevelKubernetes => 4

/-- The identity field that belongs to the level of the node itself. -/
def Namespace.identity (t : Namespace) : String :=
  match t.level with
  | .metaLevelRoot => ""
  | .metaLevelTenant => t.tenant
  | .metaLevelCloud => t.cloud
  | .metaLevelGroup => t.group
  | .metaLevelKubernetes => t.kubernetes

/-- The name of a directory entry. -/
def FsEntry.name : FsEntry → String
  | .file name _ _ => name
  | .dir name _ _ => name

/-- Whether a directory entry is a directory. -/
def FsEntry.isDir : FsEntry → Bool
  | .file _ _ _ => false
  | .dir _ _ _ => true

/-- The fields of a namespace other than its two maps. -/
def Namespace.header (t : Namespace) :
    metaLevel × String × String × String × String × String × String × String × String × Bool :=
  (t.level, t.tenant, t.cloud, t.group, t.kubernetes, t.path, t.rpath, t.label, t.restore,
    t.verbose)

/-- A child node carries the fields `newNamespace` of its parent gave it. -/
def childOf (p : Namespace) (k : String) (c : Namespace) : Prop :=
  ∃ m, p.newNamespace k = some m ∧ c.header = m.header

/-- Every entry of every child map below `t` is a child in the sense of `childOf`. -/
def TreeInv (t : Namespace) : Prop :=
  ∀ (names : List String) (p : Namespace) (k : String) (c : Namespace),
    descend names t = some p → mapGet p.childMap k = some c → childOf p k c

/-- The entries of the child map of `t` are children of `t` and roots of good trees. -/
def GoodChildren (t : Namespace) : Prop :=
  ∀ (k : String) (c : Namespace), mapGet t.childMap k = some c → childOf t k c ∧ TreeInv c

mutual
/-- The directory tree without its directories named `.original` (at every depth below the
top). -/
def FsEntry.stripOriginal : FsEntry → FsEntry
  | .file name loadErr config => .file name loadErr config
  | .dir name readErr entries => .dir name readErr (stripOriginalList entries)
/-- A listing without its directories named `.original`, the other directories stripped. -/
def stripOriginalList : List FsEntry → List FsEntry
  | [] => []
  | .dir name readErr entries :: rest =>
    if name = ".original" then stripOriginalList rest
    else FsEntry.stripOriginal (.dir name readErr entries) :: stripOriginalList rest
  | .file name loadErr config :: rest => .file name loadErr config :: stripOriginalList rest
end

/-- The level one deeper (used below the kubernetes level nowhere). -/
def metaLevel.next : metaLevel → metaLevel
  | .metaLevelRoot => .metaLevelTenant
  | .metaLevelTenant => .metaLevelCloud
  | .metaLevelCloud => .metaLevelGroup
  | .metaLevelGroup => .metaLevelKubernetes
  | .metaLevelKubernetes => .metaLevelKubernetes

mutual
/-- All the errors to be found in the directory tree `fs` that lies at `path` and is scanned
at `level` (spec 4.1 and 7): the failure to list the directory itself, or the errors of its
entries. -/
def errorsFound (level : metaLevel) (path : String) : FsEntry → List Err
  | .file _ _ _ => [Err.io "not a directory"]
  | .dir _ (some e) _ => [Err.io e]
  | .dir _ none files => errorsFoundIn level path files
/-- The errors of the entries of a listing, entry after entry: nothing for `.original` and
for a file that is no policy file; the structural error for a subdirectory of a
kubernetes-level directory and for a policy file of the root; the load error of a policy
file elsewhere; all the errors found in a subdirectory elsewhere. -/
def errorsFoundIn (level : metaLevel) (path : String) : List FsEntry → List Err
  | [] => []
  | .dir name readErr entries :: rest =>
    (if name = ".original" then []
     else if level = .metaLevelKubernetes then [Err.dirHasChildren (path ++ "/" ++ name)]
     else errorsFound level.next (path ++ "/" ++ name) (.dir name readErr entries))
      ++ errorsFoundIn level path rest
  | .file name loadErr _ :: rest =>
    (if extensionCheck name then
      if level = .metaLevelRoot then [Err.fileInRoot (path ++ "/" ++ name)]
      else (loadErr.map Err.io).toList
     else [])
      ++ errorsFoundIn level path rest
end

/-- The value of the last tag of the tag-group `object` whose key is `key`; empty when no tag
has this key.  Key and value of a tag are those of `keyValueSplit`. -/
def lastValue (key : String) (object : List String) : String :=
  match (object.filter (fun tag => (keyValueSplit tag).1 == key)).getLast? with
  | some tag => (keyValueSplit tag).2
  | none => ""

/-- Whether an error reports an object tag-group that does not resolve: a level without a
value, or a value that names no namespace. -/
def Err.isReferenceError : Err → Bool
  | .noTag _ _ _ => true
  | .nonExistent _ _ _ _ => true
  | _ => false

/-- The tag-group values `v` carry a tenant, have no gap (a level is set only when the level
above it is set), and the chain of the values that are set names nodes that exist below
`rootNamespace`. -/
def chainExists (rootNamespace : Namespace) (v : orgValues) : Prop :=
  v.tenant ≠ "" ∧ (v.kubernetes ≠ "" → v.group ≠ "") ∧ (v.group ≠ "" → v.cloud ≠ "") ∧
  (descend ([v.tenant, v.cloud, v.group, v.kubernetes].filter (fun s => s ≠ ""))
    rootNamespace).isSome = true

/-- The object tag-groups of the rules of a list of rule pointers. -/
def objectsOfRules (rules : List (Option prisma.Rule)) : List (List String) :=
  rules.flatMap (fun rule => match rule with
    | none => []
    | some r => r.Object)

/-- The object tag-groups of all outgoing and incoming rules of a list of ruleset pointers. -/
def objectsOfRulesets (policies : List (Option prisma.Networkrulesetpolicy)) :
    List (List String) :=
  policies.flatMap (fun ruleset => match ruleset with
    | none => []
    | some rs => objectsOfRules rs.OutgoingRules ++ objectsOfRules rs.IncomingRules)

/-- The object tag-groups of all rules of the document of a file. -/
def objectsOf (t : file) : List (List String) :=
  match t.prismaConfig with
  | none => []
  | some prismaConfig =>
    match prismaConfig.Data with
    | none => []
    | some data => objectsOfRulesets data.Networkrulesetpolicies

/-- No rule list of the document of a file holds a nil pointer. -/
def rulesPresent (t : file) : Prop :=
  ∀ (prismaConfig : prisma.Config) (data : prisma.Data),
    t.prismaConfig = some prismaConfig → prismaConfig.Data = some data →
    ∀ rs, some rs ∈ data.Networkrulesetpolicies →
      none ∉ rs.OutgoingRules ∧ none ∉ rs.IncomingRules

/-- The four tag keys the validator looks at. -/
def orgKeys : List String :=
  ["@org:tenant", "@org:cloudaccount", "@org:group", "@org:kubernetes"]

instance (rootNamespace : Namespace) (v : orgValues) : Decidable (chainExists rootNamespace v) := by
  unfold chainExists
  infer_instance

/-- The levels `nsCheck` walks through for the values `v` (processor.go 398-416), each with
its value: from the tenant level down to the deepest level that has a value, and the tenant
level in any case. -/
def checkedLevels (v : orgValues) : List (metaLevel × String) :=
  if v.kubernetes ≠ "" then
    [(.metaLevelTenant, v.tenant), (.metaLevelCloud, v.cloud), (.metaLevelGroup, v.group),
      (.metaLevelKubernetes, v.kubernetes)]
  else if v.group ≠ "" then
    [(.metaLevelTenant, v.tenant), (.metaLevelCloud, v.cloud), (.metaLevelGroup, v.group)]
  else if v.cloud ≠ "" then [(.metaLevelTenant, v.tenant), (.metaLevelCloud, v.cloud)]
  else [(.metaLevelTenant, v.tenant)]

/-- The first failure on the way from `node` (whose path is `nsPath`) through the levels
`levels`, shallowest level first: a level without a value gives the error that the tag of
this level is missing, a value that names no child of the node reached so far gives the
error that names the path of the missing child; nothing deeper is looked at.  The errors
carry the rule kind `rule` and the file path `path`. -/
def firstFailure (rule path : String) (node : Namespace) (nsPath : String) :
    List (metaLevel × String) → Option Err
  | [] => none
  | (level, value) :: levels =>
    if value = "" then some (Err.noTag level rule path)
    else
      match mapGet node.childMap value with
      | none => some (Err.nonExistent level rule path (nsPath ++ "/" ++ value))
      | some child => firstFailure rule path child (nsPath ++ "/" ++ value) levels

/-- The namespace path an error names, if it names one. -/
def Err.namespacePath : Err → Option String
  | .nonExistent _ _ _ ns => some ns
  | _ => none

/-- The shallowest level that has no value although a deeper level has one, when there is
such a gap at the shallowest level without a value. -/
def gapLevel (v : orgValues) : Option metaLevel :=
  if v.tenant = "" then
    if v.cloud ≠ "" ∨ v.group ≠ "" ∨ v.kubernetes ≠ "" then some .metaLevelTenant else none
  else if v.cloud = "" then
    if v.group ≠ "" ∨ v.kubernetes ≠ "" then some .metaLevelCloud else none
  else if v.group = "" then
    if v.kubernetes ≠ "" then some .metaLevelGroup else none
  else none

/-- The values of the levels above `level`, shallowest first. -/
def valuesAbove (v : orgValues) (level : metaLevel) : List String :=
  [v.tenant, v.cloud, v.group, v.kubernetes].take (level.depth - 1)

/-- Whether an error reports a label that is not the label of the file. -/
def Err.isLabelMismatch : Err → Bool
  | .labelMismatch _ _ _ => true
  | _ => false

mutual
/-- All the documents of the subtree of a node: those of its child nodes, then its own, in
the order of the maps. -/
def Namespace.documents : Namespace → List file
  | .mk childMap _ _ _ _ _ fileMap _ _ _ _ _ =>
    documentsOfChildren childMap ++ fileMap.map (fun entry => entry.2)
/-- The documents of the subtrees of the nodes of a child map. -/
def documentsOfChildren : List (String × Namespace) → List file
  | [] => []
  | (_, m) :: rest => Namespace.documents m ++ documentsOfChildren rest
end

/-- The errors of the validation of each document of a list, put together in the order of
the list; `none` when the validation of one of them panics. -/
def validateAll (rootNamespace : Namespace) : List file → Option (List Err)
  | [] => some []
  | f :: fs =>
    match f.validate rootNamespace with
    | none => none
    | some err =>
      match validateAll rootNamespace fs with
      | none => none
      | some errs => some (err ++ errs)

/-- The reference errors of the object tag-groups of the rules of a list of rule pointers,
checked as rules of the kind `rule`. -/
def referenceErrorsOfRules (rootNamespace : Namespace) (t : file) (rule : String)
    (rules : List (Option prisma.Rule)) : List Err :=
  (objectsOfRules rules).flatMap (fun object => objectCheck rootNamespace t [] rule object)

/-- The reference errors of the rules of a list of ruleset pointers: for each ruleset those
of its outgoing rules, then those of its incoming rules. -/
def referenceErrors (rootNamespace : Namespace) (t : file)
    (policies : List (Option prisma.Networkrulesetpolicy)) : List Err :=
  policies.flatMap (fun ruleset => match ruleset with
    | none => []
    | some rs =>
      referenceErrorsOfRules rootNamespace t "OutgoingRules" rs.OutgoingRules
        ++ referenceErrorsOfRules rootNamespace t "IncomingRules" rs.IncomingRules)

/-- The canonical chain of a node (spec 4.3, step 1): the tags `@org:tenant`,
`@org:cloudaccount`, `@org:group`, `@org:kubernetes` with the identity fields of the node, as
far as the level of the node goes; the root has none. -/
def canonicalChain (node : Namespace) : List String :=
  match node.level with
  | .metaLevelRoot => []
  | .metaLevelTenant => ["@org:tenant=" ++ node.tenant]
  | .metaLevelCloud => ["@org:tenant=" ++ node.tenant, "@org:cloudaccount=" ++ node.cloud]
  | .metaLevelGroup =>
    ["@org:tenant=" ++ node.tenant, "@org:cloudaccount=" ++ node.cloud,
      "@org:group=" ++ node.group]
  | .metaLevelKubernetes =>
    ["@org:tenant=" ++ node.tenant, "@org:cloudaccount=" ++ node.cloud,
      "@org:group=" ++ node.group, "@org:kubernetes=" ++ node.kubernetes]

/-- The subject the sanitizer is to give a ruleset of a document of `node` (spec 4.3, steps 2
and 3): one tag-group, made of the tags of all subject tag-groups that do not start with
`@org:`, in their order, followed by the canonical chain of the node. -/
def canonicalSubject (node : Namespace) (subject : List (List String)) : List (List String) :=
  [subject.flatten.filter (fun tag => !HasPrefix tag "@org:") ++ canonicalChain node]

/-- The document of a file has content that `sanatize` can go through: when there is a
document, its data section is present and no ruleset pointer is nil. -/
def sanatizable (t : file) : Prop :=
  ∀ prismaConfig, t.prismaConfig = some prismaConfig →
    ∃ data, prismaConfig.Data = some data ∧ none ∉ data.Networkrulesetpolicies

/-- The file a call of `sanatize` that returns leaves in memory, for a file of the node
`parent`: a document with content has the label of the file and, in each ruleset, the
canonical subject; nothing else is touched. -/
def file.rewritten (parent : Namespace) (t : file) : file :=
  match t.prismaConfig with
  | none => t
  | some prismaConfig =>
    match prismaConfig.Data with
    | none => t
    | some data =>
      { t with
        prismaConfig := some { prismaConfig with
          Label := t.label
          Data := some { data with
            Networkrulesetpolicies :=
              data.Networkrulesetpolicies.map (Option.map (fun rs =>
                { rs with Subject := canonicalSubject parent rs.Subject })) } } }

/-- The node with the field `restore` set. -/
def Namespace.setRestore : Namespace → String → Namespace
  | .mk childMap level tenant cloud group kubernetes fileMap path rpath label _ verbose, s =>
    .mk childMap level tenant cloud group kubernetes fileMap path rpath label s verbose

mutual
/-- The subtree of a node with every file of a node whose level is not the root level
replaced by its rewritten file. -/
def Namespace.rewritten : Namespace → Namespace
  | .mk childMap level tenant cloud group kubernetes fileMap path rpath label restore verbose =>
    .mk (rewrittenChildMap childMap) level tenant cloud group kubernetes
      (if level ≠ .metaLevelRoot then
        fileMap.map (fun entry => (entry.1, entry.2.rewritten
          (.mk childMap level tenant cloud group kubernetes fileMap path rpath label restore
            verbose)))
      else fileMap)
      path rpath label restore verbose
/-- The child map with every subtree rewritten. -/
def rewrittenChildMap : List (String × Namespace) → List (String × Namespace)
  | [] => []
  | (k, m) :: rest => (k, Namespace.rewritten m) :: rewrittenChildMap rest
end

mutual
/-- The documents of the subtree of a node, each with the node that holds it, in the order
of `Namespace.documents`. -/
def Namespace.owned : Namespace → List (Namespace × file)
  | .mk childMap level tenant cloud group kubernetes fileMap path rpath label restore verbose =>
    ownedOfChildren childMap ++ fileMap.map (fun entry =>
      (.mk childMap level tenant cloud group kubernetes fileMap path rpath label restore
        verbose, entry.2))
/-- The documents of the subtrees of the nodes of a child map, with their nodes. -/
def ownedOfChildren : List (String × Namespace) → List (Namespace × file)
  | [] => []
  | (_, m) :: rest => Namespace.owned m ++ ownedOfChildren rest
end

/-- The effects of a pass over a list of documents: the field `restore` of the root
namespace after the pass, the file system operations, the errors. -/
structure passEffects where
  restore : String
  ops : List FsOp
  err : List Err
deriving DecidableEq, Repr

/-- The calls of `sanatize` on the documents of a list, one after the other; the documents
of a node at the root level are passed over. -/
def sanatizeAll (env : Env) : String → List (Namespace × file) → Option passEffects
  | restore, [] => some { restore := restore, ops := [], err := [] }
  | restore, (parent, t) :: rest =>
    if parent.level = .metaLevelRoot then sanatizeAll env restore rest
    else
      match t.sanatize env parent restore with
      | none => none
      | some r =>
        match sanatizeAll env r.restore rest with
        | none => none
        | some e =>
          some { restore := e.restore, ops := r.ops ++ e.ops, err := r.err.toList ++ e.err }

/-- The write of `restore.sh` at the end of `Sanatize` of a node with path `path` whose
field `restore` holds `restore`: the operation, when the write succeeds. -/
def scriptOps (env : Env) (path restore : String) : List FsOp :=
  if restore ≠ "" then
    match env.writeFile (path ++ "/restore.sh") with
    | some _ => []
    | none => [FsOp.writeScript (path ++ "/restore.sh") (restoreScript ++ restore)]
  else []

/-- The write of `restore.sh` at the end of `Sanatize`: the error, when the write fails. -/
def scriptErrors (env : Env) (path restore : String) : List Err :=
  if restore ≠ "" then
    match env.writeFile (path ++ "/restore.sh") with
    | some e => [Err.io e]
    | none => []
  else []

/-- A node as `read` makes the nodes below the root: its level is not the root level, its
field `restore` is empty, and each file of its file map carries the file name it is stored
under and the paths of the node extended by that name. -/
def Namespace.innerNode (t : Namespace) : Prop :=
  t.level ≠ .metaLevelRoot ∧ t.restore = "" ∧
  ∀ entry ∈ t.fileMap, entry.2.filename = entry.1 ∧ entry.2.path = t.path ++ "/" ++ entry.1 ∧
    entry.2.rpath = t.rpath ++ "/" ++ entry.1

mutual
/-- Every node of the subtree is an inner node. -/
def Namespace.inner : Namespace → Prop
  | .mk childMap level tenant cloud group kubernetes fileMap path rpath label restore verbose =>
    Namespace.innerNode
      (.mk childMap level tenant cloud group kubernetes fileMap path rpath label restore verbose)
    ∧ innerList childMap
/-- Every node of the subtrees of a child map is an inner node. -/
def innerList : List (String × Namespace) → Prop
  | [] => True
  | (_, m) :: rest => Namespace.inner m ∧ innerList rest
end

/-- The line `addRestore` writes for a file of the node `parent`. -/
def cpLine (parent : Namespace) (t : file) : String :=
  "cp " ++ (parent.rpath ++ "/.original" ++ "/" ++ t.filename) ++ " " ++ t.rpath ++ "\n"

/-- The operation that archives a file of the node `parent`. -/
def archiveOp (parent : Namespace) (t : file) : FsOp :=
  FsOp.rename t.path (parent.path ++ "/.original" ++ "/" ++ t.filename)

/-- Each file of the file map carries its file name and the paths of the node. -/
def filesOK (t : Namespace) : Prop :=
  ∀ entry ∈ t.fileMap, entry.2.filename = entry.1 ∧ entry.2.path = t.path ++ "/" ++ entry.1 ∧
    entry.2.rpath = t.rpath ++ "/" ++ entry.1

/-- What the rewriting of the tree does to a document and its node. -/
def rewrittenPair (pf : Namespace × file) : Namespace × file :=
  (pf.1.rewritten, if pf.1.level ≠ .metaLevelRoot then pf.2.rewritten pf.1 else pf.2)

/-- Whether an operation archives a file (`os.Rename`). -/
def FsOp.isRename : FsOp → Bool
  | .rename _ _ => true
  | _ => false

/-- Whether `sanatize` archives the file `t` of the node `parent` in the environment `env`:
it returns and has moved the file to the `.original` directory of the node. -/
def file.archived (env : Env) (parent : Namespace) (t : file) : Bool :=
  match t.sanatize env parent "" with
  | some r => decide (archiveOp parent t ∈ r.ops)
  | none => false

/-- The documents of a list that a pass archives: those of a node that is not at the root
level which `sanatize` archives. -/
def archivedOf (env : Env) (l : List (Namespace × file)) : List (Namespace × file) :=
  l.filter (fun pf => decide (pf.1.level ≠ .metaLevelRoot) && pf.2.archived env pf.1)

/-- The lines of the restore string for the archived documents of a list, in the order of
the list. -/
def ledgerOf (env : Env) (l : List (Namespace × file)) : String :=
  String.join ((archivedOf env l).map (fun pf => cpLine pf.1 pf.2))

/-- The documents of a node itself, each with the node. -/
def Namespace.ownFiles (t : Namespace) : List (Namespace × file) :=
  t.fileMap.map (fun entry => (t, entry.2))

/-- A ruleset with its subject left out. -/
def withoutSubject (rs : prisma.Networkrulesetpolicy) : prisma.Networkrulesetpolicy :=
  { rs with Subject := [] }

/-- The text of `s` before its first `=`; all of `s` when it has none. -/
def beforeEq (s : String) : String := String.mk (s.data.takeWhile (fun c => c ≠ '='))

/-- The text of `s` after its first `=`; empty when it has none. -/
def afterEq (s : String) : String := String.mk (s.data.dropWhile (fun c => c ≠ '=')).tail

/-- The number of `=` characters of `s`. -/
def countEq (s : String) : Nat := s.data.count '='

/-- A document with the subject of every ruleset left out. -/
def configWithoutSubjects (prismaConfig : prisma.Config) : prisma.Config :=
  { prismaConfig with
    Data := prismaConfig.Data.map (fun data =>
      { data with
        Networkrulesetpolicies :=
          data.Networkrulesetpolicies.map (Option.map withoutSubject) }) }

/-- A file with the subject of every ruleset of its document left out. -/
def file.withoutSubjects (t : file) : file :=
  { t with prismaConfig := t.prismaConfig.map configWithoutSubjects }

/-- The identity fields of a node, as tag-group values. -/
def Namespace.values (t : Namespace) : orgValues :=
  { tenant := t.tenant, cloud := t.cloud, group := t.group, kubernetes := t.kubernetes }

/-! ## Concrete trees -/

/-- The data of a policy document: one ruleset, whose subject has a stale tenant tag and
whose outgoing rule refers to `T1/C1`. -/
def exampleData : prisma.Data :=
  { Apiauthorizationpolicies := []
    Externalnetworks := []
    Networkrulesetpolicies := [some
      { Description := ""
        Name := "app"
        IncomingRules := []
        OutgoingRules := [some
          { Action := "Allow"
            LogsDisabled := false
            Object := [["@org:tenant=T1", "@org:cloudaccount=C1", "app=database"]]
            ObservationEnabled := false
            ProtocolPorts := ["tcp/5432"] }]
        Propagate := false
        Subject := [["app=database", "@org:tenant=bogus"]]
        Protected := false
        AssociatedTags := []
        Annotations := none }] }

/-- A policy document with the data `exampleData` and the label of
`root/T1/C1/G1/K1/policy.yaml`. -/
def examplePolicy : prisma.Config :=
  { Label := "T1:C1:G1:K1:policy.yaml"
    APIVersion := 0
    Data := some exampleData
    Identities := [] }

/-- The directory tree `root/T1/C1/G1/K1/policy.yaml`. -/
def exampleFs : FsEntry :=
  .dir "root" none [.dir "T1" none [.dir "C1" none [.dir "G1" none [.dir "K1" none
    [.file "policy.yaml" none (some examplePolicy)]]]]]

/-- The document of `exampleFs` as `read` registers it. -/
def exampleFile : file :=
  { filename := "policy.yaml"
    path := "root/T1/C1/G1/K1/policy.yaml"
    rpath := "T1/C1/G1/K1/policy.yaml"
    label := "T1:C1:G1:K1:policy.yaml"
    prismaConfig := some examplePolicy }

/-- The kubernetes-level node of the tree of `exampleFs`. -/
def exampleK1 : Namespace :=
  .mk [] .metaLevelKubernetes "T1" "C1" "G1" "K1" [("policy.yaml", exampleFile)]
    "root/T1/C1/G1/K1" "T1/C1/G1/K1" "T1:C1:G1:K1" "" false

/-- The group-level node of the tree of `exampleFs`. -/
def exampleG1 : Namespace :=
  .mk [("K1", exampleK1)] .metaLevelGroup "T1" "C1" "G1" "" [] "root/T1/C1/G1" "T1/C1/G1"
    "T1:C1:G1" "" false

/-- The cloud-level node of the tree of `exampleFs`. -/
def exampleC1 : Namespace :=
  .mk [("G1", exampleG1)] .metaLevelCloud "T1" "C1" "" "" [] "root/T1/C1" "T1/C1" "T1:C1" ""
    false

/-- The tenant-level node of the tree of `exampleFs`. -/
def exampleT1 : Namespace :=
  .mk [("C1", exampleC1)] .metaLevelTenant "T1" "" "" "" [] "root/T1" "T1" "T1" "" false

/-- The root of the tree of `exampleFs`. -/
def exampleRoot : Namespace :=
  .mk [("T1", exampleT1)] .metaLevelRoot "" "" "" "" [] "root" "" "" "" false

/-- The tenant-level node `T1` with the one document `notesyaml` that has no content. -/
def exampleNotes : Namespace :=
  .mk [] .metaLevelTenant "T1" "" "" "" [("notesyaml",
      { filename := "notesyaml"
        path := "root/T1/notesyaml"
        rpath := "T1/notesyaml"
        label := "T1:notesyaml"
        prismaConfig := none })]
    "root/T1" "T1" "T1" "" false

/-- A directory tree with failures: the tenant directory `T1` cannot be listed, the file
`a.yaml` of the tenant `T2` cannot be decoded, and `stray.yml` lies in the root. -/
def exampleBrokenFs : FsEntry :=
  .dir "root" none
    [.dir "T1" (some "open root/T1: permission denied") [],
     .dir "T2" none
       [.file "a.yaml" (some "yaml: line 1: did not find expected key") none,
        .file "b.yaml" none (some examplePolicy),
        .dir "C1" none []],
     .file "stray.yml" none none]

/-- The tenant-level node `newNamespace` creates for the directory `T2` of `root`. -/
def exampleT2 : Namespace :=
  .mk [] .metaLevelTenant "T2" "" "" "" [] "root/T2" "T2" "T2" "" false

/-- The document `examplePolicy` with the label `stale`. -/
def exampleStalePolicy : prisma.Config := { examplePolicy with Label := "stale" }

/-- A document with the label of `root/T1/C1/G1/K1/policy.yaml` and no data section. -/
def exampleNoData : prisma.Config :=
  { Label := "T1:C1:G1:K1:policy.yaml", APIVersion := 0, Data := none, Identities := [] }

/-- A document with the label of `root/T1/C1/G1/K1/policy.yaml`, a nil ruleset and a ruleset
without rules. -/
def exampleNoRules : prisma.Config :=
  { Label := "T1:C1:G1:K1:policy.yaml"
    APIVersion := 0
    Data := some
      { Apiauthorizationpolicies := []
        Externalnetworks := []
        Networkrulesetpolicies := [none, some
          { Description := ""
            Name := "empty"
            IncomingRules := []
            OutgoingRules := []
            Propagate := false
            Subject := []
            Protected := false
            AssociatedTags := []
            Annotations := none }] }
    Identities := [] }

/-- An environment in which every call succeeds; the string of a ruleset is its name
followed by its subject tags. -/
def exampleEnv : Env :=
  { mkdirAll := fun _ => none
    rename := fun _ _ => none
    marshal := fun _ => none
    writeFile := fun _ => none
    rulesetString := fun ruleset =>
      match ruleset with
      | none => "null"
      | some rs => rs.Name ++ "[" ++ ",".intercalate rs.Subject.flatten ++ "]" }

/-- The document `examplePolicy` as the sanitizer leaves it at `root/T1/C1/G1/K1`. -/
def exampleSanatizedPolicy : prisma.Config :=
  { Label := "T1:C1:G1:K1:policy.yaml"
    APIVersion := 0
    Data := some
      { Apiauthorizationpolicies := []
        Externalnetworks := []
        Networkrulesetpolicies := [some
          { Description := ""
            Name := "app"
            IncomingRules := []
            OutgoingRules := [some
              { Action := "Allow"
                LogsDisabled := false
                Object := [["@org:tenant=T1", "@org:cloudaccount=C1", "app=database"]]
                ObservationEnabled := false
                ProtocolPorts := ["tcp/5432"] }]
            Propagate := false
            Subject := [["app=database", "@org:tenant=T1", "@org:cloudaccount=C1",
              "@org:group=G1", "@org:kubernetes=K1"]]
            Protected := false
            AssociatedTags := []
            Annotations := none }] }
    Identities := [] }

/-- The file `exampleFile` after `sanatize`. -/
def exampleSanatizedFile : file := { exampleFile with prismaConfig := some exampleSanatizedPolicy }

/-- What `sanatize` of `exampleFile` leaves behind in `exampleEnv`, started with an empty
restore string. -/
def exampleSanatizeResult : sanatizeResult :=
  { t := exampleSanatizedFile
    restore := "cp T1/C1/G1/K1/.original/policy.yaml T1/C1/G1/K1/policy.yaml\n"
    ops :=
      [FsOp.mkdirAll "root/T1/C1/G1/K1/.original",
       FsOp.rename "root/T1/C1/G1/K1/policy.yaml" "root/T1/C1/G1/K1/.original/policy.yaml",
       FsOp.writeConfig "root/T1/C1/G1/K1/policy.yaml" exampleSanatizedPolicy]
    err := none }

/-- The content of `restore.sh` after the pass over the tree of `exampleFs`. -/
def exampleScript : String :=
  "\n#!/bin/sh -e\n\ncd \"$(dirname \"$0\")\"\n\ncp T1/C1/G1/K1/.original/policy.yaml T1/C1/G1/K1/policy.yaml\n"

/-- What `Sanatize` of the root of the tree of `exampleFs` leaves behind in `exampleEnv`. -/
def exampleTreeResult : passResult Namespace :=
  { value := exampleRoot.rewritten.setRestore exampleSanatizeResult.restore
    restore := exampleSanatizeResult.restore
    ops := exampleSanatizeResult.ops ++ [FsOp.writeScript "root/restore.sh" exampleScript]
    err := [] }

/-- The directory tree with the documents `root/T1/C1/policy.yaml` and
`root/T1/policy.yaml`. -/
def exampleNestedFs : FsEntry :=
  .dir "root" none [.dir "T1" none
    [.dir "C1" none [.file "policy.yaml" none (some examplePolicy)],
     .file "policy.yaml" none (some examplePolicy)]]

/-- The cloud-level node of the tree of `exampleNestedFs`. -/
def exampleNestedC1 : Namespace :=
  .mk [] .metaLevelCloud "T1" "C1" "" "" [("policy.yaml",
      { filename := "policy.yaml"
        path := "root/T1/C1/policy.yaml"
        rpath := "T1/C1/policy.yaml"
        label := "T1:C1:policy.yaml"
        prismaConfig := some examplePolicy })]
    "root/T1/C1" "T1/C1" "T1:C1" "" false

/-- The tenant-level node of the tree of `exampleNestedFs`. -/
def exampleNestedT1 : Namespace :=
  .mk [("C1", exampleNestedC1)] .metaLevelTenant "T1" "" "" "" [("policy.yaml",
      { filename := "policy.yaml"
        path := "root/T1/policy.yaml"
        rpath := "T1/policy.yaml"
        label := "T1:policy.yaml"
        prismaConfig := some examplePolicy })]
    "root/T1" "T1" "T1" "" false

/-- The root of the tree of `exampleNestedFs`. -/
def exampleNestedRoot : Namespace :=
  .mk [("T1", exampleNestedT1)] .metaLevelRoot "" "" "" "" [] "root" "" "" "" false

/-- What `Sanatize` of the node `T1` of the tree of `exampleNestedFs` leaves behind in
`exampleEnv`, started with an empty restore string. -/
def exampleNestedResult : passResult Namespace :=
  { value := exampleNestedT1.rewritten
    restore := "cp T1/C1/.original/policy.yaml T1/C1/policy.yaml\n"
      ++ "cp T1/.original/policy.yaml T1/policy.yaml\n"
    ops :=
      [FsOp.mkdirAll "root/T1/C1/.original",
       FsOp.rename "root/T1/C1/policy.yaml" "root/T1/C1/.original/policy.yaml",
       FsOp.writeConfig "root/T1/C1/policy.yaml"
         { examplePolicy with
           Label := "T1:C1:policy.yaml"
           Data := some { exampleData with
             Networkrulesetpolicies := exampleData.Networkrulesetpolicies.map (Option.map
               (fun rs => { rs with Subject := canonicalSubject exampleNestedC1 rs.Subject })) } },
       FsOp.mkdirAll "root/T1/.original",
       FsOp.rename "root/T1/policy.yaml" "root/T1/.original/policy.yaml",
       FsOp.writeConfig "root/T1/policy.yaml"
         { examplePolicy with
           Label := "T1:policy.yaml"
           Data := some { exampleData with
             Networkrulesetpolicies := exampleData.Networkrulesetpolicies.map (Option.map
               (fun rs => { rs with Subject := canonicalSubject exampleNestedT1 rs.Subject })) } }]
    err := [] }

/-- A policy document with a stale label whose outgoing rule refers to the cloud account
`ghost` of the tenant `T1`. -/
def exampleGhostPolicy : prisma.Config :=
  { Label := "stale"
    APIVersion := 0
    Data := some
      { Apiauthorizationpolicies := []
        Externalnetworks := []
        Networkrulesetpolicies := [some
          { Description := ""
            Name := "app"
            IncomingRules := []
            OutgoingRules := [some
              { Action := "Allow"
                LogsDisabled := false
                Object := [["@org:tenant=T1", "@org:cloudaccount=ghost", "app=database"]]
                ObservationEnabled := false
                ProtocolPorts := ["tcp/5432"] }]
            Propagate := false
            Subject := [["app=web"]]
            Protected := false
            AssociatedTags := []
            Annotations := none }] }
    Identities := [] }

/-- The directory tree `root/T1/policy.yaml` with the document `exampleGhostPolicy`. -/
def exampleGhostFs : FsEntry :=
  .dir "root" none [.dir "T1" none [.file "policy.yaml" none (some exampleGhostPolicy)]]

/-- The root of the tree of `exampleGhostFs`. -/
def exampleGhostRoot : Namespace :=
  .mk [("T1", .mk [] .metaLevelTenant "T1" "" "" "" [("policy.yaml",
      { filename := "policy.yaml"
        path := "root/T1/policy.yaml"
        rpath := "T1/policy.yaml"
        label := "T1:policy.yaml"
        prismaConfig := some exampleGhostPolicy })]
    "root/T1" "T1" "T1" "" false)] .metaLevelRoot "" "" "" "" [] "root" "" "" "" false

/-- The document `exampleGhostPolicy` as the sanitizer leaves it at `root/T1`. -/
def exampleGhostSanatized : prisma.Config :=
  { Label := "T1:policy.yaml"
    APIVersion := 0
    Data := some
      { Apiauthorizationpolicies := []
        Externalnetworks := []
        Networkrulesetpolicies := [some
          { Description := ""
            Name := "app"
            IncomingRules := []
            OutgoingRules := [some
              { Action := "Allow"
                LogsDisabled := false
                Object := [["@org:tenant=T1", "@org:cloudaccount=ghost", "app=database"]]
                ObservationEnabled := false
                ProtocolPorts := ["tcp/5432"] }]
            Propagate := false
            Subject := [["app=web", "@org:tenant=T1"]]
            Protected := false
            AssociatedTags := []
            Annotations := none }] }
    Identities := [] }

/-- What `Sanatize` of the root of the tree of `exampleGhostFs` leaves behind in
`exampleEnv`. -/
def exampleGhostResult : passResult Namespace :=
  { value := exampleGhostRoot.rewritten.setRestore
      "cp T1/.original/policy.yaml T1/policy.yaml\n"
    restore := "cp T1/.original/policy.yaml T1/policy.yaml\n"
    ops :=
      [FsOp.mkdirAll "root/T1/.original",
       FsOp.rename "root/T1/policy.yaml" "root/T1/.original/policy.yaml",
       FsOp.writeConfig "root/T1/policy.yaml" exampleGhostSanatized,
       FsOp.writeScript "root/restore.sh"
         (restoreScript ++ "cp T1/.original/policy.yaml T1/policy.yaml\n")]
    err := [] }

/-- The directory tree `root/T1/policy.yaml` whose document has no data section. -/
def exampleNoDataFs : FsEntry :=
  .dir "root" none [.dir "T1" none [.file "policy.yaml" none (some exampleNoData)]]

/-- The root of the tree of `exampleNoDataFs`. -/
def exampleNoDataRoot : Namespace :=
  .mk [("T1", .mk [] .metaLevelTenant "T1" "" "" "" [("policy.yaml",
      { filename := "policy.yaml"
        path := "root/T1/policy.yaml"
        rpath := "T1/policy.yaml"
        label := "T1:policy.yaml"
        prismaConfig := some exampleNoData })]
    "root/T1" "T1" "T1" "" false)] .metaLevelRoot "" "" "" "" [] "root" "" "" "" false

/-- The directory tree `root/T1/policy.yaml` whose document has a nil entry in its list of
rulesets. -/
def exampleNilRulesetFs : FsEntry :=
  .dir "root" none [.dir "T1" none [.file "policy.yaml" none (some exampleNoRules)]]

/-- The root of the tree of `exampleNilRulesetFs`. -/
def exampleNilRulesetRoot : Namespace :=
  .mk [("T1", .mk [] .metaLevelTenant "T1" "" "" "" [("policy.yaml",
      { filename := "policy.yaml"
        path := "root/T1/policy.yaml"
        rpath := "T1/policy.yaml"
        label := "T1:policy.yaml"
        prismaConfig := some exampleNoRules })]
    "root/T1" "T1" "T1" "" false)] .metaLevelRoot "" "" "" "" [] "root" "" "" "" false

/-- A document with the label of `root/T1/policy.yaml` and one ruleset, whose list of
outgoing rules holds a nil entry. -/
def exampleNilRule : prisma.Config :=
  { Label := "T1:policy.yaml"
    APIVersion := 0
    Data := some
      { Apiauthorizationpolicies := []
        Externalnetworks := []
        Networkrulesetpolicies := [some
          { Description := ""
            Name := "app"
            IncomingRules := []
            OutgoingRules := [none]
            Propagate := false
            Subject := [["app=web"]]
            Protected := false
            AssociatedTags := []
            Annotations := none }] }
    Identities := [] }

/-- The directory tree `root/T1/policy.yaml` with the document `exampleNilRule`. -/
def exampleNilRuleFs : FsEntry :=
  .dir "root" none [.dir "T1" none [.file "policy.yaml" none (some exampleNilRule)]]

/-- The document of `exampleNilRuleFs` as `read` registers it. -/
def exampleNilRuleFile : file :=
  { filename := "policy.yaml"
    path := "root/T1/policy.yaml"
    rpath := "T1/policy.yaml"
    label := "T1:policy.yaml"
    prismaConfig := some exampleNilRule }

/-- The root of the tree of `exampleNilRuleFs`. -/
def exampleNilRuleRoot : Namespace :=
  .mk [("T1", .mk [] .metaLevelTenant "T1" "" "" "" [("policy.yaml", exampleNilRuleFile)]
    "root/T1" "T1" "T1" "" false)] .metaLevelRoot "" "" "" "" [] "root" "" "" "" false

/-- A case table for the characters outside ASCII that maps U+017F (the long s) to `S`, as
`unicode.ToUpper` does, and keeps every other character. -/
def exampleUpper : Char → Char := fun c => if c = Char.ofNat 0x17F then 'S' else c

/-- The ruleset of `exampleSanatizedPolicy`. -/
def exampleSanatizedRuleset : prisma.Networkrulesetpolicy :=
  { Description := ""
    Name := "app"
    IncomingRules := []
    OutgoingRules := [some
      { Action := "Allow"
        LogsDisabled := false
        Object := [["@org:tenant=T1", "@org:cloudaccount=C1", "app=database"]]
        ObservationEnabled := false
        ProtocolPorts := ["tcp/5432"] }]
    Propagate := false
    Subject := [["app=database", "@org:tenant=T1", "@org:cloudaccount=C1", "@org:group=G1",
      "@org:kubernetes=K1"]]
    Protected := false
    AssociatedTags := []
    Annotations := none }

/-- The data section of `exampleSanatizedPolicy`. -/
def exampleSanatizedData : prisma.Data :=
  { Apiauthorizationpolicies := []
    Externalnetworks := []
    Networkrulesetpolicies := [some exampleSanatizedRuleset] }

/-! # Lemmas -/

/-! ## Maps -/

theorem mapGet_mapSet {β : Type} (m : List (String × β)) (k : String) (v : β) (k2 : String) :
    mapGet (mapSet m k v) k2 = if k = k2 then some v else mapGet m k2 := by
  induction m with
  | nil => simp [mapSet, mapGet]
  | cons kv rest ih =>
    obtain ⟨k1, v1⟩ := kv
    by_cases h1 : k1 = k
    · subst h1
      by_cases h2 : k1 = k2 <;> simp [mapSet, mapGet, h2]
    · by_cases h2 : k1 = k2
      · subst h2
        have h3 : ¬ k = k1 := fun h => h1 h.symm
        simp [mapSet, mapGet, h1, h3]
      · simp [mapSet, mapGet, h1, h2, ih]

theorem header_level {t u : Namespace} (h : t.header = u.header) : t.level = u.level := by
  simp only [Namespace.header, Prod.mk.injEq] at h; exact h.1

theorem header_path {t u : Namespace} (h : t.header = u.header) : t.path = u.path := by
  simp only [Namespace.header, Prod.mk.injEq] at h; exact h.2.2.2.2.2.1

theorem header_label {t u : Namespace} (h : t.header = u.header) : t.label = u.label := by
  simp only [Namespace.header, Prod.mk.injEq] at h; exact h.2.2.2.2.2.2.2.1

theorem newNamespace_congr {t u : Namespace} (h : t.header = u.header) (name : String) :
    t.newNamespace name = u.newNamespace name := by
  simp only [Namespace.header, Prod.mk.injEq] at h
  obtain ⟨h1, h2, h3, h4, h5, h6, h7, h8, -, h10⟩ := h
  simp only [Namespace.newNamespace, h1, h2, h3, h4, h5, h6, h7, h8, h10]

theorem newFile_congr {t u : Namespace} (h : t.header = u.header) (name : String) :
    t.newFile name = u.newFile name := by
  simp only [Namespace.header, Prod.mk.injEq] at h
  obtain ⟨-, -, -, -, -, h6, h7, h8, -, -⟩ := h
  simp only [Namespace.newFile, h6, h7, h8]

theorem newNamespace_isSome (t : Namespace) (name : String)
    (h : t.level ≠ .metaLevelKubernetes) : ∃ m, t.newNamespace name = some m := by
  unfold Namespace.newNamespace
  cases hl : t.level <;> simp_all

theorem newNamespace_childMap {t m : Namespace} {name : String}
    (h : t.newNamespace name = some m) : m.childMap = [] ∧ m.fileMap = [] := by
  unfold Namespace.newNamespace at h
  cases hl : t.level <;> simp [hl] at h <;> subst h <;> exact ⟨rfl, rfl⟩

/-! ## The loop of `read` -/

theorem readLoop_nil (t : Namespace) (errors : List Err) :
    t.readLoop errors [] = some (t, errors) := by
  simp [Namespace.readLoop]

theorem readLoop_cons (t : Namespace) (errors : List Err) (e : FsEntry) (files : List FsEntry) :
    t.readLoop errors (e :: files)
      = (t.readStep errors e).bind (fun r => r.1.readLoop r.2 files) := by
  cases e with
  | file fileName loadErr config =>
    simp only [Namespace.readLoop, Namespace.readStep]
    split
    · split <;> rfl
    · rfl
  | dir fileName readErr entries =>
    simp only [Namespace.readLoop, Namespace.readStep]
    split
    · rfl
    · split
      · rfl
      · cases t.newNamespace fileName with
        | none => rfl
        | some m =>
          simp only []
          cases Namespace.read m (.dir fileName readErr entries) with
          | none => rfl
          | some r => rfl

theorem readLoop_append (a b : List FsEntry) : ∀ (t : Namespace) (errors : List Err),
    t.readLoop errors (a ++ b) = (t.readLoop errors a).bind (fun r => r.1.readLoop r.2 b) := by
  induction a with
  | nil => intro t errors; simp [readLoop_nil]
  | cons e a ih =>
    intro t errors
    simp only [List.cons_append, readLoop_cons]
    cases t.readStep errors e with
    | none => rfl
    | some r => simp [ih]

theorem readStep_header {t : Namespace} {errors : List Err} {e : FsEntry}
    {r : Namespace × List Err} (h : t.readStep errors e = some r) : r.1.header = t.header := by
  cases e with
  | file fileName loadErr config =>
    simp only [Namespace.readStep] at h
    split at h
    · split at h <;> (simp only [Option.some.injEq] at h; subst h; rfl)
    · simp only [Option.some.injEq] at h; subst h; rfl
  | dir fileName readErr entries =>
    simp only [Namespace.readStep] at h
    split at h
    · simp only [Option.some.injEq] at h; subst h; rfl
    · split at h
      · simp only [Option.some.injEq] at h; subst h; rfl
      · split at h
        · exact absurd h (by simp)
        · split at h
          · exact absurd h (by simp)
          · simp only [Option.some.injEq] at h; subst h; rfl

theorem readLoop_header (files : List FsEntry) : ∀ {t : Namespace} {errors : List Err}
    {r : Namespace × List Err}, t.readLoop errors files = some r → r.1.header = t.header := by
  induction files with
  | nil => intro t errors r h; simp [readLoop_nil] at h; subst h; rfl
  | cons e files ih =>
    intro t errors r h
    rw [readLoop_cons] at h
    cases hs : t.readStep errors e with
    | none => simp [hs] at h
    | some r1 =>
      simp only [hs, Option.some_bind] at h
      rw [ih h, readStep_header hs]

theorem read_header {t : Namespace} {fs : FsEntry} {r : Namespace × List Err}
    (h : t.read fs = some r) : r.1.header = t.header := by
  cases fs with
  | file name loadErr config =>
    simp only [Namespace.read, Option.some.injEq] at h; subst h; rfl
  | dir name readErr entries =>
    cases readErr with
    | some e => simp only [Namespace.read, Option.some.injEq] at h; subst h; rfl
    | none =>
      simp only [Namespace.read] at h
      exact readLoop_header entries h

/-- The errors gathered before a pass of the loop body stay in front of the new ones. -/
theorem readStep_errors (t : Namespace) (errors : List Err) (e : FsEntry) :
    t.readStep errors e = (t.readStep [] e).map (fun r => (r.1, errors ++ r.2)) := by
  cases e with
  | file fileName loadErr config =>
    simp only [Namespace.readStep]
    split
    · split <;> simp
    · simp
  | dir fileName readErr entries =>
    simp only [Namespace.readStep]
    split
    · simp
    · split
      · simp
      · cases t.newNamespace fileName with
        | none => rfl
        | some m =>
          simp only []
          cases Namespace.read m (.dir fileName readErr entries) with
          | none => rfl
          | some r => simp

theorem readLoop_errors (files : List FsEntry) : ∀ (t : Namespace) (errors : List Err),
    t.readLoop errors files = (t.readLoop [] files).map (fun r => (r.1, errors ++ r.2)) := by
  induction files with
  | nil => intro t errors; simp [readLoop_nil]
  | cons e files ih =>
    intro t errors
    rw [readLoop_cons, readLoop_cons, readStep_errors t errors e]
    cases t.readStep [] e with
    | none => rfl
    | some r1 =>
      simp only [Option.map_some', Option.some_bind]
      rw [ih r1.1 (errors ++ r1.2), ih r1.1 r1.2]
      cases r1.1.readLoop [] files with
      | none => rfl
      | some r2 => simp [List.append_assoc]

mutual
theorem read_returns : ∀ (fs : FsEntry) (t : Namespace), ∃ r, t.read fs = some r
  | .file _ _ _, t => by simp only [Namespace.read]; exact ⟨_, rfl⟩
  | .dir _ (some e) _, t => by simp only [Namespace.read]; exact ⟨_, rfl⟩
  | .dir _ none files, t => by
    simp only [Namespace.read]
    exact readLoop_returns files t []
theorem readLoop_returns : ∀ (files : List FsEntry) (t : Namespace) (errors : List Err),
    ∃ r, t.readLoop errors files = some r
  | [], t, errors => by simp only [Namespace.readLoop]; exact ⟨_, rfl⟩
  | .dir fileName readErr entries :: files, t, errors => by
    simp only [Namespace.readLoop]
    split
    · exact readLoop_returns files t _
    · split
      · exact readLoop_returns files t _
      · rename_i h1 h2
        obtain ⟨m, hm⟩ := newNamespace_isSome t fileName h2
        obtain ⟨⟨m1, e1⟩, hr⟩ := read_returns (.dir fileName readErr entries) m
        simp only [hm, hr]
        exact readLoop_returns files _ _
  | .file fileName loadErr config :: files, t, errors => by
    simp only [Namespace.readLoop]
    split
    · split
      · exact readLoop_returns files t _
      · exact readLoop_returns files _ _
    · exact readLoop_returns files t _
end

theorem readStep_returns (t : Namespace) (errors : List Err) (e : FsEntry) :
    ∃ r, t.readStep errors e = some r := by
  obtain ⟨r, hr⟩ := readLoop_returns [e] t errors
  rw [readLoop_cons] at hr
  cases hs : t.readStep errors e with
  | none => simp [hs] at hr
  | some r1 => exact ⟨r1, rfl⟩

theorem childOf_congr {p q : Namespace} (h : p.header = q.header) {k : String} {c : Namespace}
    (hc : childOf p k c) : childOf q k c := by
  obtain ⟨m, hm, hh⟩ := hc
  exact ⟨m, by rw [← newNamespace_congr h]; exact hm, hh⟩

theorem GoodChildren.treeInv {t : Namespace} (h : GoodChildren t) : TreeInv t := by
  intro names p k c hd hg
  cases names with
  | nil =>
    simp only [descend, Option.some.injEq] at hd
    subst hd
    exact (h k c hg).1
  | cons n ns =>
    simp only [descend] at hd
    cases hn : mapGet t.childMap n with
    | none => simp [hn] at hd
    | some child =>
      simp only [hn] at hd
      exact (h n child hn).2 ns p k c hd hg

theorem goodChildren_of_childMap_nil {t : Namespace} (h : t.childMap = []) : GoodChildren t := by
  intro k c hg
  simp [h, mapGet] at hg

theorem goodChildren_setFile {t : Namespace} (h : GoodChildren t) (k : String) (f : file) :
    GoodChildren (t.setFile k f) := by
  intro k2 c hg
  have := h k2 c hg
  exact ⟨childOf_congr (p := t) rfl this.1, this.2⟩

theorem goodChildren_setChild {t : Namespace} (h : GoodChildren t) (k : String)
    (c : Namespace) (hc : childOf t k c) (hi : TreeInv c) : GoodChildren (t.setChild k c) := by
  intro k2 c2 hg
  have hg2 : mapGet (mapSet t.childMap k c) k2 = some c2 := hg
  rw [mapGet_mapSet] at hg2
  by_cases hk : k = k2
  · subst hk
    simp only [if_true, Option.some.injEq] at hg2
    subst hg2
    exact ⟨childOf_congr (p := t) rfl hc, hi⟩
  · simp only [hk, if_false] at hg2
    have := h k2 c2 hg2
    exact ⟨childOf_congr (p := t) rfl this.1, this.2⟩

mutual
theorem read_goodChildren : ∀ (fs : FsEntry) (t : Namespace) (r : Namespace × List Err),
    GoodChildren t → t.read fs = some r → GoodChildren r.1
  | .file _ _ _, t, r, hg, h => by
    simp only [Namespace.read, Option.some.injEq] at h; subst h; exact hg
  | .dir _ (some e) _, t, r, hg, h => by
    simp only [Namespace.read, Option.some.injEq] at h; subst h; exact hg
  | .dir _ none files, t, r, hg, h => by
    simp only [Namespace.read] at h
    exact readLoop_goodChildren files t [] r hg h
theorem readLoop_goodChildren : ∀ (files : List FsEntry) (t : Namespace) (errors : List Err)
    (r : Namespace × List Err), GoodChildren t → t.readLoop errors files = some r →
    GoodChildren r.1
  | [], t, errors, r, hg, h => by
    simp only [Namespace.readLoop, Option.some.injEq] at h; subst h; exact hg
  | .dir fileName readErr entries :: files, t, errors, r, hg, h => by
    simp only [Namespace.readLoop] at h
    split at h
    · exact readLoop_goodChildren files t _ r hg h
    · split at h
      · exact readLoop_goodChildren files t _ r hg h
      · split at h
        · exact absurd h (by simp)
        · rename_i m hm
          split at h
          · exact absurd h (by simp)
          · rename_i m1 err hr
            have hm1 : GoodChildren m1 :=
              read_goodChildren (.dir fileName readErr entries) m (m1, err)
                (goodChildren_of_childMap_nil (newNamespace_childMap hm).1) hr
            have hh : m1.header = m.header := read_header hr
            exact readLoop_goodChildren files _ _ r
              (goodChildren_setChild hg fileName m1 ⟨m, hm, hh⟩ hm1.treeInv) h
  | .file fileName loadErr config :: files, t, errors, r, hg, h => by
    simp only [Namespace.readLoop] at h
    split at h
    · split at h
      · exact readLoop_goodChildren files t _ r hg h
      · exact readLoop_goodChildren files _ _ r (goodChildren_setFile hg _ _) h
    · exact readLoop_goodChildren files t _ r hg h
end

/-- What `NewNamespace` returns with a namespace: the root fields and the tree invariant. -/
theorem NewNamespace_spec {path : String} {verbose : Bool} {fs : FsEntry} {t : Namespace}
    {err : List Err} (h : NewNamespace path verbose fs = some (some t, err)) :
    t.header = (.metaLevelRoot, "", "", "", "", path, "", "", "", verbose) ∧ TreeInv t := by
  unfold NewNamespace at h
  split at h
  · simp at h
  · split at h
    · simp at h
    · rename_i t1 err1 hr
      simp only [Option.some.injEq, Prod.mk.injEq] at h
      obtain ⟨h1, h2⟩ := h
      subst h1
      have hg : GoodChildren
          (Namespace.mk [] .metaLevelRoot "" "" "" "" [] path "" "" "" verbose) :=
        goodChildren_of_childMap_nil rfl
      exact ⟨read_header hr, (read_goodChildren fs _ _ hg hr).treeInv⟩

theorem NewNamespace_returns (path : String) (verbose : Bool) (fs : FsEntry) (hp : path ≠ "") :
    ∃ t err, NewNamespace path verbose fs = some (some t, err) := by
  unfold NewNamespace
  obtain ⟨⟨t, err⟩, hr⟩ :=
    read_returns fs (Namespace.mk [] .metaLevelRoot "" "" "" "" [] path "" "" "" verbose)
  exact ⟨t, err, by simp [hp, hr]⟩

theorem descend_snoc (names : List String) (k : String) : ∀ (t : Namespace),
    descend (names ++ [k]) t = (descend names t).bind (fun p => mapGet p.childMap k) := by
  induction names with
  | nil =>
    intro t
    simp only [List.nil_append, descend, Option.some_bind]
    cases mapGet t.childMap k <;> rfl
  | cons n ns ih =>
    intro t
    simp only [List.cons_append, descend]
    cases mapGet t.childMap n with
    | none => rfl
    | some c => exact ih c

@[simp] theorem childMap_mk (cm : List (String × Namespace)) (lv : metaLevel) (te cl gr ku : String)
    (fm : List (String × file)) (pa rp lb rs : String) (vb : Bool) :
    (Namespace.mk cm lv te cl gr ku fm pa rp lb rs vb).childMap = cm := rfl

@[simp] theorem level_mk (cm : List (String × Namespace)) (lv : metaLevel) (te cl gr ku : String)
    (fm : List (String × file)) (pa rp lb rs : String) (vb : Bool) :
    (Namespace.mk cm lv te cl gr ku fm pa rp lb rs vb).level = lv := rfl

@[simp] theorem tenant_mk (cm : List (String × Namespace)) (lv : metaLevel) (te cl gr ku : String)
    (fm : List (String × file)) (pa rp lb rs : String) (vb : Bool) :
    (Namespace.mk cm lv te cl gr ku fm pa rp lb rs vb).tenant = te := rfl

@[simp] theorem cloud_mk (cm : List (String × Namespace)) (lv : metaLevel) (te cl gr ku : String)
    (fm : List (String × file)) (pa rp lb rs : String) (vb : Bool) :
    (Namespace.mk cm lv te cl gr ku fm pa rp lb rs vb).cloud = cl := rfl

@[simp] theorem group_mk (cm : List (String × Namespace)) (lv : metaLevel) (te cl gr ku : String)
    (fm : List (String × file)) (pa rp lb rs : String) (vb : Bool) :
    (Namespace.mk cm lv te cl gr ku fm pa rp lb rs vb).group = gr := rfl

@[simp] theorem kubernetes_mk (cm : List (String × Namespace)) (lv : metaLevel) (te cl gr ku : String)
    (fm : List (String × file)) (pa rp lb rs : String) (vb : Bool) :
    (Namespace.mk cm lv te cl gr ku fm pa rp lb rs vb).kubernetes = ku := rfl

@[simp] theorem fileMap_mk (cm : List (String × Namespace)) (lv : metaLevel) (te cl gr ku : String)
    (fm : List (String × file)) (pa rp lb rs : String) (vb : Bool) :
    (Namespace.mk cm lv te cl gr ku fm pa rp lb rs vb).fileMap = fm := rfl

@[simp] theorem path_mk (cm : List (String × Namespace)) (lv : metaLevel) (te cl gr ku : String)
    (fm : List (String × file)) (pa rp lb rs : String) (vb : Bool) :
    (Namespace.mk cm lv te cl gr ku fm pa rp lb rs vb).path = pa := rfl

@[simp] theorem rpath_mk (cm : List (String × Namespace)) (lv : metaLevel) (te cl gr ku : String)
    (fm : List (String × file)) (pa rp lb rs : String) (vb : Bool) :
    (Namespace.mk cm lv te cl gr ku fm pa rp lb rs vb).rpath = rp := rfl

@[simp] theorem label_mk (cm : List (String × Namespace)) (lv : metaLevel) (te cl gr ku : String)
    (fm : List (String × file)) (pa rp lb rs : String) (vb : Bool) :
    (Namespace.mk cm lv te cl gr ku fm pa rp lb rs vb).label = lb := rfl

@[simp] theorem restore_mk (cm : List (String × Namespace)) (lv : metaLevel) (te cl gr ku : String)
    (fm : List (String × file)) (pa rp lb rs : String) (vb : Bool) :
    (Namespace.mk cm lv te cl gr ku fm pa rp lb rs vb).restore = rs := rfl

@[simp] theorem verbose_mk (cm : List (String × Namespace)) (lv : metaLevel) (te cl gr ku : String)
    (fm : List (String × file)) (pa rp lb rs : String) (vb : Bool) :
    (Namespace.mk cm lv te cl gr ku fm pa rp lb rs vb).verbose = vb := rfl

theorem header_fields {t u : Namespace} (h : t.header = u.header) :
    t.level = u.level ∧ t.tenant = u.tenant ∧ t.cloud = u.cloud ∧ t.group = u.group ∧
      t.kubernetes = u.kubernetes ∧ t.label = u.label := by
  simp only [Namespace.header, Prod.mk.injEq] at h
  exact ⟨h.1, h.2.1, h.2.2.1, h.2.2.2.1, h.2.2.2.2.1, h.2.2.2.2.2.2.2.1⟩

/-- The fields `newNamespace` sets, read off a child. -/
theorem childOf_fields {p c : Namespace} {k : String} (h : childOf p k c) :
    c.level.depth = p.level.depth + 1 ∧
    c.label = (if p.label = "" then k else p.label ++ ":" ++ k) ∧
    c.identity = k ∧
    (p.level = .metaLevelRoot →
      c.tenant = k ∧ c.cloud = p.cloud ∧ c.group = p.group ∧ c.kubernetes = p.kubernetes) ∧
    (p.level = .metaLevelTenant →
      c.tenant = p.tenant ∧ c.cloud = k ∧ c.group = p.group ∧ c.kubernetes = p.kubernetes) ∧
    (p.level = .metaLevelCloud →
      c.tenant = p.tenant ∧ c.cloud = p.cloud ∧ c.group = k ∧ c.kubernetes = p.kubernetes) ∧
    (p.level = .metaLevelGroup →
      c.tenant = p.tenant ∧ c.cloud = p.cloud ∧ c.group = p.group ∧ c.kubernetes = k) ∧
    p.level ≠ .metaLevelKubernetes := by
  obtain ⟨m, hm, hh⟩ := h
  obtain ⟨h1, h2, h3, h4, h5, h6⟩ := header_fields hh
  unfold Namespace.newNamespace at hm
  cases hl : p.level <;> simp only [hl, Option.some.injEq, reduceCtorEq] at hm <;> subst hm <;>
    simp only [level_mk, tenant_mk, cloud_mk, group_mk, kubernetes_mk, label_mk] at h1 h2 h3 h4 h5 h6 <;>
    simp [Namespace.identity, h1, h2, h3, h4, h5, h6, metaLevel.depth, hl]

theorem depth_eq_zero {l : metaLevel} (h : l.depth = 0) : l = .metaLevelRoot := by
  cases l <;> simp [metaLevel.depth] at h ⊢
theorem depth_eq_one {l : metaLevel} (h : l.depth = 1) : l = .metaLevelTenant := by
  cases l <;> simp [metaLevel.depth] at h ⊢
theorem depth_eq_two {l : metaLevel} (h : l.depth = 2) : l = .metaLevelCloud := by
  cases l <;> simp [metaLevel.depth] at h ⊢
theorem depth_eq_three {l : metaLevel} (h : l.depth = 3) : l = .metaLevelGroup := by
  cases l <;> simp [metaLevel.depth] at h ⊢
theorem depth_le_four (l : metaLevel) : l.depth ≤ 4 := by
  cases l <;> simp [metaLevel.depth]
theorem depth_lt_four {l : metaLevel} (h : l ≠ .metaLevelKubernetes) : l.depth < 4 := by
  cases l <;> simp [metaLevel.depth] at h ⊢

/-- Level and identity fields of the node reached along `names` from a root. -/
theorem node_fields {t : Namespace} (hroot : t.level = .metaLevelRoot ∧ t.tenant = "" ∧
      t.cloud = "" ∧ t.group = "" ∧ t.kubernetes = "") (hinv : TreeInv t)
    (names : List String) : ∀ (node : Namespace), descend names t = some node →
      node.level.depth = names.length ∧
      [node.tenant, node.cloud, node.group, node.kubernetes]
        = names ++ List.replicate (4 - names.length) "" := by
  induction names using List.reverseRecOn with
  | nil =>
    intro node hd
    simp only [descend, Option.some.injEq] at hd
    subst hd
    obtain ⟨h1, h2, h3, h4, h5⟩ := hroot
    simp [h1, h2, h3, h4, h5, metaLevel.depth, List.replicate]
  | append_singleton names k ih =>
    intro node hd
    rw [descend_snoc] at hd
    cases hp : descend names t with
    | none => simp [hp] at hd
    | some p =>
      simp only [hp, Option.some_bind] at hd
      obtain ⟨ihd, ihf⟩ := ih p hp
      obtain ⟨c1, -, -, c4, c5, c6, c7, c8⟩ := childOf_fields (hinv names p k node hp hd)
      refine ⟨by simp [c1, ihd], ?_⟩
      have hlt := depth_lt_four c8
      match names, ihd, ihf with
      | [], ihd, ihf =>
        have hl := depth_eq_zero ihd
        obtain ⟨e1, e2, e3, e4⟩ := c4 hl
        simp only [List.length_nil, List.nil_append, List.replicate, List.cons.injEq,
          and_true] at ihf
        obtain ⟨-, f2, f3, f4⟩ := ihf
        simp [List.replicate, e1, e2, e3, e4, f2, f3, f4]
      | [a], ihd, ihf =>
        have hl := depth_eq_one ihd
        obtain ⟨e1, e2, e3, e4⟩ := c5 hl
        simp only [List.length_singleton, List.singleton_append, List.replicate,
          List.cons.injEq, and_true] at ihf
        obtain ⟨f1, -, f3, f4⟩ := ihf
        simp [List.replicate, e1, e2, e3, e4, f1, f3, f4]
      | [a, b], ihd, ihf =>
        have hl := depth_eq_two ihd
        obtain ⟨e1, e2, e3, e4⟩ := c6 hl
        simp only [List.length_cons, List.length_nil, List.cons_append, List.nil_append,
          List.replicate, List.cons.injEq, and_true] at ihf
        obtain ⟨f1, f2, -, f4⟩ := ihf
        simp [List.replicate, e1, e2, e3, e4, f1, f2, f4]
      | [a, b, c], ihd, ihf =>
        have hl := depth_eq_three ihd
        obtain ⟨e1, e2, e3, e4⟩ := c7 hl
        simp only [List.length_cons, List.length_nil, List.cons_append, List.nil_append,
          List.replicate, List.cons.injEq, and_true] at ihf
        obtain ⟨f1, f2, f3, -⟩ := ihf
        simp [List.replicate, e1, e2, e3, e4, f1, f2, f3]
      | a :: b :: c :: d :: rest, ihd, ihf =>
        simp only [List.length_cons] at ihd
        omega

theorem intercalate_go_snoc (s : String) (names : List String) (k : String) :
    ∀ (acc : String), String.intercalate.go acc s (names ++ [k])
      = String.intercalate.go acc s names ++ s ++ k := by
  induction names with
  | nil => intro acc; simp [String.intercalate.go]
  | cons a names ih => intro acc; simp [String.intercalate.go, ih]

theorem intercalate_go_length (s : String) (names : List String) :
    ∀ (acc : String), acc.length ≤ (String.intercalate.go acc s names).length := by
  induction names with
  | nil => intro acc; simp [String.intercalate.go]
  | cons a names ih =>
    intro acc
    simp only [String.intercalate.go]
    have := ih (acc ++ s ++ a)
    simp only [String.length_append] at this
    omega

theorem intercalate_snoc (s : String) (names : List String) (k : String) :
    s.intercalate (names ++ [k])
      = if names = [] then k else s.intercalate names ++ s ++ k := by
  cases names with
  | nil => simp [String.intercalate, String.intercalate.go]
  | cons a names => simp [String.intercalate, intercalate_go_snoc]

theorem intercalate_eq_empty (s : String) (names : List String)
    (hne : ∀ n ∈ names, n ≠ "") (h : s.intercalate names = "") : names = [] := by
  cases names with
  | nil => rfl
  | cons a names =>
    exfalso
    simp only [String.intercalate] at h
    have h1 := intercalate_go_length s names a
    rw [h] at h1
    have h2 : a ≠ "" := hne a (by simp)
    have h3 : a.length ≠ 0 := by
      intro h0
      apply h2
      exact String.ext (List.length_eq_zero.mp h0)
    simp at h1
    exact h3 h1

/-- Label of the node reached along non-empty `names` from a root. -/
theorem node_label {t : Namespace} (hroot : t.label = "") (hinv : TreeInv t)
    (names : List String) : ∀ (node : Namespace), (∀ n ∈ names, n ≠ "") →
      descend names t = some node → node.label = ":".intercalate names := by
  induction names using List.reverseRecOn with
  | nil =>
    intro node _ hd
    simp only [descend, Option.some.injEq] at hd
    subst hd
    simp [hroot, String.intercalate]
  | append_singleton names k ih =>
    intro node hne hd
    rw [descend_snoc] at hd
    cases hp : descend names t with
    | none => simp [hp] at hd
    | some p =>
      simp only [hp, Option.some_bind] at hd
      have hne1 : ∀ n ∈ names, n ≠ "" := fun n hn => hne n (by simp [hn])
      have ihl := ih p hne1 hp
      obtain ⟨-, c2, -⟩ := childOf_fields (hinv names p k node hp hd)
      rw [c2, intercalate_snoc, ihl]
      by_cases hnil : names = []
      · subst hnil
        simp [String.intercalate]
      · have : ":".intercalate names ≠ "" := fun h => hnil (intercalate_eq_empty ":" names hne1 h)
        simp [hnil, this]

/-! ## One entry of a listing -/

theorem append_left_cancel_string {a b c : String} (h : a ++ b = a ++ c) : b = c := by
  have h1 : (a ++ b).data = (a ++ c).data := by rw [h]
  simp only [String.data_append] at h1
  exact String.ext (List.append_cancel_left h1)

/-- An entry whose pass through the loop body only adds the error `x`: the listing with the
entry gives the tree of the listing without it, and the same errors with `x` put in. -/
theorem readLoop_insert_error (t0 : Namespace) (pre post : List FsEntry) (e : FsEntry)
    (x : Err)
    (hstep : ∀ (t : Namespace) (errors : List Err), t.header = t0.header →
      t.readStep errors e = some (t, errors ++ [x])) :
    ∃ t1 e1 t e2, t0.readLoop [] pre = some (t1, e1) ∧ t1.readLoop [] post = some (t, e2) ∧
      t0.readLoop [] (pre ++ e :: post) = some (t, e1 ++ [x] ++ e2) ∧
      t0.readLoop [] (pre ++ post) = some (t, e1 ++ e2) := by
  obtain ⟨⟨t1, e1⟩, h1⟩ := readLoop_returns pre t0 []
  obtain ⟨⟨t, e2⟩, h2⟩ := readLoop_returns post t1 []
  refine ⟨t1, e1, t, e2, h1, h2, ?_, ?_⟩
  · rw [readLoop_append, h1]
    simp only [Option.some_bind]
    rw [readLoop_cons, hstep t1 e1 (readLoop_header pre h1)]
    simp only [Option.some_bind]
    rw [readLoop_errors post t1 (e1 ++ [x]), h2]
    rfl
  · rw [readLoop_append, h1]
    simp only [Option.some_bind]
    rw [readLoop_errors post t1 e1, h2]
    rfl

/-- An entry whose pass through the loop body does nothing can be left out of the listing. -/
theorem readLoop_skip (t0 : Namespace) (pre post : List FsEntry) (e : FsEntry)
    (hstep : ∀ (t : Namespace) (errors : List Err), t.header = t0.header →
      t.readStep errors e = some (t, errors)) (errors : List Err) :
    t0.readLoop errors (pre ++ e :: post) = t0.readLoop errors (pre ++ post) := by
  rw [readLoop_append, readLoop_append]
  cases h1 : t0.readLoop errors pre with
  | none => rfl
  | some r =>
    simp only [Option.some_bind]
    rw [readLoop_cons, hstep r.1 r.2 (readLoop_header pre h1)]
    rfl

/-! ## The root holds no documents, a kubernetes-level node no children -/

theorem readStep_root_fileMap {t : Namespace} {errors : List Err} {e : FsEntry}
    {r : Namespace × List Err} (hl : t.level = .metaLevelRoot)
    (h : t.readStep errors e = some r) : r.1.fileMap = t.fileMap := by
  cases e with
  | file fileName loadErr config =>
    simp only [Namespace.readStep, hl, if_true] at h
    split at h <;> (simp only [Option.some.injEq] at h; subst h; rfl)
  | dir fileName readErr entries =>
    simp only [Namespace.readStep] at h
    split at h
    · simp only [Option.some.injEq] at h; subst h; rfl
    · split at h
      · simp only [Option.some.injEq] at h; subst h; rfl
      · split at h
        · exact absurd h (by simp)
        · split at h
          · exact absurd h (by simp)
          · simp only [Option.some.injEq] at h; subst h; rfl

theorem readLoop_root_fileMap (files : List FsEntry) : ∀ {t : Namespace} {errors : List Err}
    {r : Namespace × List Err}, t.level = .metaLevelRoot → t.readLoop errors files = some r →
    r.1.fileMap = t.fileMap := by
  induction files with
  | nil => intro t errors r _ h; simp [readLoop_nil] at h; subst h; rfl
  | cons e files ih =>
    intro t errors r hl h
    rw [readLoop_cons] at h
    cases hs : t.readStep errors e with
    | none => simp [hs] at h
    | some r1 =>
      simp only [hs, Option.some_bind] at h
      have hl1 : r1.1.level = .metaLevelRoot := by rw [header_level (readStep_header hs), hl]
      rw [ih hl1 h, readStep_root_fileMap hl hs]

theorem readStep_kubernetes_childMap {t : Namespace} {errors : List Err} {e : FsEntry}
    {r : Namespace × List Err} (hl : t.level = .metaLevelKubernetes)
    (h : t.readStep errors e = some r) : r.1.childMap = t.childMap := by
  cases e with
  | file fileName loadErr config =>
    simp only [Namespace.readStep, hl, reduceCtorEq, if_false] at h
    split at h <;> (simp only [Option.some.injEq] at h; subst h; rfl)
  | dir fileName readErr entries =>
    simp only [Namespace.readStep, hl, if_true] at h
    split at h <;> (simp only [Option.some.injEq] at h; subst h; rfl)

theorem readLoop_kubernetes_childMap (files : List FsEntry) : ∀ {t : Namespace}
    {errors : List Err} {r : Namespace × List Err}, t.level = .metaLevelKubernetes →
    t.readLoop errors files = some r → r.1.childMap = t.childMap := by
  induction files with
  | nil => intro t errors r _ h; simp [readLoop_nil] at h; subst h; rfl
  | cons e files ih =>
    intro t errors r hl h
    rw [readLoop_cons] at h
    cases hs : t.readStep errors e with
    | none => simp [hs] at h
    | some r1 =>
      simp only [hs, Option.some_bind] at h
      have hl1 : r1.1.level = .metaLevelKubernetes := by
        rw [header_level (readStep_header hs), hl]
      rw [ih hl1 h, readStep_kubernetes_childMap hl hs]

/-! ## Which errors a directory can give -/

theorem newNamespace_level_ne_root {t m : Namespace} {name : String}
    (h : t.newNamespace name = some m) : m.level ≠ .metaLevelRoot := by
  unfold Namespace.newNamespace at h
  cases hl : t.level <;> simp [hl] at h <;> subst h <;> simp

mutual
theorem read_no_fileInRoot : ∀ (fs : FsEntry) (t : Namespace) (r : Namespace × List Err),
    t.level ≠ .metaLevelRoot → t.read fs = some r → ∀ x ∈ r.2, ∀ p, x ≠ Err.fileInRoot p
  | .file _ _ _, t, r, _, h => by
    simp only [Namespace.read, Option.some.injEq] at h; subst h; simp
  | .dir _ (some e) _, t, r, _, h => by
    simp only [Namespace.read, Option.some.injEq] at h; subst h; simp
  | .dir _ none files, t, r, hl, h => by
    simp only [Namespace.read] at h
    exact readLoop_no_fileInRoot files t [] r hl (by simp) h
theorem readLoop_no_fileInRoot : ∀ (files : List FsEntry) (t : Namespace) (errors : List Err)
    (r : Namespace × List Err), t.level ≠ .metaLevelRoot →
    (∀ x ∈ errors, ∀ p, x ≠ Err.fileInRoot p) → t.readLoop errors files = some r →
    ∀ x ∈ r.2, ∀ p, x ≠ Err.fileInRoot p
  | [], t, errors, r, _, he, h => by
    simp only [Namespace.readLoop, Option.some.injEq] at h; subst h; exact he
  | .dir fileName readErr entries :: files, t, errors, r, hl, he, h => by
    simp only [Namespace.readLoop] at h
    split at h
    · exact readLoop_no_fileInRoot files t _ r hl he h
    · split at h
      · refine readLoop_no_fileInRoot files t _ r hl ?_ h
        intro x hx p
        rcases List.mem_append.mp hx with hx | hx
        · exact he x hx p
        · simp only [List.mem_singleton] at hx; subst hx; simp
      · split at h
        · exact absurd h (by simp)
        · rename_i m hm
          split at h
          · exact absurd h (by simp)
          · rename_i m1 err hr
            have h1 := read_no_fileInRoot (.dir fileName readErr entries) m (m1, err)
              (newNamespace_level_ne_root hm) hr
            refine readLoop_no_fileInRoot files (t.setChild fileName m1) _ r hl ?_ h
            intro x hx p
            rcases List.mem_append.mp hx with hx | hx
            · exact he x hx p
            · exact h1 x hx p
  | .file fileName loadErr config :: files, t, errors, r, hl, he, h => by
    simp only [Namespace.readLoop, hl, if_false] at h
    split at h
    · refine readLoop_no_fileInRoot files (t.setFile fileName _) _ r hl ?_ h
      intro x hx p
      rcases List.mem_append.mp hx with hx | hx
      · exact he x hx p
      · cases loadErr with
        | none => simp [file.load] at hx
        | some msg => simp [file.load] at hx; subst hx; simp
    · exact readLoop_no_fileInRoot files t _ r hl he h
end

/-- At the root, the error of a policy file named `name` comes from file entries of that
name only. -/
theorem readLoop_root_no_fileInRoot (name : String) (files : List FsEntry) :
    ∀ (t : Namespace) (errors : List Err) (r : Namespace × List Err),
    t.level = .metaLevelRoot →
    (∀ e ∈ files, e.isDir = false → e.name ≠ name) →
    Err.fileInRoot (t.path ++ "/" ++ name) ∉ errors →
    t.readLoop errors files = some r → Err.fileInRoot (t.path ++ "/" ++ name) ∉ r.2 := by
  induction files with
  | nil => intro t errors r _ _ he h; simp [readLoop_nil] at h; subst h; exact he
  | cons e files ih =>
    intro t errors r hl hn he h
    rw [readLoop_cons] at h
    cases hs : t.readStep errors e with
    | none => simp [hs] at h
    | some r1 =>
      simp only [hs, Option.some_bind] at h
      have hh := readStep_header hs
      have hl1 : r1.1.level = .metaLevelRoot := by rw [header_level hh, hl]
      have hp1 : r1.1.path = t.path := header_path hh
      have hn1 : ∀ e ∈ files, e.isDir = false → e.name ≠ name :=
        fun e he => hn e (List.mem_cons_of_mem _ he)
      have hne := hn e (List.mem_cons_self _ _)
      rw [← hp1]
      refine ih r1.1 r1.2 r hl1 hn1 ?_ h
      rw [hp1]
      cases e with
      | file fileName loadErr config =>
        simp only [Namespace.readStep, hl, if_true] at hs
        split at hs
        · simp only [Option.some.injEq] at hs; subst hs
          simp only [List.mem_append, List.mem_singleton, not_or]
          refine ⟨he, ?_⟩
          intro heq
          simp only [Err.fileInRoot.injEq] at heq
          exact hne rfl (append_left_cancel_string heq).symm
        · simp only [Option.some.injEq] at hs; subst hs; exact he
      | dir fileName readErr entries =>
        simp only [Namespace.readStep] at hs
        split at hs
        · simp only [Option.some.injEq] at hs; subst hs; exact he
        · split at hs
          · rename_i hk; rw [hl] at hk; exact absurd hk (by simp)
          · split at hs
            · exact absurd hs (by simp)
            · rename_i m hm
              split at hs
              · exact absurd hs (by simp)
              · rename_i m1 err hr
                simp only [Option.some.injEq] at hs; subst hs
                simp only [List.mem_append, not_or]
                exact ⟨he, fun hx => read_no_fileInRoot _ m (m1, err)
                  (newNamespace_level_ne_root hm) hr _ hx _ rfl⟩

/-- At the kubernetes level, the error of a subdirectory named `name` comes from directory
entries of that name only. -/
theorem readLoop_kubernetes_no_dirHasChildren (name : String) (files : List FsEntry) :
    ∀ (t : Namespace) (errors : List Err) (r : Namespace × List Err),
    t.level = .metaLevelKubernetes →
    (∀ e ∈ files, e.isDir = true → e.name ≠ name) →
    Err.dirHasChildren (t.path ++ "/" ++ name) ∉ errors →
    t.readLoop errors files = some r → Err.dirHasChildren (t.path ++ "/" ++ name) ∉ r.2 := by
  induction files with
  | nil => intro t errors r _ _ he h; simp [readLoop_nil] at h; subst h; exact he
  | cons e files ih =>
    intro t errors r hl hn he h
    rw [readLoop_cons] at h
    cases hs : t.readStep errors e with
    | none => simp [hs] at h
    | some r1 =>
      simp only [hs, Option.some_bind] at h
      have hh := readStep_header hs
      have hl1 : r1.1.level = .metaLevelKubernetes := by rw [header_level hh, hl]
      have hp1 : r1.1.path = t.path := header_path hh
      have hn1 : ∀ e ∈ files, e.isDir = true → e.name ≠ name :=
        fun e he => hn e (List.mem_cons_of_mem _ he)
      have hne := hn e (List.mem_cons_self _ _)
      rw [← hp1]
      refine ih r1.1 r1.2 r hl1 hn1 ?_ h
      rw [hp1]
      cases e with
      | file fileName loadErr config =>
        simp only [Namespace.readStep, hl, reduceCtorEq, if_false] at hs
        split at hs
        · simp only [Option.some.injEq] at hs; subst hs
          simp only [List.mem_append, not_or]
          refine ⟨he, ?_⟩
          cases loadErr with
          | none => simp [file.load]
          | some msg => simp [file.load]
        · simp only [Option.some.injEq] at hs; subst hs; exact he
      | dir fileName readErr entries =>
        simp only [Namespace.readStep, hl, if_true] at hs
        split at hs
        · simp only [Option.some.injEq] at hs; subst hs; exact he
        · simp only [Option.some.injEq] at hs; subst hs
          simp only [List.mem_append, List.mem_singleton, not_or]
          refine ⟨he, ?_⟩
          intro heq
          simp only [Err.dirHasChildren.injEq] at heq
          exact hne rfl (append_left_cancel_string heq).symm

/-! ## Directories named `.original` -/

mutual
theorem read_stripOriginal : ∀ (fs : FsEntry) (t : Namespace),
    t.read fs.stripOriginal = t.read fs
  | .file _ _ _, t => by simp only [FsEntry.stripOriginal]
  | .dir _ (some e) _, t => by simp only [FsEntry.stripOriginal, Namespace.read]
  | .dir _ none files, t => by
    simp only [FsEntry.stripOriginal, Namespace.read]
    exact readLoop_stripOriginal files t []
theorem readLoop_stripOriginal : ∀ (files : List FsEntry) (t : Namespace)
    (errors : List Err), t.readLoop errors (stripOriginalList files) = t.readLoop errors files
  | [], t, errors => by simp only [stripOriginalList]
  | .dir fileName readErr entries :: files, t, errors => by
    by_cases h : fileName = ".original"
    · simp only [stripOriginalList, h, if_true, Namespace.readLoop]
      exact readLoop_stripOriginal files t errors
    · simp only [stripOriginalList, h, if_false, Namespace.readLoop]
      split
      · exact readLoop_stripOriginal files t _
      · cases t.newNamespace fileName with
        | none => rfl
        | some m =>
          simp only []
          have h1 := read_stripOriginal (.dir fileName readErr entries) m
          simp only [FsEntry.stripOriginal] at h1
          rw [h1]
          cases Namespace.read m (.dir fileName readErr entries) with
          | none => rfl
          | some r => exact readLoop_stripOriginal files _ _
  | .file fileName loadErr config :: files, t, errors => by
    simp only [stripOriginalList, Namespace.readLoop]
    split
    · split
      · exact readLoop_stripOriginal files t _
      · exact readLoop_stripOriginal files _ _
    · exact readLoop_stripOriginal files t _
end

/-! ## All errors are collected, all siblings are scanned -/

theorem newNamespace_level_path {t m : Namespace} {name : String}
    (h : t.newNamespace name = some m) :
    m.level = t.level.next ∧ m.path = t.path ++ "/" ++ name := by
  unfold Namespace.newNamespace at h
  cases hl : t.level <;> simp [hl] at h <;> subst h <;> simp [metaLevel.next]

mutual
theorem read_errorsFound : ∀ (fs : FsEntry) (t : Namespace) (r : Namespace × List Err),
    t.read fs = some r → r.2 = errorsFound t.level t.path fs
  | .file _ _ _, t, r, h => by
    simp only [Namespace.read, Option.some.injEq] at h; subst h; simp only [errorsFound]
  | .dir _ (some e) _, t, r, h => by
    simp only [Namespace.read, Option.some.injEq] at h; subst h; simp only [errorsFound]
  | .dir _ none files, t, r, h => by
    simp only [Namespace.read] at h
    simp only [errorsFound]
    simpa using readLoop_errorsFound files t [] r h
theorem readLoop_errorsFound : ∀ (files : List FsEntry) (t : Namespace) (errors : List Err)
    (r : Namespace × List Err), t.readLoop errors files = some r →
    r.2 = errors ++ errorsFoundIn t.level t.path files
  | [], t, errors, r, h => by
    simp only [Namespace.readLoop, Option.some.injEq] at h; subst h
    simp only [errorsFoundIn, List.append_nil]
  | .dir fileName readErr entries :: files, t, errors, r, h => by
    simp only [Namespace.readLoop] at h
    simp only [errorsFoundIn]
    split at h
    · rename_i h1
      simp only [h1, if_true, List.nil_append]
      exact readLoop_errorsFound files t _ r h
    · rename_i h1
      split at h
      · rename_i h2
        simp only [h1, h2, if_true, if_false]
        rw [readLoop_errorsFound files t _ r h, List.append_assoc, h2]
      · rename_i h2
        simp only [h1, h2, if_false]
        split at h
        · exact absurd h (by simp)
        · rename_i m hm
          split at h
          · exact absurd h (by simp)
          · rename_i m1 err hr
            have e1 := read_errorsFound (.dir fileName readErr entries) m (m1, err) hr
            simp only at e1
            obtain ⟨hl, hp⟩ := newNamespace_level_path hm
            rw [hl, hp] at e1
            have e2 := readLoop_errorsFound files (t.setChild fileName m1) _ r h
            rw [e2, e1, List.append_assoc]
            rfl
  | .file fileName loadErr config :: files, t, errors, r, h => by
    simp only [Namespace.readLoop] at h
    simp only [errorsFoundIn]
    split at h
    · rename_i h1
      split at h
      · rename_i h2
        simp only [h1, h2, if_true]
        rw [readLoop_errorsFound files t _ r h, List.append_assoc, h2]
      · rename_i h2
        simp only [h1, h2, if_true, if_false]
        have e2 := readLoop_errorsFound files (t.setFile fileName _) _ r h
        rw [e2, List.append_assoc]
        rfl
    · rename_i h1
      simp only [h1, Bool.false_eq_true, if_false, List.nil_append]
      exact readLoop_errorsFound files t _ r h
end

theorem readStep_childMap_other {t : Namespace} {errors : List Err} {e : FsEntry}
    {r : Namespace × List Err} (k : String) (hk : e.isDir = true → e.name ≠ k)
    (h : t.readStep errors e = some r) : mapGet r.1.childMap k = mapGet t.childMap k := by
  cases e with
  | file fileName loadErr config =>
    simp only [Namespace.readStep] at h
    split at h
    · split at h <;> (simp only [Option.some.injEq] at h; subst h; rfl)
    · simp only [Option.some.injEq] at h; subst h; rfl
  | dir fileName readErr entries =>
    have hne : fileName ≠ k := hk rfl
    simp only [Namespace.readStep] at h
    split at h
    · simp only [Option.some.injEq] at h; subst h; rfl
    · split at h
      · simp only [Option.some.injEq] at h; subst h; rfl
      · split at h
        · exact absurd h (by simp)
        · split at h
          · exact absurd h (by simp)
          · rename_i m1 err hr
            simp only [Option.some.injEq] at h; subst h
            have : mapGet (mapSet t.childMap fileName m1) k = mapGet t.childMap k := by
              rw [mapGet_mapSet]; simp [hne]
            exact this

theorem readLoop_childMap_other (k : String) (files : List FsEntry) : ∀ {t : Namespace}
    {errors : List Err} {r : Namespace × List Err},
    (∀ e ∈ files, e.isDir = true → e.name ≠ k) → t.readLoop errors files = some r →
    mapGet r.1.childMap k = mapGet t.childMap k := by
  induction files with
  | nil => intro t errors r _ h; simp [readLoop_nil] at h; subst h; rfl
  | cons e files ih =>
    intro t errors r hk h
    rw [readLoop_cons] at h
    cases hs : t.readStep errors e with
    | none => simp [hs] at h
    | some r1 =>
      simp only [hs, Option.some_bind] at h
      rw [ih (fun e he => hk e (List.mem_cons_of_mem _ he)) h,
        readStep_childMap_other k (hk e (List.mem_cons_self _ _)) hs]

theorem readStep_fileMap_other {t : Namespace} {errors : List Err} {e : FsEntry}
    {r : Namespace × List Err} (k : String) (hk : e.isDir = false → e.name ≠ k)
    (h : t.readStep errors e = some r) : mapGet r.1.fileMap k = mapGet t.fileMap k := by
  cases e with
  | file fileName loadErr config =>
    have hne : fileName ≠ k := hk rfl
    simp only [Namespace.readStep] at h
    split at h
    · split at h
      · simp only [Option.some.injEq] at h; subst h; rfl
      · simp only [Option.some.injEq] at h; subst h
        have : mapGet (mapSet t.fileMap fileName
            ((t.newFile fileName).load loadErr config).1) k = mapGet t.fileMap k := by
          rw [mapGet_mapSet]; simp [hne]
        exact this
    · simp only [Option.some.injEq] at h; subst h; rfl
  | dir fileName readErr entries =>
    simp only [Namespace.readStep] at h
    split at h
    · simp only [Option.some.injEq] at h; subst h; rfl
    · split at h
      · simp only [Option.some.injEq] at h; subst h; rfl
      · split at h
        · exact absurd h (by simp)
        · split at h
          · exact absurd h (by simp)
          · simp only [Option.some.injEq] at h; subst h; rfl

theorem readLoop_fileMap_other (k : String) (files : List FsEntry) : ∀ {t : Namespace}
    {errors : List Err} {r : Namespace × List Err},
    (∀ e ∈ files, e.isDir = false → e.name ≠ k) → t.readLoop errors files = some r →
    mapGet r.1.fileMap k = mapGet t.fileMap k := by
  induction files with
  | nil => intro t errors r _ h; simp [readLoop_nil] at h; subst h; rfl
  | cons e files ih =>
    intro t errors r hk h
    rw [readLoop_cons] at h
    cases hs : t.readStep errors e with
    | none => simp [hs] at h
    | some r1 =>
      simp only [hs, Option.some_bind] at h
      rw [ih (fun e he => hk e (List.mem_cons_of_mem _ he)) h,
        readStep_fileMap_other k (hk e (List.mem_cons_self _ _)) hs]

/-- An entry of a listing with distinct names splits the listing into the entries before
and after it, none of which has its name. -/
theorem split_at_entry {files : List FsEntry} {e : FsEntry}
    (hnd : (files.map FsEntry.name).Nodup) (he : e ∈ files) :
    ∃ pre post, files = pre ++ e :: post ∧ ∀ x ∈ post, x.name ≠ e.name := by
  obtain ⟨pre, post, hf⟩ := List.append_of_mem he
  refine ⟨pre, post, hf, ?_⟩
  intro x hx hxe
  rw [hf] at hnd
  simp only [List.map_append, List.map_cons] at hnd
  have h1 := (List.nodup_append.mp hnd).2.1
  have h2 := (List.nodup_cons.mp h1).1
  exact h2 (List.mem_map.mpr ⟨x, hx, hxe⟩)

/-- A subdirectory of a listing with distinct names is scanned into the child-map entry of
its name, whatever the other entries give. -/
theorem read_scans_directory (t : Namespace) (n : String) (files : List FsEntry)
    (hnd : (files.map FsEntry.name).Nodup) (t1 : Namespace) (err : List Err)
    (hr : t.read (.dir n none files) = some (t1, err))
    (name : String) (readErr : Option String) (entries : List FsEntry)
    (he : FsEntry.dir name readErr entries ∈ files) (hn : name ≠ ".original")
    (hl : t.level ≠ .metaLevelKubernetes) :
    ∃ m c errs, t.newNamespace name = some m ∧
      m.read (.dir name readErr entries) = some (c, errs) ∧
      mapGet t1.childMap name = some c := by
  obtain ⟨pre, post, hf, hpost⟩ := split_at_entry hnd he
  subst hf
  simp only [Namespace.read] at hr
  rw [readLoop_append] at hr
  cases h1 : t.readLoop [] pre with
  | none => simp [h1] at hr
  | some r1 =>
    simp only [h1, Option.some_bind] at hr
    rw [readLoop_cons] at hr
    have hh := readLoop_header pre h1
    have hl1 : r1.1.level ≠ .metaLevelKubernetes := by rw [header_level hh]; exact hl
    obtain ⟨m, hm⟩ := newNamespace_isSome t name hl
    have hm1 : r1.1.newNamespace name = some m := by rw [newNamespace_congr hh]; exact hm
    obtain ⟨⟨c, errs⟩, hc⟩ := read_returns (.dir name readErr entries) m
    simp only [Namespace.readStep, hn, hl1, if_false, hm1, hc, Option.some_bind] at hr
    refine ⟨m, c, errs, hm, hc, ?_⟩
    have := readLoop_childMap_other name post (fun x hx _ => hpost x hx) hr
    simp only at this
    rw [this]
    show mapGet (mapSet r1.1.childMap name c) name = some c
    rw [mapGet_mapSet]; simp

/-- A policy file of a listing with distinct names is registered under its name with what
`load` gets from it, whatever the other entries give. -/
theorem read_registers_file (t : Namespace) (n : String) (files : List FsEntry)
    (hnd : (files.map FsEntry.name).Nodup) (t1 : Namespace) (err : List Err)
    (hr : t.read (.dir n none files) = some (t1, err))
    (name : String) (loadErr : Option String) (config : Option prisma.Config)
    (he : FsEntry.file name loadErr config ∈ files) (hext : extensionCheck name = true)
    (hl : t.level ≠ .metaLevelRoot) :
    mapGet t1.fileMap name = some ((t.newFile name).load loadErr config).1 := by
  obtain ⟨pre, post, hf, hpost⟩ := split_at_entry hnd he
  subst hf
  simp only [Namespace.read] at hr
  rw [readLoop_append] at hr
  cases h1 : t.readLoop [] pre with
  | none => simp [h1] at hr
  | some r1 =>
    simp only [h1, Option.some_bind] at hr
    rw [readLoop_cons] at hr
    have hh := readLoop_header pre h1
    have hl1 : r1.1.level ≠ .metaLevelRoot := by rw [header_level hh]; exact hl
    simp only [Namespace.readStep, hext, hl1, if_true, if_false, Option.some_bind] at hr
    have := readLoop_fileMap_other name post (fun x hx _ => hpost x hx) hr
    simp only at this
    rw [this, newFile_congr hh]
    show mapGet (mapSet r1.1.fileMap name _) name = _
    rw [mapGet_mapSet]; simp

/-! ## The validator -/

theorem objectCheckValues_snoc (object : List String) (tag : String) :
    objectCheckValues (object ++ [tag]) = objectCheckStep (objectCheckValues object) tag := by
  simp [objectCheckValues, List.foldl_append]

theorem lastValue_snoc (key : String) (object : List String) (tag : String) :
    lastValue key (object ++ [tag])
      = if (keyValueSplit tag).1 = key then (keyValueSplit tag).2 else lastValue key object := by
  unfold lastValue
  by_cases h : (keyValueSplit tag).1 = key
  · simp [List.filter_append, List.filter_cons, h]
  · simp [List.filter_append, List.filter_cons, h]

theorem objectCheckValues_eq (object : List String) :
    objectCheckValues object =
      { tenant := lastValue "@org:tenant" object
        cloud := lastValue "@org:cloudaccount" object
        group := lastValue "@org:group" object
        kubernetes := lastValue "@org:kubernetes" object } := by
  induction object using List.reverseRecOn with
  | nil => simp [objectCheckValues, lastValue]
  | append_singleton object tag ih =>
    rw [objectCheckValues_snoc, ih]
    simp only [lastValue_snoc, objectCheckStep]
    by_cases h1 : (keyValueSplit tag).1 = "@org:tenant"
    · simp [h1]
    · by_cases h2 : (keyValueSplit tag).1 = "@org:cloudaccount"
      · simp [h2]
      · by_cases h3 : (keyValueSplit tag).1 = "@org:group"
        · simp [h3]
        · by_cases h4 : (keyValueSplit tag).1 = "@org:kubernetes"
          · simp [h4]
          · simp [h1, h2, h3, h4]

theorem objectCheckStep_other (s : orgValues) (tag : String)
    (h : (keyValueSplit tag).1 ∉ orgKeys) : objectCheckStep s tag = s := by
  simp only [orgKeys, List.mem_cons, List.mem_singleton, List.not_mem_nil, or_false,
    not_or] at h
  obtain ⟨h1, h2, h3, h4⟩ := h
  simp [objectCheckStep, h1, h2, h3, h4]

theorem foldl_objectCheckStep_filter (object : List String) : ∀ (s : orgValues),
    (object.filter (fun tag => decide ((keyValueSplit tag).1 ∈ orgKeys))).foldl
      objectCheckStep s = object.foldl objectCheckStep s := by
  induction object with
  | nil => intro s; rfl
  | cons tag object ih =>
    intro s
    by_cases h : (keyValueSplit tag).1 ∈ orgKeys
    · simp only [List.filter_cons, h, decide_True, if_true, List.foldl_cons]
      exact ih _
    · simp only [List.filter_cons, h, decide_False, Bool.false_eq_true, if_false,
        List.foldl_cons, objectCheckStep_other s tag h]
      exact ih s

theorem nsCheck_of_chainExists (rootNamespace : Namespace) (t : file) (errors : List Err)
    (rule : String) (v : orgValues) (h : chainExists rootNamespace v) :
    nsCheck rootNamespace t errors rule v.tenant v.cloud v.group v.kubernetes = errors := by
  obtain ⟨hten, hk, hg, hd⟩ := h
  simp only [List.filter_cons, hten, ne_eq, not_false_eq_true, decide_True, if_true,
    descend] at hd
  cases h1 : mapGet rootNamespace.childMap v.tenant with
  | none => simp [h1] at hd
  | some tn =>
    simp only [h1] at hd
    by_cases hc : v.cloud = ""
    · have hg0 : v.group = "" := by
        by_contra hgn
        exact hg hgn hc
      have hk0 : v.kubernetes = "" := by
        by_contra hkn
        exact hk hkn hg0
      simp [nsCheck, tenantCheck, hc, hg0, hk0, hten, h1]
    · simp only [hc, not_false_eq_true, decide_True, if_true, descend] at hd
      cases h2 : mapGet tn.childMap v.cloud with
      | none => simp [h2] at hd
      | some cn =>
        simp only [h2] at hd
        by_cases hgr : v.group = ""
        · have hk0 : v.kubernetes = "" := by
            by_contra hkn
            exact hk hkn hgr
          simp [nsCheck, cloudCheck, tenantCheck, hc, hgr, hk0, hten, h1, h2]
        · simp only [hgr, not_false_eq_true, decide_True, if_true, descend] at hd
          cases h3 : mapGet cn.childMap v.group with
          | none => simp [h3] at hd
          | some gn =>
            simp only [h3] at hd
            by_cases hku : v.kubernetes = ""
            · simp [nsCheck, groupCheck, cloudCheck, tenantCheck, hc, hgr, hku, hten, h1, h2,
                h3]
            · simp only [hku, not_false_eq_true, decide_True, if_true, descend,
                List.filter_nil] at hd
              cases h4 : mapGet gn.childMap v.kubernetes with
              | none => simp [h4] at hd
              | some kn =>
                simp [nsCheck, kubernetesCheck, groupCheck, cloudCheck, tenantCheck, hc, hgr,
                  hku, hten, h1, h2, h3, h4]

theorem foldl_objectCheck_of_chainExists (rootNamespace : Namespace) (t : file)
    (rule : String) (objects : List (List String)) : ∀ (errors : List Err),
    (∀ object ∈ objects, chainExists rootNamespace (objectCheckValues object)) →
    objects.foldl (fun errs object => objectCheck rootNamespace t errs rule object) errors
      = errors := by
  induction objects with
  | nil => intro errors _; rfl
  | cons object objects ih =>
    intro errors h
    simp only [List.foldl_cons, objectCheck]
    rw [nsCheck_of_chainExists rootNamespace t errors rule _ (h object (List.mem_cons_self _ _))]
    exact ih errors (fun o ho => h o (List.mem_cons_of_mem _ ho))

theorem ruleCheck_of_chainExists (rootNamespace : Namespace) (t : file) (rule : String)
    (rules : List (Option prisma.Rule)) : ∀ (errors errs : List Err),
    (∀ object ∈ objectsOfRules rules, chainExists rootNamespace (objectCheckValues object)) →
    ruleCheck rootNamespace t errors rule rules = some errs → errs = errors := by
  induction rules with
  | nil => intro errors errs _ h; simp [ruleCheck] at h; exact h.symm
  | cons r rules ih =>
    intro errors errs hc h
    cases r with
    | none => simp [ruleCheck] at h
    | some r =>
      simp only [ruleCheck] at h
      simp only [objectsOfRules, List.flatMap_cons, List.mem_append] at hc
      rw [foldl_objectCheck_of_chainExists rootNamespace t rule r.Object errors
        (fun o ho => hc o (Or.inl ho))] at h
      exact ih errors errs (fun o ho => hc o (Or.inr ho)) h

theorem rulesetsCheck_of_chainExists (rootNamespace : Namespace) (t : file)
    (policies : List (Option prisma.Networkrulesetpolicy)) : ∀ (errors errs : List Err),
    (∀ object ∈ objectsOfRulesets policies,
      chainExists rootNamespace (objectCheckValues object)) →
    rulesetsCheck rootNamespace t errors policies = some errs → errs = errors := by
  induction policies with
  | nil => intro errors errs _ h; simp [rulesetsCheck] at h; exact h.symm
  | cons rs policies ih =>
    intro errors errs hc h
    cases rs with
    | none =>
      simp only [objectsOfRulesets, List.flatMap_cons, List.mem_append] at hc
      simp only [rulesetsCheck] at h
      exact ih errors errs (fun o ho => hc o (Or.inr ho)) h
    | some rs =>
      simp only [objectsOfRulesets, List.flatMap_cons, List.mem_append] at hc
      simp only [rulesetsCheck] at h
      cases h1 : ruleCheck rootNamespace t errors "OutgoingRules" rs.OutgoingRules with
      | none => simp [h1] at h
      | some errors1 =>
        simp only [h1] at h
        have e1 := ruleCheck_of_chainExists rootNamespace t _ _ errors errors1
          (fun o ho => hc o (Or.inl (Or.inl ho))) h1
        subst e1
        cases h2 : ruleCheck rootNamespace t errors1 "IncomingRules" rs.IncomingRules with
        | none => simp [h2] at h
        | some errors2 =>
          simp only [h2] at h
          have e2 := ruleCheck_of_chainExists rootNamespace t _ _ errors1 errors2
            (fun o ho => hc o (Or.inl (Or.inr ho))) h2
          subst e2
          exact ih errors2 errs (fun o ho => hc o (Or.inr ho)) h

theorem ruleCheck_returns (rootNamespace : Namespace) (t : file) (rule : String)
    (rules : List (Option prisma.Rule)) : ∀ (errors : List Err), none ∉ rules →
    ∃ errs, ruleCheck rootNamespace t errors rule rules = some errs := by
  induction rules with
  | nil => intro errors _; exact ⟨errors, rfl⟩
  | cons r rules ih =>
    intro errors hn
    cases r with
    | none => simp at hn
    | some r =>
      simp only [ruleCheck]
      exact ih _ (fun hm => hn (List.mem_cons_of_mem _ hm))

theorem rulesetsCheck_returns (rootNamespace : Namespace) (t : file)
    (policies : List (Option prisma.Networkrulesetpolicy)) : ∀ (errors : List Err),
    (∀ rs, some rs ∈ policies → none ∉ rs.OutgoingRules ∧ none ∉ rs.IncomingRules) →
    ∃ errs, rulesetsCheck rootNamespace t errors policies = some errs := by
  induction policies with
  | nil => intro errors _; exact ⟨errors, rfl⟩
  | cons rs policies ih =>
    intro errors hn
    have hrest : ∀ rs, some rs ∈ policies → none ∉ rs.OutgoingRules ∧ none ∉ rs.IncomingRules :=
      fun rs hm => hn rs (List.mem_cons_of_mem _ hm)
    cases rs with
    | none =>
      simp only [rulesetsCheck]
      exact ih errors hrest
    | some rs =>
      obtain ⟨ho, hi⟩ := hn rs (List.mem_cons_self _ _)
      simp only [rulesetsCheck]
      obtain ⟨errors1, h1⟩ := ruleCheck_returns rootNamespace t "OutgoingRules" _ errors ho
      obtain ⟨errors2, h2⟩ := ruleCheck_returns rootNamespace t "IncomingRules" _ errors1 hi
      simp only [h1, h2]
      exact ih errors2 hrest

/-! ## File names -/

/-- A name that ends in `.yml` or `.yaml` passes `extensionCheck`. -/
theorem extensionCheck_of_dot_suffix (filename : String)
    (h : HasSuffix filename ".yml" = true ∨ HasSuffix filename ".yaml" = true) :
    extensionCheck filename = true := by
  simp only [HasSuffix, List.isSuffixOf_iff_suffix] at h
  simp only [extensionCheck, configFileExtensions, List.any_cons, List.any_nil, Bool.or_false,
    Bool.or_eq_true, HasSuffix, List.isSuffixOf_iff_suffix]
  rcases h with h | h
  · left
    exact List.IsSuffix.trans ⟨['.'], rfl⟩ h
  · right
    exact List.IsSuffix.trans ⟨['.'], rfl⟩ h

/-! ## The one error of a tag-group -/

theorem nsCheck_eq_firstFailure (rootNamespace : Namespace) (t : file) (errors : List Err)
    (rule : String) (v : orgValues) :
    nsCheck rootNamespace t errors rule v.tenant v.cloud v.group v.kubernetes
      = errors ++ (firstFailure rule t.path rootNamespace rootNamespace.path
          (checkedLevels v)).toList := by
  by_cases ht : v.tenant = ""
  · by_cases hk : v.kubernetes = "" <;> by_cases hg : v.group = "" <;>
      by_cases hc : v.cloud = "" <;>
      simp [nsCheck, kubernetesCheck, groupCheck, cloudCheck, tenantCheck, checkedLevels,
        firstFailure, ht, hk, hg, hc]
  · cases h1 : mapGet rootNamespace.childMap v.tenant with
    | none =>
      by_cases hk : v.kubernetes = "" <;> by_cases hg : v.group = "" <;>
        by_cases hc : v.cloud = "" <;>
        simp [nsCheck, kubernetesCheck, groupCheck, cloudCheck, tenantCheck, checkedLevels,
          firstFailure, ht, hk, hg, hc, h1]
    | some tn =>
      by_cases hc : v.cloud = ""
      · by_cases hk : v.kubernetes = "" <;> by_cases hg : v.group = "" <;>
          simp [nsCheck, kubernetesCheck, groupCheck, cloudCheck, tenantCheck, checkedLevels,
            firstFailure, ht, hk, hg, hc, h1]
      · cases h2 : mapGet tn.childMap v.cloud with
        | none =>
          by_cases hk : v.kubernetes = "" <;> by_cases hg : v.group = "" <;>
            simp [nsCheck, kubernetesCheck, groupCheck, cloudCheck, tenantCheck,
              checkedLevels, firstFailure, ht, hk, hg, hc, h1, h2]
        | some cn =>
          by_cases hg : v.group = ""
          · by_cases hk : v.kubernetes = "" <;>
              simp [nsCheck, kubernetesCheck, groupCheck, cloudCheck, tenantCheck,
                checkedLevels, firstFailure, ht, hk, hg, hc, h1, h2]
          · cases h3 : mapGet cn.childMap v.group with
            | none =>
              by_cases hk : v.kubernetes = "" <;>
                simp [nsCheck, kubernetesCheck, groupCheck, cloudCheck, tenantCheck,
                  checkedLevels, firstFailure, ht, hk, hg, hc, h1, h2, h3]
            | some gn =>
              by_cases hk : v.kubernetes = ""
              · simp [nsCheck, kubernetesCheck, groupCheck, cloudCheck, tenantCheck,
                  checkedLevels, firstFailure, ht, hk, hg, hc, h1, h2, h3]
              · cases h4 : mapGet gn.childMap v.kubernetes <;>
                  simp [nsCheck, kubernetesCheck, groupCheck, cloudCheck, tenantCheck,
                    checkedLevels, firstFailure, ht, hk, hg, hc, h1, h2, h3, h4]

theorem firstFailure_isReferenceError (rule path : String)
    (levels : List (metaLevel × String)) : ∀ (node : Namespace) (nsPath : String) (e : Err),
    firstFailure rule path node nsPath levels = some e → e.isReferenceError = true := by
  induction levels with
  | nil => intro node nsPath e h; simp [firstFailure] at h
  | cons lv levels ih =>
    intro node nsPath e h
    obtain ⟨level, value⟩ := lv
    simp only [firstFailure] at h
    split at h
    · simp only [Option.some.injEq] at h; subst h; rfl
    · split at h
      · simp only [Option.some.injEq] at h; subst h; rfl
      · exact ih _ _ e h

theorem firstFailure_none_of_chainExists (rootNamespace : Namespace) (t : file) (rule : String)
    (v : orgValues) (h : chainExists rootNamespace v) :
    firstFailure rule t.path rootNamespace rootNamespace.path (checkedLevels v) = none := by
  have h1 := nsCheck_of_chainExists rootNamespace t [] rule v h
  rw [nsCheck_eq_firstFailure] at h1
  cases hf : firstFailure rule t.path rootNamespace rootNamespace.path (checkedLevels v) with
  | none => rfl
  | some e => simp [hf] at h1

theorem chainExists_of_firstFailure_none (rootNamespace : Namespace) (rule path : String)
    (v : orgValues)
    (h : firstFailure rule path rootNamespace rootNamespace.path (checkedLevels v) = none) :
    chainExists rootNamespace v := by
  unfold chainExists
  by_cases ht : v.tenant = ""
  · by_cases hk : v.kubernetes = "" <;> by_cases hg : v.group = "" <;>
      by_cases hc : v.cloud = "" <;>
      simp [checkedLevels, firstFailure, ht, hk, hg, hc] at h
  · cases h1 : mapGet rootNamespace.childMap v.tenant with
    | none =>
      by_cases hk : v.kubernetes = "" <;> by_cases hg : v.group = "" <;>
        by_cases hc : v.cloud = "" <;>
        simp [checkedLevels, firstFailure, ht, hk, hg, hc, h1] at h
    | some tn =>
      by_cases hc : v.cloud = ""
      · by_cases hk : v.kubernetes = "" <;> by_cases hg : v.group = "" <;>
          first
          | (simp [checkedLevels, firstFailure, ht, hk, hg, hc, h1] at h; done)
          | simp [descend, ht, hk, hg, hc, h1]
      · cases h2 : mapGet tn.childMap v.cloud with
        | none =>
          by_cases hk : v.kubernetes = "" <;> by_cases hg : v.group = "" <;>
            simp [checkedLevels, firstFailure, ht, hk, hg, hc, h1, h2] at h
        | some cn =>
          by_cases hg : v.group = ""
          · by_cases hk : v.kubernetes = "" <;>
              first
              | (simp [checkedLevels, firstFailure, ht, hk, hg, hc, h1, h2] at h; done)
              | simp [descend, ht, hk, hg, hc, h1, h2]
          · cases h3 : mapGet cn.childMap v.group with
            | none =>
              by_cases hk : v.kubernetes = "" <;>
                simp [checkedLevels, firstFailure, ht, hk, hg, hc, h1, h2, h3] at h
            | some gn =>
              by_cases hk : v.kubernetes = ""
              · simp [descend, ht, hk, hg, hc, h1, h2, h3]
              · cases h4 : mapGet gn.childMap v.kubernetes with
                | none => simp [checkedLevels, firstFailure, ht, hk, hg, hc, h1, h2, h3, h4] at h
                | some kn => simp [descend, ht, hk, hg, hc, h1, h2, h3, h4]

theorem objectCheck_eq_firstFailure (rootNamespace : Namespace) (t : file) (errors : List Err)
    (rule : String) (object : List String) :
    objectCheck rootNamespace t errors rule object
      = errors ++ (firstFailure rule t.path rootNamespace rootNamespace.path
          (checkedLevels (objectCheckValues object))).toList := by
  simp only [objectCheck]
  exact nsCheck_eq_firstFailure rootNamespace t errors rule (objectCheckValues object)

theorem objectCheck_errors (rootNamespace : Namespace) (t : file) (errors : List Err)
    (rule : String) (object : List String) :
    objectCheck rootNamespace t errors rule object
      = errors ++ objectCheck rootNamespace t [] rule object := by
  rw [objectCheck_eq_firstFailure, objectCheck_eq_firstFailure rootNamespace t []]
  simp

theorem objectCheck_isReferenceError (rootNamespace : Namespace) (t : file) (rule : String)
    (object : List String) :
    ∀ e ∈ objectCheck rootNamespace t [] rule object, e.isReferenceError = true := by
  intro e he
  rw [objectCheck_eq_firstFailure] at he
  simp only [List.nil_append, Option.mem_toList, Option.mem_def] at he
  exact firstFailure_isReferenceError _ _ _ _ _ e he

theorem foldl_objectCheck_eq (rootNamespace : Namespace) (t : file) (rule : String)
    (objects : List (List String)) : ∀ (errors : List Err),
    objects.foldl (fun errs object => objectCheck rootNamespace t errs rule object) errors
      = errors ++ objects.flatMap (fun object => objectCheck rootNamespace t [] rule object) := by
  induction objects with
  | nil => intro errors; simp
  | cons object objects ih =>
    intro errors
    simp only [List.foldl_cons, List.flatMap_cons]
    rw [ih, objectCheck_errors, List.append_assoc]

theorem ruleCheck_eq (rootNamespace : Namespace) (t : file) (rule : String)
    (rules : List (Option prisma.Rule)) : ∀ (errors errs : List Err),
    ruleCheck rootNamespace t errors rule rules = some errs →
    errs = errors ++ referenceErrorsOfRules rootNamespace t rule rules := by
  induction rules with
  | nil =>
    intro errors errs h
    simp only [ruleCheck, Option.some.injEq] at h
    simp [referenceErrorsOfRules, objectsOfRules, ← h]
  | cons r rules ih =>
    intro errors errs h
    cases r with
    | none => simp [ruleCheck] at h
    | some r =>
      simp only [ruleCheck] at h
      rw [ih _ _ h, foldl_objectCheck_eq]
      simp [referenceErrorsOfRules, objectsOfRules, List.flatMap_append, List.append_assoc]

theorem rulesetsCheck_eq (rootNamespace : Namespace) (t : file)
    (policies : List (Option prisma.Networkrulesetpolicy)) : ∀ (errors errs : List Err),
    rulesetsCheck rootNamespace t errors policies = some errs →
    errs = errors ++ referenceErrors rootNamespace t policies := by
  induction policies with
  | nil =>
    intro errors errs h
    simp only [rulesetsCheck, Option.some.injEq] at h
    simp [referenceErrors, ← h]
  | cons rs policies ih =>
    intro errors errs h
    cases rs with
    | none =>
      simp only [rulesetsCheck] at h
      rw [ih _ _ h]
      simp [referenceErrors]
    | some rs =>
      simp only [rulesetsCheck] at h
      cases h1 : ruleCheck rootNamespace t errors "OutgoingRules" rs.OutgoingRules with
      | none => simp [h1] at h
      | some errors1 =>
        simp only [h1] at h
        cases h2 : ruleCheck rootNamespace t errors1 "IncomingRules" rs.IncomingRules with
        | none => simp [h2] at h
        | some errors2 =>
          simp only [h2] at h
          rw [ih _ _ h, ruleCheck_eq _ _ _ _ _ _ h2, ruleCheck_eq _ _ _ _ _ _ h1]
          simp [referenceErrors, List.append_assoc]

theorem referenceErrors_isReferenceError (rootNamespace : Namespace) (t : file)
    (policies : List (Option prisma.Networkrulesetpolicy)) :
    ∀ e ∈ referenceErrors rootNamespace t policies, e.isReferenceError = true := by
  intro e he
  simp only [referenceErrors, List.mem_flatMap] at he
  obtain ⟨rs, -, he⟩ := he
  cases rs with
  | none => simp at he
  | some rs =>
    simp only [List.mem_append, referenceErrorsOfRules, List.mem_flatMap] at he
    rcases he with ⟨o, -, he⟩ | ⟨o, -, he⟩
    · exact objectCheck_isReferenceError _ _ _ _ e he
    · exact objectCheck_isReferenceError _ _ _ _ e he

/-- What `validate` returns for a document with data. -/
theorem validate_eq {rootNamespace : Namespace} {t : file} {prismaConfig : prisma.Config}
    {data : prisma.Data} {errs : List Err} (hc : t.prismaConfig = some prismaConfig)
    (hd : prismaConfig.Data = some data) (hv : t.validate rootNamespace = some errs) :
    errs = referenceErrors rootNamespace t data.Networkrulesetpolicies
      ++ (if prismaConfig.Label ≠ t.label then
            [Err.labelMismatch prismaConfig.Label t.label t.path]
          else []) := by
  simp only [file.validate, hc, hd] at hv
  cases hr : rulesetsCheck rootNamespace t [] data.Networkrulesetpolicies with
  | none => simp [hr] at hv
  | some errors =>
    simp only [hr] at hv
    have h0 := rulesetsCheck_eq _ _ _ _ _ hr
    simp only [List.nil_append] at h0
    subst h0
    split at hv
    · rename_i hl
      simp only [Option.some.injEq] at hv
      simp [← hv, hl]
    · rename_i hl
      simp only [Option.some.injEq] at hv
      simp [← hv, hl]

theorem validate_returns {rootNamespace : Namespace} {t : file} (hp : rulesPresent t) :
    ∃ errs, t.validate rootNamespace = some errs := by
  unfold file.validate
  cases hc : t.prismaConfig with
  | none => exact ⟨_, rfl⟩
  | some cfg =>
    simp only []
    cases hd : cfg.Data with
    | none => exact ⟨_, rfl⟩
    | some data =>
      obtain ⟨errors, hr⟩ := rulesetsCheck_returns rootNamespace t
        data.Networkrulesetpolicies [] (hp cfg data hc hd)
      simp only [hr]
      split
      · exact ⟨_, rfl⟩
      · exact ⟨_, rfl⟩

/-! ## Validation of a whole tree -/

theorem validateAll_cons (rootNamespace : Namespace) (f : file) (fs : List file) :
    validateAll rootNamespace (f :: fs)
      = (f.validate rootNamespace).bind
          (fun err => (validateAll rootNamespace fs).map (fun errs => err ++ errs)) := by
  simp only [validateAll]
  cases f.validate rootNamespace with
  | none => rfl
  | some err => cases validateAll rootNamespace fs <;> rfl

theorem validateAll_append (rootNamespace : Namespace) (a b : List file) :
    validateAll rootNamespace (a ++ b)
      = (validateAll rootNamespace a).bind
          (fun ea => (validateAll rootNamespace b).map (fun eb => ea ++ eb)) := by
  induction a with
  | nil =>
    simp only [List.nil_append, validateAll, Option.some_bind, List.nil_append]
    cases validateAll rootNamespace b <;> simp
  | cons f a ih =>
    rw [List.cons_append, validateAll_cons, validateAll_cons, ih]
    cases f.validate rootNamespace with
    | none => rfl
    | some err =>
      cases validateAll rootNamespace a with
      | none => rfl
      | some ea =>
        cases validateAll rootNamespace b with
        | none => rfl
        | some eb => simp [List.append_assoc]

theorem validateFileMap_eq (rootNamespace : Namespace) (fileMap : List (String × file)) :
    ∀ (errors : List Err), Namespace.validateFileMap rootNamespace errors fileMap
      = (validateAll rootNamespace (fileMap.map (fun entry => entry.2))).map
          (fun errs => errors ++ errs) := by
  induction fileMap with
  | nil => intro errors; simp [Namespace.validateFileMap, validateAll]
  | cons entry fileMap ih =>
    intro errors
    obtain ⟨k, m⟩ := entry
    simp only [Namespace.validateFileMap, List.map_cons, validateAll]
    cases m.validate rootNamespace with
    | none => rfl
    | some err =>
      simp only [ih]
      cases validateAll rootNamespace (fileMap.map (fun entry => entry.2)) with
      | none => rfl
      | some errs => simp [List.append_assoc]

mutual
theorem Validate_eq_validateAll (rootNamespace : Namespace) : ∀ (t : Namespace),
    Namespace.Validate rootNamespace t = validateAll rootNamespace t.documents
  | .mk childMap _ _ _ _ _ fileMap _ _ _ _ _ => by
    simp only [Namespace.Validate, Namespace.documents, validateAll_append,
      validateChildMap_eq rootNamespace childMap [], validateFileMap_eq]
    cases validateAll rootNamespace (documentsOfChildren childMap) with
    | none => rfl
    | some ea => simp
theorem validateChildMap_eq (rootNamespace : Namespace) :
    ∀ (childMap : List (String × Namespace)) (errors : List Err),
    Namespace.validateChildMap rootNamespace errors childMap
      = (validateAll rootNamespace (documentsOfChildren childMap)).map
          (fun errs => errors ++ errs)
  | [], errors => by simp [Namespace.validateChildMap, documentsOfChildren, validateAll]
  | (_, m) :: rest, errors => by
    simp only [Namespace.validateChildMap, documentsOfChildren, validateAll_append,
      Validate_eq_validateAll rootNamespace m]
    cases validateAll rootNamespace m.documents with
    | none => rfl
    | some err =>
      simp only [validateChildMap_eq rootNamespace rest, Option.some_bind]
      cases validateAll rootNamespace (documentsOfChildren rest) with
      | none => rfl
      | some errs => simp [List.append_assoc]
end

theorem validateAll_spec (rootNamespace : Namespace) (fs : List file) :
    ∀ (errs : List Err), validateAll rootNamespace fs = some errs →
    (errs = [] ↔ ∀ f ∈ fs, f.validate rootNamespace = some []) ∧
    (∀ f ∈ fs, ∃ e, f.validate rootNamespace = some e ∧ e.Sublist errs) ∧
    errs.length = (fs.map (fun f => ((f.validate rootNamespace).getD []).length)).sum := by
  induction fs with
  | nil =>
    intro errs h
    simp only [validateAll, Option.some.injEq] at h
    subst h
    simp
  | cons f fs ih =>
    intro errs h
    simp only [validateAll] at h
    cases hf : f.validate rootNamespace with
    | none => simp [hf] at h
    | some err =>
      simp only [hf] at h
      cases hr : validateAll rootNamespace fs with
      | none => simp [hr] at h
      | some rest =>
        simp only [hr, Option.some.injEq] at h
        subst h
        obtain ⟨i1, i2, i3⟩ := ih rest hr
        refine ⟨?_, ?_, ?_⟩
        · simp only [List.append_eq_nil, List.mem_cons, forall_eq_or_imp, hf,
            Option.some.injEq, i1]
        · intro g hg
          rcases List.mem_cons.mp hg with hg | hg
          · subst hg
            exact ⟨err, hf, List.sublist_append_left _ _⟩
          · obtain ⟨e, he, hs⟩ := i2 g hg
            exact ⟨e, he, hs.trans (List.sublist_append_right _ _)⟩
        · simp [hf, i3]

theorem validateAll_returns (rootNamespace : Namespace) (fs : List file)
    (h : ∀ f ∈ fs, ∃ e, f.validate rootNamespace = some e) :
    ∃ errs, validateAll rootNamespace fs = some errs := by
  induction fs with
  | nil => exact ⟨[], rfl⟩
  | cons f fs ih =>
    obtain ⟨e, he⟩ := h f (List.mem_cons_self _ _)
    obtain ⟨errs, hr⟩ := ih (fun g hg => h g (List.mem_cons_of_mem _ hg))
    exact ⟨e ++ errs, by simp [validateAll, he, hr]⟩

/-! ## The sanitizer -/

theorem hasPrefix_append (start rest : String) : HasPrefix (start ++ rest) start = true := by
  simp only [HasPrefix, String.data_append, List.isPrefixOf_iff_prefix]
  exact List.prefix_append _ _

theorem hasPrefix_org_of_chain (parent : Namespace) :
    ∀ tag ∈ canonicalChain parent, HasPrefix tag "@org:" = true := by
  have h : ∀ (key rest : String), HasPrefix ("@org:" ++ key ++ rest) "@org:" = true := by
    intro key rest
    have : "@org:" ++ key ++ rest = "@org:" ++ (key ++ rest) := by
      apply String.ext
      simp [String.data_append, List.append_assoc]
    rw [this]
    exact hasPrefix_append _ _
  have e1 : "@org:tenant=" = "@org:" ++ "tenant=" := by decide
  have e2 : "@org:cloudaccount=" = "@org:" ++ "cloudaccount=" := by decide
  have e3 : "@org:group=" = "@org:" ++ "group=" := by decide
  have e4 : "@org:kubernetes=" = "@org:" ++ "kubernetes=" := by decide
  intro tag htag
  unfold canonicalChain at htag
  cases hl : parent.level <;> simp only [hl, List.mem_cons, List.mem_singleton,
    List.not_mem_nil, or_false] at htag
  · rw [htag, e1]; exact h _ _
  · rcases htag with htag | htag
    · rw [htag, e1]; exact h _ _
    · rw [htag, e2]; exact h _ _
  · rcases htag with htag | htag | htag
    · rw [htag, e1]; exact h _ _
    · rw [htag, e2]; exact h _ _
    · rw [htag, e3]; exact h _ _
  · rcases htag with htag | htag | htag | htag
    · rw [htag, e1]; exact h _ _
    · rw [htag, e2]; exact h _ _
    · rw [htag, e3]; exact h _ _
    · rw [htag, e4]; exact h _ _

/-- The subject `sanatize` gives a ruleset is the canonical subject of the spec. -/
theorem sanatizeSubject_eq (parent : Namespace) (subject : List (List String)) :
    sanatizeSubject parent subject = canonicalSubject parent subject := by
  unfold sanatizeSubject canonicalSubject canonicalChain
  cases parent.level <;>
    simp [addTenant, addCloud, addGroup, addKubernetes, List.append_assoc]

theorem canonicalSubject_idem (parent : Namespace) (subject : List (List String)) :
    canonicalSubject parent (canonicalSubject parent subject)
      = canonicalSubject parent subject := by
  have hchain : (canonicalChain parent).filter (fun tag => !HasPrefix tag "@org:") = [] := by
    rw [List.filter_eq_nil_iff]
    intro tag htag
    simp [hasPrefix_org_of_chain parent tag htag]
  simp only [canonicalSubject, List.flatten_cons, List.flatten_nil, List.append_nil,
    List.filter_append, List.filter_filter, Bool.and_self, hchain]

theorem sanatizeRulesets_eq (parent : Namespace)
    (policies : List (Option prisma.Networkrulesetpolicy)) :
    ∀ (policies1 : List (Option prisma.Networkrulesetpolicy)),
    sanatizeRulesets parent policies = some policies1 →
    none ∉ policies ∧
    policies1 = policies.map (Option.map (fun rs =>
      { rs with Subject := canonicalSubject parent rs.Subject })) := by
  induction policies with
  | nil =>
    intro policies1 h
    simp only [sanatizeRulesets, Option.some.injEq] at h
    simp [← h]
  | cons rs policies ih =>
    intro policies1 h
    cases rs with
    | none => simp [sanatizeRulesets] at h
    | some rs =>
      simp only [sanatizeRulesets] at h
      cases hr : sanatizeRulesets parent policies with
      | none => simp [hr] at h
      | some rest1 =>
        simp only [hr, Option.some.injEq] at h
        obtain ⟨i1, i2⟩ := ih rest1 hr
        subst h
        refine ⟨?_, ?_⟩
        · simp only [List.mem_cons, reduceCtorEq, false_or]
          exact i1
        · simp [i2, sanatizeSubject_eq]

theorem sanatizeRulesets_returns (parent : Namespace)
    (policies : List (Option prisma.Networkrulesetpolicy)) (h : none ∉ policies) :
    ∃ policies1, sanatizeRulesets parent policies = some policies1 := by
  induction policies with
  | nil => exact ⟨[], rfl⟩
  | cons rs policies ih =>
    cases rs with
    | none => simp at h
    | some rs =>
      obtain ⟨rest1, hr⟩ := ih (fun hm => h (List.mem_cons_of_mem _ hm))
      simp only [sanatizeRulesets, hr]
      exact ⟨_, rfl⟩

theorem sanatizeRulesets_idem (parent : Namespace)
    (policies policies1 : List (Option prisma.Networkrulesetpolicy))
    (h : sanatizeRulesets parent policies = some policies1) :
    sanatizeRulesets parent policies1 = some policies1 := by
  have hnone : none ∉ policies1 := by
    rw [(sanatizeRulesets_eq parent policies policies1 h).2]
    intro hm
    obtain ⟨rs, hrs, he⟩ := List.mem_map.mp hm
    cases rs with
    | none => exact (sanatizeRulesets_eq parent policies policies1 h).1 hrs
    | some rs => simp at he
  obtain ⟨policies2, h2⟩ := sanatizeRulesets_returns parent policies1 hnone
  rw [h2, (sanatizeRulesets_eq parent policies1 policies2 h2).2,
    (sanatizeRulesets_eq parent policies policies1 h).2]
  congr 1
  rw [List.map_map]
  conv => rhs; rw [← List.map_id (List.map _ policies)]
  rw [List.map_map]
  apply List.map_congr_left
  intro rs _
  cases rs with
  | none => rfl
  | some rs => simp [canonicalSubject_idem]

theorem sanatizeDirty_t (env : Env) (parent : Namespace) (restore : String) (t : file)
    (prismaConfig : prisma.Config) :
    (file.sanatizeDirty env parent restore t prismaConfig).t = t := by
  simp only [file.sanatizeDirty]
  split
  · rfl
  · split
    · rfl
    · split
      · rfl
      · split <;> rfl

/-- The file `sanatize` leaves behind for a document with data. -/
theorem sanatize_t {env : Env} {parent : Namespace} {restore : String} {t : file}
    {r : sanatizeResult} {prismaConfig : prisma.Config} {data : prisma.Data}
    (hc : t.prismaConfig = some prismaConfig) (hd : prismaConfig.Data = some data)
    (hs : t.sanatize env parent restore = some r) :
    none ∉ data.Networkrulesetpolicies ∧
    sanatizeRulesets parent data.Networkrulesetpolicies
      = some (data.Networkrulesetpolicies.map (Option.map (fun rs =>
          { rs with Subject := canonicalSubject parent rs.Subject }))) ∧
    r.t = { t with
      prismaConfig := some { prismaConfig with
        Label := t.label
        Data := some { data with
          Networkrulesetpolicies :=
            data.Networkrulesetpolicies.map (Option.map (fun rs =>
              { rs with Subject := canonicalSubject parent rs.Subject })) } } } := by
  simp only [file.sanatize, hc, hd] at hs
  cases hr : sanatizeRulesets parent data.Networkrulesetpolicies with
  | none => simp [hr] at hs
  | some policies =>
    obtain ⟨h1, h2⟩ := sanatizeRulesets_eq parent _ policies hr
    simp only [hr] at hs
    subst h2
    refine ⟨h1, rfl, ?_⟩
    split at hs
    · simp only [Option.some.injEq] at hs
      rw [← hs, sanatizeDirty_t]
    · simp only [Option.some.injEq] at hs
      rw [← hs]

theorem sanatize_returns {env : Env} {parent : Namespace} {restore : String} {t : file}
    (h : sanatizable t) : ∃ r, t.sanatize env parent restore = some r := by
  unfold file.sanatize
  cases hc : t.prismaConfig with
  | none => exact ⟨_, rfl⟩
  | some cfg =>
    obtain ⟨data, hd, hn⟩ := h cfg hc
    obtain ⟨policies, hr⟩ := sanatizeRulesets_returns parent _ hn
    simp only [hd, hr]
    split
    · exact ⟨_, rfl⟩
    · exact ⟨_, rfl⟩

/-! ### The sanitizer on a single file: the file left, the effects -/

theorem sanatize_rewritten {env : Env} {parent : Namespace} {restore : String} {t : file}
    {r : sanatizeResult} (hs : t.sanatize env parent restore = some r) :
    r.t = t.rewritten parent := by
  cases hc : t.prismaConfig with
  | none =>
    simp only [file.sanatize, hc, Option.some.injEq] at hs
    subst hs
    simp [file.rewritten, hc]
  | some cfg =>
    cases hd : cfg.Data with
    | none => simp [file.sanatize, hc, hd] at hs
    | some data =>
      rw [(sanatize_t hc hd hs).2.2]
      simp [file.rewritten, hc, hd]

theorem sanatize_sanatizable {env : Env} {parent : Namespace} {restore : String} {t : file}
    {r : sanatizeResult} (hs : t.sanatize env parent restore = some r) : sanatizable t := by
  intro cfg hc
  cases hd : cfg.Data with
  | none => simp [file.sanatize, hc, hd] at hs
  | some data => exact ⟨data, rfl, (sanatize_t hc hd hs).1⟩

theorem canonicalChain_congr {p q : Namespace} (hl : p.level = q.level)
    (ht : p.tenant = q.tenant) (hc : p.cloud = q.cloud) (hg : p.group = q.group)
    (hk : p.kubernetes = q.kubernetes) : canonicalChain p = canonicalChain q := by
  simp only [canonicalChain, hl, ht, hc, hg, hk]

theorem sanatizeRulesets_congr {p q : Namespace} (h : canonicalChain p = canonicalChain q)
    (policies : List (Option prisma.Networkrulesetpolicy)) :
    sanatizeRulesets p policies = sanatizeRulesets q policies := by
  induction policies with
  | nil => rfl
  | cons rs policies ih =>
    cases rs with
    | none => rfl
    | some rs =>
      simp only [sanatizeRulesets, ih, sanatizeSubject_eq, canonicalSubject, h]

theorem sanatize_congr (env : Env) {p q : Namespace} (h : canonicalChain p = canonicalChain q)
    (hp : p.path = q.path) (hr : p.rpath = q.rpath) (restore : String) (t : file) :
    t.sanatize env p restore = t.sanatize env q restore := by
  simp only [file.sanatize, file.sanatizeDirty, sanatizeRulesets_congr h, hp, hr]

theorem rewritten_congr {p q : Namespace} (h : canonicalChain p = canonicalChain q)
    (t : file) : t.rewritten p = t.rewritten q := by
  simp only [file.rewritten, canonicalSubject, h]

theorem sanatizeDirty_shift (env : Env) (parent : Namespace) (restore restore2 : String)
    (t : file) (cfg : prisma.Config) :
    ∃ line, (file.sanatizeDirty env parent restore t cfg).restore = restore ++ line ∧
      file.sanatizeDirty env parent restore2 t cfg
        = { file.sanatizeDirty env parent restore t cfg with restore := restore2 ++ line } ∧
      line = (if archiveOp parent t ∈ (file.sanatizeDirty env parent restore t cfg).ops
        then cpLine parent t else "") := by
  simp only [file.sanatizeDirty, archiveOp, cpLine]
  cases env.mkdirAll (parent.path ++ "/.original") with
  | some e => exact ⟨"", by simp⟩
  | none =>
    cases env.rename t.path (parent.path ++ "/.original" ++ "/" ++ t.filename) with
    | some e => exact ⟨"", by simp⟩
    | none =>
      cases env.marshal cfg with
      | some e => exact ⟨_, rfl, rfl, by simp⟩
      | none =>
        cases env.writeFile t.path with
        | some e => exact ⟨_, rfl, rfl, by simp⟩
        | none => exact ⟨_, rfl, rfl, by simp⟩

/-- The restore string a call of `sanatize` returns is the one it was given, followed by the
line of the file when the file has been archived; the rest of the result does not depend on
the restore string. -/
theorem sanatize_shift {env : Env} {parent : Namespace} {restore : String} {t : file}
    {r : sanatizeResult} (hs : t.sanatize env parent restore = some r) (restore2 : String) :
    ∃ line, r.restore = restore ++ line ∧
      t.sanatize env parent restore2 = some { r with restore := restore2 ++ line } ∧
      line = (if archiveOp parent t ∈ r.ops then cpLine parent t else "") := by
  cases hc : t.prismaConfig with
  | none =>
    simp only [file.sanatize, hc, Option.some.injEq] at hs ⊢
    subst hs
    exact ⟨"", by simp⟩
  | some cfg =>
    cases hd : cfg.Data with
    | none => simp [file.sanatize, hc, hd] at hs
    | some data =>
      cases hr : sanatizeRulesets parent data.Networkrulesetpolicies with
      | none => simp [file.sanatize, hc, hd, hr] at hs
      | some policies =>
        simp only [file.sanatize, hc, hd, hr] at hs ⊢
        by_cases hdy : file.dirty env t cfg data.Networkrulesetpolicies policies = true
        · rw [if_pos hdy] at hs ⊢
          simp only [Option.some.injEq] at hs
          subst hs
          obtain ⟨line, h1, h2, h3⟩ := sanatizeDirty_shift env parent restore restore2
            { t with prismaConfig := some { cfg with
                Label := t.label
                Data := some { data with Networkrulesetpolicies := policies } } }
            { cfg with
                Label := t.label
                Data := some { data with Networkrulesetpolicies := policies } }
          refine ⟨line, h1, ?_, ?_⟩
          · rw [h2]
          · simpa [archiveOp, cpLine] using h3
        · rw [if_neg hdy] at hs ⊢
          simp only [Option.some.injEq] at hs
          subst hs
          exact ⟨"", by simp⟩

/-- A second call of `sanatize`, on the rewritten file, does nothing. -/
theorem sanatize_again {env : Env} {parent : Namespace} {restore : String} {t : file}
    {r : sanatizeResult} (hs : t.sanatize env parent restore = some r) (env2 : Env)
    (restore2 : String) :
    (t.rewritten parent).sanatize env2 parent restore2
      = some { t := t.rewritten parent, restore := restore2, ops := [], err := none } := by
  cases hc : t.prismaConfig with
  | none => simp [file.rewritten, file.sanatize, hc]
  | some cfg =>
    cases hd : cfg.Data with
    | none => simp [file.sanatize, hc, hd] at hs
    | some data =>
      obtain ⟨-, h2, -⟩ := sanatize_t hc hd hs
      have hidem := sanatizeRulesets_idem parent _ _ h2
      simp only [file.rewritten, hc, hd, file.sanatize, hidem]
      simp [file.dirty]

/-! ### `Sanatize` of a tree as a pass over the list of its documents -/

theorem sanatizeAll_cons (env : Env) (restore : String) (p : Namespace) (f : file)
    (rest : List (Namespace × file)) :
    sanatizeAll env restore ((p, f) :: rest)
      = if p.level = .metaLevelRoot then sanatizeAll env restore rest
        else (f.sanatize env p restore).bind (fun r =>
          (sanatizeAll env r.restore rest).map (fun e =>
            { restore := e.restore, ops := r.ops ++ e.ops, err := r.err.toList ++ e.err })) := by
  simp only [sanatizeAll]
  split
  · rfl
  · cases f.sanatize env p restore with
    | none => rfl
    | some r =>
      simp only [Option.some_bind]
      cases sanatizeAll env r.restore rest <;> rfl

theorem sanatizeAll_append (env : Env) (a b : List (Namespace × file)) :
    ∀ (restore : String), sanatizeAll env restore (a ++ b)
      = (sanatizeAll env restore a).bind (fun ea =>
          (sanatizeAll env ea.restore b).map (fun eb =>
            { restore := eb.restore, ops := ea.ops ++ eb.ops, err := ea.err ++ eb.err })) := by
  induction a with
  | nil =>
    intro restore
    simp only [List.nil_append, sanatizeAll, Option.some_bind, List.nil_append]
    cases sanatizeAll env restore b <;> rfl
  | cons pf a ih =>
    intro restore
    obtain ⟨p, f⟩ := pf
    rw [List.cons_append, sanatizeAll_cons, sanatizeAll_cons]
    by_cases hl : p.level = .metaLevelRoot
    · rw [if_pos hl, if_pos hl]
      exact ih restore
    · rw [if_neg hl, if_neg hl]
      cases f.sanatize env p restore with
      | none => rfl
      | some r =>
        simp only [Option.some_bind]
        rw [ih]
        cases sanatizeAll env r.restore a with
        | none => rfl
        | some ea =>
          simp only [Option.some_bind, Option.map_some']
          cases sanatizeAll env ea.restore b with
          | none => rfl
          | some eb => simp [List.append_assoc]

theorem sanatizeFileMap_eq (env : Env) (parent : Namespace)
    (hl : parent.level ≠ .metaLevelRoot) :
    ∀ (fileMap : List (String × file)) (restore : String),
    Namespace.sanatizeFileMap env parent restore fileMap
      = (sanatizeAll env restore (fileMap.map (fun entry => (parent, entry.2)))).map
          (fun e =>
            { value := fileMap.map (fun entry => (entry.1, entry.2.rewritten parent)),
              restore := e.restore, ops := e.ops, err := e.err }) := by
  intro fileMap
  induction fileMap with
  | nil => intro restore; rfl
  | cons entry fileMap ih =>
    intro restore
    obtain ⟨k, x⟩ := entry
    simp only [Namespace.sanatizeFileMap, List.map_cons, sanatizeAll, hl, if_false]
    cases hx : x.sanatize env parent restore with
    | none => rfl
    | some r =>
      simp only [ih, sanatize_rewritten hx]
      cases sanatizeAll env r.restore (fileMap.map (fun entry => (parent, entry.2))) with
      | none => rfl
      | some e => rfl

theorem sanatizeAll_root (env : Env) (parent : Namespace)
    (hl : parent.level = .metaLevelRoot) :
    ∀ (fileMap : List (String × file)) (restore : String),
    sanatizeAll env restore (fileMap.map (fun entry => (parent, entry.2)))
      = some { restore := restore, ops := [], err := [] } := by
  intro fileMap
  induction fileMap with
  | nil => intro restore; rfl
  | cons entry fileMap ih =>
    intro restore
    simp only [List.map_cons, sanatizeAll, hl, if_true, ih]

/-- One node of `Sanatize`, given the loop over its child map. -/
theorem Sanatize_node (env : Env) (self : Bool) (restore : String)
    (childMap : List (String × Namespace)) (level : metaLevel)
    (tenant cloud group kubernetes : String) (fileMap : List (String × file))
    (path rpath label restore0 : String) (verbose : Bool)
    (hcm : Namespace.sanatizeChildMap env restore childMap
      = (sanatizeAll env restore (ownedOfChildren childMap)).map (fun e =>
          { value := rewrittenChildMap childMap, restore := e.restore, ops := e.ops,
            err := e.err })) :
    Namespace.Sanatize env self restore
        (.mk childMap level tenant cloud group kubernetes fileMap path rpath label restore0
          verbose)
      = (sanatizeAll env restore (Namespace.owned
          (.mk childMap level tenant cloud group kubernetes fileMap path rpath label restore0
            verbose))).map (fun e =>
          { value := (Namespace.rewritten
              (.mk childMap level tenant cloud group kubernetes fileMap path rpath label
                restore0 verbose)).setRestore (if self then e.restore else restore0),
            restore := e.restore,
            ops := e.ops ++ scriptOps env path (if self then e.restore else restore0),
            err := e.err ++ scriptErrors env path (if self then e.restore else restore0) }) := by
  simp only [Namespace.Sanatize, hcm, Namespace.owned, sanatizeAll_append]
  cases sanatizeAll env restore (ownedOfChildren childMap) with
  | none => rfl
  | some ea =>
    simp only [Option.map_some', Option.some_bind]
    by_cases hl : level = .metaLevelRoot
    · subst hl
      have h0 := sanatizeAll_root env
        (.mk childMap .metaLevelRoot tenant cloud group kubernetes fileMap path rpath label
          restore0 verbose) rfl fileMap ea.restore
      simp only [h0, ne_eq, not_true_eq_false, if_false, Option.map_some',
        Namespace.rewritten, Namespace.setRestore, scriptOps, scriptErrors]
      cases hw : env.writeFile (path ++ "/restore.sh") <;> cases self <;>
        by_cases hr0 : restore0 = "" <;> by_cases hr1 : ea.restore = "" <;>
        simp [hr0, hr1]
    · have h0 := sanatizeFileMap_eq env
        (.mk childMap level tenant cloud group kubernetes fileMap path rpath label restore0
          verbose) hl fileMap ea.restore
      simp only [ne_eq, hl, not_false_eq_true, if_true, h0]
      cases sanatizeAll env ea.restore (fileMap.map (fun entry =>
        (Namespace.mk childMap level tenant cloud group kubernetes fileMap path rpath label
          restore0 verbose, entry.2))) with
      | none => rfl
      | some eb =>
        simp only [Option.map_some', Namespace.rewritten, Namespace.setRestore, scriptOps,
          scriptErrors, ne_eq, hl, not_false_eq_true, if_true]
        cases hw : env.writeFile (path ++ "/restore.sh") <;> cases self <;>
          by_cases hr0 : restore0 = "" <;> by_cases hr1 : eb.restore = "" <;>
          simp [hr0, hr1, List.append_assoc]

/-! # The claims -/

/-- Root fields of a tree returned by `NewNamespace`. -/
theorem NewNamespace_root {path : String} {verbose : Bool} {fs : FsEntry} {t : Namespace}
    {err : List Err} (h : NewNamespace path verbose fs = some (some t, err)) :
    (t.level = .metaLevelRoot ∧ t.tenant = "" ∧ t.cloud = "" ∧ t.group = "" ∧
      t.kubernetes = "") ∧ t.label = "" ∧ t.path = path := by
  have hh := (NewNamespace_spec h).1
  simp only [Namespace.header, Prod.mk.injEq] at hh
  obtain ⟨h1, h2, h3, h4, h5, h6, -, h8, -⟩ := hh
  exact ⟨⟨h1, h2, h3, h4, h5⟩, h8, h6⟩

/-- C1: in the tree `NewNamespace` builds, the node reached from the root through the
non-empty directory names `names` has the label made of these names joined by `:`; the label
of the root is empty, and no node lies deeper than four names below the root. -/
theorem label_eq_joined_names (path : String) (verbose : Bool) (fs : FsEntry) (t : Namespace)
    (err : List Err) (names : List String) (node : Namespace)
    (hnew : NewNamespace path verbose fs = some (some t, err))
    (hne : ∀ n ∈ names, n ≠ "")
    (hnode : descend names t = some node) :
    node.label = ":".intercalate names ∧ t.label = "" ∧ names.length ≤ 4 := by
  have hroot := NewNamespace_root hnew
  have hinv := (NewNamespace_spec hnew).2
  refine ⟨node_label hroot.2.1 hinv names node hne hnode, hroot.2.1, ?_⟩
  have := (node_fields hroot.1 hinv names node hnode).1
  have := depth_le_four node.level
  omega

/-- Witness of C1 on the tree `root/T1/C1/G1/K1`. -/
theorem label_eq_joined_names_witness :
    NewNamespace "root" false exampleFs = some (some exampleRoot, []) ∧
    descend ["T1", "C1", "G1", "K1"] exampleRoot = some exampleK1 ∧
    exampleK1.label = "T1:C1:G1:K1" ∧ exampleRoot.label = "" :=
  ⟨rfl, rfl,
    (label_eq_joined_names "root" false exampleFs exampleRoot [] ["T1", "C1", "G1", "K1"]
      exampleK1 rfl (by decide) rfl).1,
    (label_eq_joined_names "root" false exampleFs exampleRoot [] ["T1", "C1", "G1", "K1"]
      exampleK1 rfl (by decide) rfl).2.1⟩

/-- C2: in the tree `NewNamespace` builds, the level of the node reached from the root through
`names` is the level of depth `names.length` (root 0, tenant 1, cloud 2, group 3,
kubernetes 4), the depth is at most 4, and every entry of the node's child map is exactly one
level deeper than the node. -/
theorem level_eq_depth (path : String) (verbose : Bool) (fs : FsEntry) (t : Namespace)
    (err : List Err) (names : List String) (node : Namespace)
    (hnew : NewNamespace path verbose fs = some (some t, err))
    (hnode : descend names t = some node) :
    node.level.depth = names.length ∧ names.length ≤ 4 ∧ t.level = .metaLevelRoot ∧
    ∀ (k : String) (child : Namespace), mapGet node.childMap k = some child →
      child.level.depth = node.level.depth + 1 := by
  have hroot := NewNamespace_root hnew
  have hinv := (NewNamespace_spec hnew).2
  have h1 := (node_fields hroot.1 hinv names node hnode).1
  have h2 := depth_le_four node.level
  refine ⟨h1, by omega, hroot.1.1, ?_⟩
  intro k child hc
  exact (childOf_fields (hinv names node k child hnode hc)).1

/-- Witness of C2 on the group-level node of `root/T1/C1/G1/K1`. -/
theorem level_eq_depth_witness :
    NewNamespace "root" false exampleFs = some (some exampleRoot, []) ∧
    descend ["T1", "C1", "G1"] exampleRoot = some exampleG1 ∧
    exampleG1.level.depth = 3 ∧
    (∀ (k : String) (child : Namespace), mapGet exampleG1.childMap k = some child →
      child.level.depth = exampleG1.level.depth + 1) :=
  ⟨rfl, rfl,
    (level_eq_depth "root" false exampleFs exampleRoot [] ["T1", "C1", "G1"] exampleG1
      rfl rfl).1,
    (level_eq_depth "root" false exampleFs exampleRoot [] ["T1", "C1", "G1"] exampleG1
      rfl rfl).2.2.2⟩

/-- C3: in the tree `NewNamespace` builds, the identity fields tenant, cloud, group,
kubernetes of the node reached from the root through `names` are these names in order,
followed by empty strings; the four fields of the root are empty; and every entry of a node's
child map is stored under the identity field that belongs to the child's own level. -/
theorem identity_fields_eq_names (path : String) (verbose : Bool) (fs : FsEntry)
    (t : Namespace) (err : List Err) (names : List String) (node : Namespace)
    (hnew : NewNamespace path verbose fs = some (some t, err))
    (hnode : descend names t = some node) :
    [node.tenant, node.cloud, node.group, node.kubernetes]
      = names ++ List.replicate (4 - names.length) "" ∧
    [t.tenant, t.cloud, t.group, t.kubernetes] = ["", "", "", ""] ∧
    ∀ (k : String) (child : Namespace), mapGet node.childMap k = some child →
      child.identity = k := by
  have hroot := NewNamespace_root hnew
  have hinv := (NewNamespace_spec hnew).2
  refine ⟨(node_fields hroot.1 hinv names node hnode).2, ?_, ?_⟩
  · obtain ⟨-, h2, h3, h4, h5⟩ := hroot.1
    rw [h2, h3, h4, h5]
  · intro k child hc
    exact (childOf_fields (hinv names node k child hnode hc)).2.2.1

/-- Witness of C3 on the cloud-level node of `root/T1/C1/G1/K1`. -/
theorem identity_fields_eq_names_witness :
    NewNamespace "root" false exampleFs = some (some exampleRoot, []) ∧
    descend ["T1", "C1"] exampleRoot = some exampleC1 ∧
    [exampleC1.tenant, exampleC1.cloud, exampleC1.group, exampleC1.kubernetes]
      = ["T1", "C1", "", ""] ∧
    (∀ (k : String) (child : Namespace), mapGet exampleC1.childMap k = some child →
      child.identity = k) :=
  ⟨rfl, rfl,
    (identity_fields_eq_names "root" false exampleFs exampleRoot [] ["T1", "C1"] exampleC1
      rfl rfl).1,
    (identity_fields_eq_names "root" false exampleFs exampleRoot [] ["T1", "C1"] exampleC1
      rfl rfl).2.2⟩

/-- C4: a policy file directly in the root directory gives exactly one error, the structural
error that names the file: the listing with the file yields the tree of the listing without
it and the same errors with this one error put in; the document map of the root is empty;
and when no other file of the root has this name, none of the other errors is this error. -/
theorem policy_file_in_root (path : String) (verbose : Bool) (n name : String)
    (loadErr : Option String) (config : Option prisma.Config) (pre post : List FsEntry)
    (hp : path ≠ "") (hext : extensionCheck name = true) :
    ∃ t e1 e2,
      NewNamespace path verbose (.dir n none (pre ++ .file name loadErr config :: post))
        = some (some t, e1 ++ [Err.fileInRoot (path ++ "/" ++ name)] ++ e2) ∧
      NewNamespace path verbose (.dir n none (pre ++ post)) = some (some t, e1 ++ e2) ∧
      t.fileMap = [] ∧
      ((∀ e ∈ pre ++ post, e.isDir = false → e.name ≠ name) →
        Err.fileInRoot (path ++ "/" ++ name) ∉ e1 ++ e2) := by
  have hstep : ∀ (t : Namespace) (errors : List Err),
      t.header = (Namespace.mk [] .metaLevelRoot "" "" "" "" [] path "" "" "" verbose).header →
      t.readStep errors (.file name loadErr config)
        = some (t, errors ++ [Err.fileInRoot (path ++ "/" ++ name)]) := by
    intro t errors hh
    have hl : t.level = .metaLevelRoot := header_level hh
    have hpa : t.path = path := header_path hh
    simp only [Namespace.readStep, hext, hl, if_true, hpa]
  have hl0 : (Namespace.mk [] .metaLevelRoot "" "" "" "" [] path "" "" "" verbose).level
      = .metaLevelRoot := rfl
  obtain ⟨t1, e1, t, e2, h1, h2, h3, h4⟩ := readLoop_insert_error _ pre post _ _ hstep
  refine ⟨t, e1, e2, ?_, ?_, ?_, ?_⟩
  · simp only [NewNamespace, hp, if_false, Namespace.read, h3]
  · simp only [NewNamespace, hp, if_false, Namespace.read, h4]
  · exact readLoop_root_fileMap (pre ++ post) hl0 h4
  · intro hn
    have hn1 : ∀ e ∈ pre, e.isDir = false → e.name ≠ name :=
      fun e he => hn e (List.mem_append_left _ he)
    have hn2 : ∀ e ∈ post, e.isDir = false → e.name ≠ name :=
      fun e he => hn e (List.mem_append_right _ he)
    have hl1 : t1.level = .metaLevelRoot := header_level (readLoop_header pre h1)
    have hp1 : t1.path = path := header_path (readLoop_header pre h1)
    have a1 := readLoop_root_no_fileInRoot name pre _ [] _ hl0 hn1 (by simp) h1
    have a2 := readLoop_root_no_fileInRoot name post t1 [] _ hl1 hn2 (by simp) h2
    rw [hp1] at a2
    simp only [List.mem_append, not_or]
    exact ⟨a1, a2⟩

/-- Witness of C4: the root `root` holding the tenant directory `T1` and `policy.yaml`. -/
theorem policy_file_in_root_witness :
    ∃ t e1 e2,
      NewNamespace "root" false (.dir "root" none
          ([.dir "T1" none []] ++ .file "policy.yaml" none (some examplePolicy) :: []))
        = some (some t, e1 ++ [Err.fileInRoot ("root" ++ "/" ++ "policy.yaml")] ++ e2) ∧
      NewNamespace "root" false (.dir "root" none ([.dir "T1" none []] ++ []))
        = some (some t, e1 ++ e2) ∧
      t.fileMap = [] ∧
      ((∀ e ∈ [FsEntry.dir "T1" none []] ++ [], e.isDir = false → e.name ≠ "policy.yaml") →
        Err.fileInRoot ("root" ++ "/" ++ "policy.yaml") ∉ e1 ++ e2) :=
  policy_file_in_root "root" false "root" "policy.yaml" none (some examplePolicy)
    [.dir "T1" none []] [] (by decide) (by decide)

/-- C5: a subdirectory (not named `.original`) of a directory read at the kubernetes level
gives exactly one error, the structural error that names it: the listing with the
subdirectory yields the node of the listing without it (so no child node, and nothing that
depends on what the subdirectory holds) and the same errors with this one error put in; the
child map is left as it was; and when no other directory of the listing has this name, none
of the other errors is this error. -/
theorem subdirectory_of_kubernetes (t : Namespace) (n name : String)
    (readErr : Option String) (entries pre post : List FsEntry)
    (ht : t.level = .metaLevelKubernetes) (hn : name ≠ ".original") :
    ∃ t1 e1 e2,
      t.read (.dir n none (pre ++ .dir name readErr entries :: post))
        = some (t1, e1 ++ [Err.dirHasChildren (t.path ++ "/" ++ name)] ++ e2) ∧
      t.read (.dir n none (pre ++ post)) = some (t1, e1 ++ e2) ∧
      t1.childMap = t.childMap ∧
      ((∀ e ∈ pre ++ post, e.isDir = true → e.name ≠ name) →
        Err.dirHasChildren (t.path ++ "/" ++ name) ∉ e1 ++ e2) := by
  have hstep : ∀ (u : Namespace) (errors : List Err), u.header = t.header →
      u.readStep errors (.dir name readErr entries)
        = some (u, errors ++ [Err.dirHasChildren (t.path ++ "/" ++ name)]) := by
    intro u errors hh
    have hl : u.level = .metaLevelKubernetes := by rw [header_level hh, ht]
    have hpa : u.path = t.path := header_path hh
    simp only [Namespace.readStep, hn, hl, if_true, if_false, hpa]
  obtain ⟨t1, e1, t2, e2, h1, h2, h3, h4⟩ := readLoop_insert_error t pre post _ _ hstep
  refine ⟨t2, e1, e2, ?_, ?_, ?_, ?_⟩
  · simp only [Namespace.read, h3]
  · simp only [Namespace.read, h4]
  · exact readLoop_kubernetes_childMap (pre ++ post) ht h4
  · intro hne
    have hn1 : ∀ e ∈ pre, e.isDir = true → e.name ≠ name :=
      fun e he => hne e (List.mem_append_left _ he)
    have hn2 : ∀ e ∈ post, e.isDir = true → e.name ≠ name :=
      fun e he => hne e (List.mem_append_right _ he)
    have hl1 : t1.level = .metaLevelKubernetes := by
      rw [header_level (readLoop_header pre h1), ht]
    have hp1 : t1.path = t.path := header_path (readLoop_header pre h1)
    have a1 := readLoop_kubernetes_no_dirHasChildren name pre t [] _ ht hn1 (by simp) h1
    have a2 := readLoop_kubernetes_no_dirHasChildren name post t1 [] _ hl1 hn2 (by simp) h2
    rw [hp1] at a2
    simp only [List.mem_append, not_or]
    exact ⟨a1, a2⟩

/-- Witness of C5: the directory `root/T1/C1/G1/K1` holding `policy.yaml` and the
subdirectory `sub`, read by the kubernetes-level node `newNamespace` creates for it. -/
theorem subdirectory_of_kubernetes_witness :
    ∃ t1 e1 e2,
      (Namespace.mk [] .metaLevelKubernetes "T1" "C1" "G1" "K1" [] "root/T1/C1/G1/K1"
          "T1/C1/G1/K1" "T1:C1:G1:K1" "" false).read
        (.dir "K1" none ([.file "policy.yaml" none (some examplePolicy)]
          ++ .dir "sub" none [.file "deep.yaml" none none] :: []))
        = some (t1, e1 ++ [Err.dirHasChildren ("root/T1/C1/G1/K1" ++ "/" ++ "sub")] ++ e2) ∧
      (Namespace.mk [] .metaLevelKubernetes "T1" "C1" "G1" "K1" [] "root/T1/C1/G1/K1"
          "T1/C1/G1/K1" "T1:C1:G1:K1" "" false).read
        (.dir "K1" none ([.file "policy.yaml" none (some examplePolicy)] ++ []))
        = some (t1, e1 ++ e2) ∧
      t1.childMap = [] ∧
      ((∀ e ∈ [FsEntry.file "policy.yaml" none (some examplePolicy)] ++ [],
          e.isDir = true → e.name ≠ "sub") →
        Err.dirHasChildren ("root/T1/C1/G1/K1" ++ "/" ++ "sub") ∉ e1 ++ e2) :=
  subdirectory_of_kubernetes
    (Namespace.mk [] .metaLevelKubernetes "T1" "C1" "G1" "K1" [] "root/T1/C1/G1/K1"
      "T1/C1/G1/K1" "T1:C1:G1:K1" "" false)
    "K1" "sub" none [.file "deep.yaml" none none]
    [.file "policy.yaml" none (some examplePolicy)] [] rfl (by decide)

/-- C6, the code at a failing input: the file name `notesyaml` ends neither in `.yml` nor in
`.yaml`, yet `extensionCheck` accepts it (the entries of `configFileExtensions` have no
dot), and `NewNamespace` registers the file as a document of the tenant `T1`. -/
theorem extension_without_dot :
    HasSuffix "notesyaml" ".yml" = false ∧ HasSuffix "notesyaml" ".yaml" = false ∧
    extensionCheck "notesyaml" = true ∧
    NewNamespace "root" false (.dir "root" none [.dir "T1" none [.file "notesyaml" none none]])
      = some (some (.mk [("T1", exampleNotes)] .metaLevelRoot "" "" "" "" [] "root" "" "" ""
          false), []) ∧
    mapGet exampleNotes.fileMap "notesyaml" ≠ none :=
  ⟨by decide, by decide, by decide, rfl, by decide⟩

/-- C7: directories named `.original` are skipped at every level.  In the loop of `read` of a
node of any level (the kubernetes level too) such an entry changes neither the node nor the
errors; and `NewNamespace` returns the same tree and the same errors for a directory tree and
for that tree without all its `.original` directories. -/
theorem original_directory_skipped (path : String) (verbose : Bool) (fs : FsEntry) :
    (∀ (t : Namespace) (errors : List Err) (readErr : Option String)
        (entries files : List FsEntry),
      t.readLoop errors (.dir ".original" readErr entries :: files) = t.readLoop errors files) ∧
    NewNamespace path verbose fs.stripOriginal = NewNamespace path verbose fs := by
  constructor
  · intro t errors readErr entries files
    simp only [Namespace.readLoop, if_true]
  · simp only [NewNamespace, read_stripOriginal]

/-- C8: `NewNamespace` returns all the errors to be found in the directory tree
(`errorsFound`: the errors of every entry of every directory, in the order of the scan); and
`read` of any directory with distinct entry names returns the errors of all its entries,
scans every subdirectory into the child-map entry of its name and registers every policy
file under its name, whatever errors the other entries give. -/
theorem errors_collected_siblings_scanned (path : String) (verbose : Bool) (fs : FsEntry)
    (t : Namespace) (n : String) (files : List FsEntry)
    (hp : path ≠ "") (hnd : (files.map FsEntry.name).Nodup) :
    (∃ root, NewNamespace path verbose fs
      = some (some root, errorsFound .metaLevelRoot path fs)) ∧
    (∃ t1, t.read (.dir n none files) = some (t1, errorsFoundIn t.level t.path files) ∧
      (∀ (name : String) (readErr : Option String) (entries : List FsEntry),
        FsEntry.dir name readErr entries ∈ files → name ≠ ".original" →
        t.level ≠ .metaLevelKubernetes →
        ∃ m c, t.newNamespace name = some m ∧
          m.read (.dir name readErr entries)
            = some (c, errorsFound m.level m.path (.dir name readErr entries)) ∧
          mapGet t1.childMap name = some c) ∧
      (∀ (name : String) (loadErr : Option String) (config : Option prisma.Config),
        FsEntry.file name loadErr config ∈ files → extensionCheck name = true →
        t.level ≠ .metaLevelRoot →
        mapGet t1.fileMap name = some ((t.newFile name).load loadErr config).1)) := by
  constructor
  · obtain ⟨⟨root, err⟩, hr⟩ :=
      read_returns fs (Namespace.mk [] .metaLevelRoot "" "" "" "" [] path "" "" "" verbose)
    have he := read_errorsFound fs _ _ hr
    simp only [level_mk, path_mk] at he
    subst he
    exact ⟨root, by simp only [NewNamespace, hp, if_false, hr]⟩
  · obtain ⟨⟨t1, err⟩, hr⟩ := read_returns (.dir n none files) t
    have he := read_errorsFound _ _ _ hr
    simp only [errorsFound] at he
    subst he
    refine ⟨t1, hr, ?_, ?_⟩
    · intro name readErr entries hmem hn hl
      obtain ⟨m, c, errs, hm, hc, hg⟩ :=
        read_scans_directory t n files hnd t1 _ hr name readErr entries hmem hn hl
      have he := read_errorsFound _ _ _ hc
      simp only at he
      subst he
      exact ⟨m, c, hm, hc, hg⟩
    · intro name loadErr config hmem hext hl
      exact read_registers_file t n files hnd t1 _ hr name loadErr config hmem hext hl

/-- Witness of C8: the tree `exampleBrokenFs`, and the listing of its tenant directory `T2`
read by the node created for `T2`. -/
theorem errors_collected_siblings_scanned_witness :
    (∃ root, NewNamespace "root" false exampleBrokenFs
      = some (some root, errorsFound .metaLevelRoot "root" exampleBrokenFs)) ∧
    (∃ t1, exampleT2.read (.dir "T2" none
          [.file "a.yaml" (some "yaml: line 1: did not find expected key") none,
           .file "b.yaml" none (some examplePolicy),
           .dir "C1" none []])
        = some (t1, errorsFoundIn exampleT2.level exampleT2.path
          [.file "a.yaml" (some "yaml: line 1: did not find expected key") none,
           .file "b.yaml" none (some examplePolicy),
           .dir "C1" none []]) ∧
      (∀ (name : String) (readErr : Option String) (entries : List FsEntry),
        FsEntry.dir name readErr entries ∈
          [FsEntry.file "a.yaml" (some "yaml: line 1: did not find expected key") none,
           .file "b.yaml" none (some examplePolicy),
           .dir "C1" none []] → name ≠ ".original" →
        exampleT2.level ≠ .metaLevelKubernetes →
        ∃ m c, exampleT2.newNamespace name = some m ∧
          m.read (.dir name readErr entries)
            = some (c, errorsFound m.level m.path (.dir name readErr entries)) ∧
          mapGet t1.childMap name = some c) ∧
      (∀ (name : String) (loadErr : Option String) (config : Option prisma.Config),
        FsEntry.file name loadErr config ∈
          [FsEntry.file "a.yaml" (some "yaml: line 1: did not find expected key") none,
           .file "b.yaml" none (some examplePolicy),
           .dir "C1" none []] → extensionCheck name = true →
        exampleT2.level ≠ .metaLevelRoot →
        mapGet t1.fileMap name = some ((exampleT2.newFile name).load loadErr config).1)) :=
  errors_collected_siblings_scanned "root" false exampleBrokenFs exampleT2 "T2"
    [.file "a.yaml" (some "yaml: line 1: did not find expected key") none,
     .file "b.yaml" none (some examplePolicy),
     .dir "C1" none []]
    (by decide) (by decide)

/-- C9: the values `objectCheck` hands to `nsCheck` for a tag-group are, for each of the keys
`@org:tenant`, `@org:cloudaccount`, `@org:group`, `@org:kubernetes`, the value of the last
tag with that key, empty when there is none; and the tags with other keys play no part: the
tag-group without them gives the same values. -/
theorem objectCheck_last_value_wins (rootNamespace : Namespace) (t : file)
    (errors : List Err) (rule : String) (object : List String) :
    objectCheckValues object =
      { tenant := lastValue "@org:tenant" object
        cloud := lastValue "@org:cloudaccount" object
        group := lastValue "@org:group" object
        kubernetes := lastValue "@org:kubernetes" object } ∧
    objectCheck rootNamespace t errors rule object =
      nsCheck rootNamespace t errors rule (lastValue "@org:tenant" object)
        (lastValue "@org:cloudaccount" object) (lastValue "@org:group" object)
        (lastValue "@org:kubernetes" object) ∧
    objectCheckValues (object.filter (fun tag => decide ((keyValueSplit tag).1 ∈ orgKeys)))
      = objectCheckValues object := by
  refine ⟨objectCheckValues_eq object, ?_, ?_⟩
  · simp only [objectCheck, objectCheckValues_eq]
  · exact foldl_objectCheckStep_filter object _

/-- C10: when every object tag-group of every rule of a document carries a tenant and its
chain of set values, without gaps, names nodes that exist in the tree, `validate` reports no
reference error: the only error it can return is about the document itself (a missing
config, missing data or a label mismatch); and it does return when no rule is a nil
pointer. -/
theorem valid_chains_no_reference_error (rootNamespace : Namespace) (t : file)
    (hchain : ∀ object ∈ objectsOf t, chainExists rootNamespace (objectCheckValues object)) :
    (∀ errs, t.validate rootNamespace = some errs → ∀ e ∈ errs, e.isReferenceError = false) ∧
    (rulesPresent t → ∃ errs, t.validate rootNamespace = some errs) := by
  constructor
  · intro errs hv e he
    unfold file.validate at hv
    unfold objectsOf at hchain
    cases hc : t.prismaConfig with
    | none =>
      simp only [hc, Option.some.injEq] at hv
      subst hv
      simp only [List.mem_singleton] at he
      subst he
      rfl
    | some cfg =>
      simp only [hc] at hv hchain
      cases hd : cfg.Data with
      | none =>
        simp only [hd, Option.some.injEq] at hv
        subst hv
        simp only [List.mem_singleton] at he
        subst he
        rfl
      | some data =>
        simp only [hd] at hv hchain
        cases hr : rulesetsCheck rootNamespace t [] data.Networkrulesetpolicies with
        | none => simp [hr] at hv
        | some errors =>
          simp only [hr] at hv
          have h0 := rulesetsCheck_of_chainExists rootNamespace t _ [] errors hchain hr
          subst h0
          split at hv
          · simp only [List.nil_append, Option.some.injEq] at hv
            subst hv
            simp only [List.mem_singleton] at he
            subst he
            rfl
          · simp only [Option.some.injEq] at hv
            subst hv
            simp at he
  · intro hp
    unfold file.validate
    cases hc : t.prismaConfig with
    | none => exact ⟨_, rfl⟩
    | some cfg =>
      simp only []
      cases hd : cfg.Data with
      | none => exact ⟨_, rfl⟩
      | some data =>
        obtain ⟨errors, hr⟩ := rulesetsCheck_returns rootNamespace t
          data.Networkrulesetpolicies [] (hp cfg data hc hd)
        simp only [hr]
        split
        · exact ⟨_, rfl⟩
        · exact ⟨_, rfl⟩

/-- Witness of C10: the document `policy.yaml` of the tree `root/T1/C1/G1/K1`, whose one rule
object names the tenant `T1` and the cloud `C1`; its validation returns no error at all. -/
theorem valid_chains_no_reference_error_witness :
    (∀ object ∈ objectsOf exampleFile, chainExists exampleRoot (objectCheckValues object)) ∧
    exampleFile.validate exampleRoot = some [] ∧
    (∀ errs, exampleFile.validate exampleRoot = some errs →
      ∀ e ∈ errs, e.isReferenceError = false) ∧
    (rulesPresent exampleFile → ∃ errs, exampleFile.validate exampleRoot = some errs) :=
  ⟨by decide, rfl,
    (valid_chains_no_reference_error exampleRoot exampleFile (by decide)).1,
    (valid_chains_no_reference_error exampleRoot exampleFile (by decide)).2⟩

/-- C11 as stated fails for a level without a value: in the tree `root/T1/C1/G1/K1` the
tag-group `@org:tenant=T1, @org:group=G1` does not resolve, the one error recorded for it is
the error that the cloud tag is missing, and this error names no namespace path. -/
theorem missing_value_error_names_no_path :
    ¬ chainExists exampleRoot (objectCheckValues ["@org:tenant=T1", "@org:group=G1"]) ∧
    objectCheck exampleRoot exampleFile [] "OutgoingRules" ["@org:tenant=T1", "@org:group=G1"]
      = [Err.noTag .metaLevelCloud "OutgoingRules" "root/T1/C1/G1/K1/policy.yaml"] ∧
    (Err.noTag .metaLevelCloud "OutgoingRules" "root/T1/C1/G1/K1/policy.yaml").namespacePath
      = none ∧
    ¬ ∃ (level : metaLevel) (ns : String),
      objectCheck exampleRoot exampleFile [] "OutgoingRules" ["@org:tenant=T1", "@org:group=G1"]
        = [Err.nonExistent level "OutgoingRules" "root/T1/C1/G1/K1/policy.yaml" ns] := by
  refine ⟨by decide, by decide, rfl, ?_⟩
  rintro ⟨level, ns, h⟩
  have h1 : objectCheck exampleRoot exampleFile [] "OutgoingRules"
      ["@org:tenant=T1", "@org:group=G1"]
      = [Err.noTag .metaLevelCloud "OutgoingRules" "root/T1/C1/G1/K1/policy.yaml"] := by
    decide
  rw [h1] at h
  simp at h

/-- C11, amended: for a tag-group whose chain does not resolve, `objectCheck` records exactly
one error, a reference error: the first failure on the way from the root through the levels
from tenant down to the deepest level with a value (`firstFailure`).  It is the
missing-tag error of the shallowest level without a value, which names the level, the rule
kind and the file, or the error of the shallowest value that names no child, which names the
level, the rule kind, the file and the path of the missing child below the root path;
nothing is recorded for a deeper level. -/
theorem failed_chain_one_error (rootNamespace : Namespace) (t : file) (errors : List Err)
    (rule : String) (object : List String)
    (hfail : ¬ chainExists rootNamespace (objectCheckValues object)) :
    ∃ e, objectCheck rootNamespace t errors rule object = errors ++ [e] ∧
      firstFailure rule t.path rootNamespace rootNamespace.path
        (checkedLevels (objectCheckValues object)) = some e ∧
      e.isReferenceError = true ∧
      ((∃ level, e = Err.noTag level rule t.path) ∨
        (∃ level ns, e = Err.nonExistent level rule t.path ns)) := by
  cases hf : firstFailure rule t.path rootNamespace rootNamespace.path
      (checkedLevels (objectCheckValues object)) with
  | none => exact absurd (chainExists_of_firstFailure_none _ _ _ _ hf) hfail
  | some e =>
    have href := firstFailure_isReferenceError _ _ _ _ _ e hf
    refine ⟨e, ?_, rfl, href, ?_⟩
    · rw [objectCheck_eq_firstFailure, hf]
      rfl
    · have hform : ∀ (levels : List (metaLevel × String)) (node : Namespace) (nsPath : String),
          firstFailure rule t.path node nsPath levels = some e →
          ((∃ level, e = Err.noTag level rule t.path) ∨
            (∃ level ns, e = Err.nonExistent level rule t.path ns)) := by
        intro levels
        induction levels with
        | nil => intro node nsPath h; simp [firstFailure] at h
        | cons lv levels ih =>
          intro node nsPath h
          obtain ⟨level, value⟩ := lv
          simp only [firstFailure] at h
          split at h
          · simp only [Option.some.injEq] at h
            exact Or.inl ⟨level, h.symm⟩
          · split at h
            · simp only [Option.some.injEq] at h
              exact Or.inr ⟨level, _, h.symm⟩
            · exact ih _ _ h
      exact hform _ _ _ hf

/-- Witness of C11: in the tree `root/T1/C1/G1/K1` the tag-group
`@org:tenant=T1, @org:cloudaccount=ghost` gives the one error that names the cloud level, the
rule kind and the path `root/T1/ghost`. -/
theorem failed_chain_one_error_witness :
    ¬ chainExists exampleRoot
      (objectCheckValues ["@org:tenant=T1", "@org:cloudaccount=ghost"]) ∧
    objectCheck exampleRoot exampleFile [] "OutgoingRules"
        ["@org:tenant=T1", "@org:cloudaccount=ghost"]
      = [Err.nonExistent .metaLevelCloud "OutgoingRules" "root/T1/C1/G1/K1/policy.yaml"
          "root/T1/ghost"] ∧
    ∃ e, objectCheck exampleRoot exampleFile [] "OutgoingRules"
        ["@org:tenant=T1", "@org:cloudaccount=ghost"] = [] ++ [e] ∧
      firstFailure "OutgoingRules" exampleFile.path exampleRoot exampleRoot.path
        (checkedLevels (objectCheckValues ["@org:tenant=T1", "@org:cloudaccount=ghost"]))
        = some e ∧
      e.isReferenceError = true ∧
      ((∃ level, e = Err.noTag level "OutgoingRules" exampleFile.path) ∨
        (∃ level ns, e = Err.nonExistent level "OutgoingRules" exampleFile.path ns)) :=
  ⟨by decide, by decide,
    failed_chain_one_error exampleRoot exampleFile [] "OutgoingRules"
      ["@org:tenant=T1", "@org:cloudaccount=ghost"] (by decide)⟩

/-- C12: when the values of a tag-group have a gap (the shallowest level without a value
lies above a level with a value) and the values above the gap name nodes that exist,
`objectCheck` records the missing-tag error of the level of the gap and nothing else. -/
theorem gap_reports_missing_level (rootNamespace : Namespace) (t : file) (errors : List Err)
    (rule : String) (object : List String) (level : metaLevel)
    (hgap : gapLevel (objectCheckValues object) = some level)
    (hres : (descend (valuesAbove (objectCheckValues object) level) rootNamespace).isSome
      = true) :
    objectCheck rootNamespace t errors rule object = errors ++ [Err.noTag level rule t.path] := by
  rw [objectCheck_eq_firstFailure]
  generalize objectCheckValues object = v at hgap hres
  unfold gapLevel at hgap
  by_cases ht : v.tenant = ""
  · by_cases hk : v.kubernetes = "" <;> by_cases hg : v.group = "" <;>
      by_cases hc : v.cloud = "" <;>
      simp [ht, hk, hg, hc] at hgap <;> subst hgap <;>
      simp [checkedLevels, firstFailure, ht, hk, hg, hc]
  · by_cases hc : v.cloud = ""
    · cases h1 : mapGet rootNamespace.childMap v.tenant with
      | none =>
        by_cases hk : v.kubernetes = "" <;> by_cases hg : v.group = "" <;>
          simp [ht, hk, hg, hc] at hgap <;> subst hgap <;>
          simp [valuesAbove, metaLevel.depth, descend, h1] at hres
      | some tn =>
        by_cases hk : v.kubernetes = "" <;> by_cases hg : v.group = "" <;>
          simp [ht, hk, hg, hc] at hgap <;> subst hgap <;>
          simp [checkedLevels, firstFailure, ht, hk, hg, hc, h1]
    · by_cases hg : v.group = ""
      · by_cases hk : v.kubernetes = ""
        · simp [ht, hk, hg, hc] at hgap
        · simp [ht, hk, hg, hc] at hgap
          subst hgap
          simp only [valuesAbove, metaLevel.depth, List.take, descend] at hres
          cases h1 : mapGet rootNamespace.childMap v.tenant with
          | none => simp [h1] at hres
          | some tn =>
            simp only [h1] at hres
            cases h2 : mapGet tn.childMap v.cloud with
            | none => simp [h2] at hres
            | some cn => simp [checkedLevels, firstFailure, ht, hk, hg, hc, h1, h2]
      · simp [ht, hg, hc] at hgap

/-- Witness of C12: in the tree `root/T1/C1/G1/K1` the tag-group
`@org:tenant=T1, @org:group=G1` gives the missing-tag error of the cloud level. -/
theorem gap_reports_missing_level_witness :
    gapLevel (objectCheckValues ["@org:tenant=T1", "@org:group=G1"]) = some .metaLevelCloud ∧
    (descend (valuesAbove (objectCheckValues ["@org:tenant=T1", "@org:group=G1"])
      .metaLevelCloud) exampleRoot).isSome = true ∧
    objectCheck exampleRoot exampleFile [] "IncomingRules" ["@org:tenant=T1", "@org:group=G1"]
      = [] ++ [Err.noTag .metaLevelCloud "IncomingRules" exampleFile.path] :=
  ⟨by decide, by decide,
    gap_reports_missing_level exampleRoot exampleFile [] "IncomingRules"
      ["@org:tenant=T1", "@org:group=G1"] .metaLevelCloud (by decide) (by decide)⟩

/-- C13: for a tag-group without a value for `@org:tenant` (the last tag with this key has
an empty value, or no tag has this key) `objectCheck` records exactly one error, which names
the rule kind and the file path, whatever the other tags are. -/
theorem no_tenant_one_error (rootNamespace : Namespace) (t : file) (errors : List Err)
    (rule : String) (object : List String) (h : lastValue "@org:tenant" object = "") :
    objectCheck rootNamespace t errors rule object
      = errors ++ [Err.noTag .metaLevelTenant rule t.path] := by
  rw [objectCheck_eq_firstFailure]
  have hv := objectCheckValues_eq object
  have ht : (objectCheckValues object).tenant = "" := by rw [hv]; exact h
  generalize objectCheckValues object = v at ht
  by_cases hk : v.kubernetes = "" <;> by_cases hg : v.group = "" <;>
    by_cases hc : v.cloud = "" <;>
    simp [checkedLevels, firstFailure, ht, hk, hg, hc]

/-- Witness of C13: the empty tag-group and a tag-group of application tags and a group
tag. -/
theorem no_tenant_one_error_witness :
    lastValue "@org:tenant" [] = "" ∧
    lastValue "@org:tenant" ["app=database", "@org:group=G1"] = "" ∧
    objectCheck exampleRoot exampleFile [] "OutgoingRules" []
      = [] ++ [Err.noTag .metaLevelTenant "OutgoingRules" exampleFile.path] ∧
    objectCheck exampleRoot exampleFile [] "OutgoingRules" ["app=database", "@org:group=G1"]
      = [] ++ [Err.noTag .metaLevelTenant "OutgoingRules" exampleFile.path] :=
  ⟨by decide, by decide,
    no_tenant_one_error exampleRoot exampleFile [] "OutgoingRules" [] (by decide),
    no_tenant_one_error exampleRoot exampleFile [] "OutgoingRules"
      ["app=database", "@org:group=G1"] (by decide)⟩

/-- C14: for a document with data that `read` registered for the file `filename` of the node
`p`, every result of `validate` holds a label-mismatch error if and only if the label of the
document differs from the label of `p` followed by `:` and the file name, and such an error
names the two labels and the file; `validate` returns when no rule is a nil pointer. -/
theorem label_mismatch_iff (rootNamespace p : Namespace) (filename : String)
    (loadErr : Option String) (cfg : prisma.Config) (data : prisma.Data)
    (hdata : cfg.Data = some data) :
    (∀ errs, ((p.newFile filename).load loadErr (some cfg)).1.validate rootNamespace = some errs →
      ((∃ e ∈ errs, e.isLabelMismatch = true) ↔ cfg.Label ≠ p.label ++ ":" ++ filename) ∧
      (∀ e ∈ errs, e.isLabelMismatch = true →
        e = Err.labelMismatch cfg.Label (p.label ++ ":" ++ filename)
          (p.path ++ "/" ++ filename))) ∧
    (rulesPresent ((p.newFile filename).load loadErr (some cfg)).1 →
      ∃ errs, ((p.newFile filename).load loadErr (some cfg)).1.validate rootNamespace
        = some errs) := by
  refine ⟨?_, fun hp => validate_returns hp⟩
  intro errs hv
  have he := validate_eq (t := ((p.newFile filename).load loadErr (some cfg)).1) rfl hdata hv
  simp only [file.load, Namespace.newFile] at he
  have hnot : ∀ e ∈ referenceErrors rootNamespace
      ((p.newFile filename).load loadErr (some cfg)).1 data.Networkrulesetpolicies,
      e.isLabelMismatch = false := by
    intro e hmem
    have := referenceErrors_isReferenceError _ _ _ e hmem
    cases e <;> simp [Err.isReferenceError] at this <;> rfl
  simp only [file.load, Namespace.newFile] at hnot
  by_cases hl : cfg.Label = p.label ++ ":" ++ filename
  · simp only [hl, ne_eq, not_true_eq_false, if_false, List.append_nil] at he
    subst he
    constructor
    · constructor
      · rintro ⟨e, hmem, hlm⟩
        rw [hnot e hmem] at hlm
        exact absurd hlm (by simp)
      · intro h
        exact absurd hl h
    · intro e hmem hlm
      rw [hnot e hmem] at hlm
      exact absurd hlm (by simp)
  · simp only [ne_eq, hl, not_false_eq_true, if_true] at he
    subst he
    constructor
    · constructor
      · intro _
        exact hl
      · intro _
        exact ⟨_, List.mem_append_right _ (List.mem_singleton_self _), rfl⟩
    · intro e hmem hlm
      rcases List.mem_append.mp hmem with hmem | hmem
      · rw [hnot e hmem] at hlm
        exact absurd hlm (by simp)
      · exact List.mem_singleton.mp hmem

/-- Witness of C14: the document `exampleStalePolicy` registered for
`root/T1/C1/G1/K1/policy.yaml`; its validation returns the one label-mismatch error. -/
theorem label_mismatch_iff_witness :
    exampleStalePolicy.Data = examplePolicy.Data ∧
    ((exampleK1.newFile "policy.yaml").load none (some exampleStalePolicy)).1.validate
        exampleRoot
      = some [Err.labelMismatch "stale" "T1:C1:G1:K1:policy.yaml"
          "root/T1/C1/G1/K1/policy.yaml"] ∧
    (∀ errs, ((exampleK1.newFile "policy.yaml").load none (some exampleStalePolicy)).1.validate
        exampleRoot = some errs →
      ((∃ e ∈ errs, e.isLabelMismatch = true) ↔
        exampleStalePolicy.Label ≠ exampleK1.label ++ ":" ++ "policy.yaml") ∧
      (∀ e ∈ errs, e.isLabelMismatch = true →
        e = Err.labelMismatch exampleStalePolicy.Label (exampleK1.label ++ ":" ++ "policy.yaml")
          (exampleK1.path ++ "/" ++ "policy.yaml"))) :=
  ⟨rfl, rfl,
    (label_mismatch_iff exampleRoot exampleK1 "policy.yaml" none exampleStalePolicy _ rfl).1⟩

/-- C15 as stated fails for a document without a data section: it has no rulesets and its
label is the label of its file, yet `validate` returns the missing-data error. -/
theorem document_without_data_is_error :
    exampleNoData.Data = none ∧
    exampleNoData.Label = exampleK1.label ++ ":" ++ "policy.yaml" ∧
    objectsOf ((exampleK1.newFile "policy.yaml").load none (some exampleNoData)).1 = [] ∧
    ((exampleK1.newFile "policy.yaml").load none (some exampleNoData)).1.validate exampleRoot
      = some [Err.missingData "root/T1/C1/G1/K1/policy.yaml"] :=
  ⟨rfl, by decide, rfl, rfl⟩

/-- C15, amended: for a document whose data section is present, whose label is the label of
the node followed by `:` and the file name, and which has no rulesets or only rulesets
without rules, `validate` returns no error. -/
theorem no_rules_no_error (rootNamespace p : Namespace) (filename : String)
    (loadErr : Option String) (cfg : prisma.Config) (data : prisma.Data)
    (hdata : cfg.Data = some data) (hlabel : cfg.Label = p.label ++ ":" ++ filename)
    (hrules : ∀ rs, some rs ∈ data.Networkrulesetpolicies →
      rs.OutgoingRules = [] ∧ rs.IncomingRules = []) :
    ((p.newFile filename).load loadErr (some cfg)).1.validate rootNamespace = some [] := by
  have hp : rulesPresent ((p.newFile filename).load loadErr (some cfg)).1 := by
    intro cfg1 data1 h1 h2 rs hrs
    simp only [file.load, Option.some.injEq] at h1
    subst h1
    rw [hdata, Option.some.injEq] at h2
    subst h2
    obtain ⟨ho, hi⟩ := hrules rs hrs
    simp [ho, hi]
  obtain ⟨errs, hv⟩ := @validate_returns rootNamespace _ hp
  have he := validate_eq (t := ((p.newFile filename).load loadErr (some cfg)).1) rfl hdata hv
  have hnone : referenceErrors rootNamespace
      ((p.newFile filename).load loadErr (some cfg)).1 data.Networkrulesetpolicies = [] := by
    simp only [referenceErrors, List.flatMap_eq_nil_iff]
    intro rs hrs
    cases rs with
    | none => rfl
    | some rs =>
      obtain ⟨ho, hi⟩ := hrules rs hrs
      simp [ho, hi, referenceErrorsOfRules, objectsOfRules]
  rw [hnone] at he
  simp only [file.load, Namespace.newFile, hlabel, ne_eq, not_true_eq_false, if_false,
    List.append_nil] at he
  rw [hv, he]

/-- Witness of C15: the document `exampleNoRules`, with a nil ruleset and a ruleset without
rules, registered for `root/T1/C1/G1/K1/policy.yaml`. -/
theorem no_rules_no_error_witness :
    exampleNoRules.Label = exampleK1.label ++ ":" ++ "policy.yaml" ∧
    ((exampleK1.newFile "policy.yaml").load none (some exampleNoRules)).1.validate exampleRoot
      = some [] :=
  ⟨by decide,
    no_rules_no_error exampleRoot exampleK1 "policy.yaml" none exampleNoRules _ rfl
      (by decide) (by
        intro rs hrs
        simp at hrs
        subst hrs
        exact ⟨rfl, rfl⟩)⟩

/-- C16: `Validate` of a node returns the errors of the validation of every document of its
subtree put together (it panics when the validation of one of them panics).  So what it
returns is no error if and only if the validation of every document returns no error, it
contains the errors of every document, and the number of its errors is the sum of the
numbers of errors of the documents; and it returns when the validation of every document
returns. -/
theorem validate_collects_every_error (rootNamespace t : Namespace) :
    Namespace.Validate rootNamespace t = validateAll rootNamespace t.documents ∧
    (∀ errs, Namespace.Validate rootNamespace t = some errs →
      (errs = [] ↔ ∀ f ∈ t.documents, f.validate rootNamespace = some []) ∧
      (∀ f ∈ t.documents, ∃ e, f.validate rootNamespace = some e ∧ e.Sublist errs) ∧
      errs.length
        = (t.documents.map (fun f => ((f.validate rootNamespace).getD []).length)).sum) ∧
    ((∀ f ∈ t.documents, ∃ e, f.validate rootNamespace = some e) →
      ∃ errs, Namespace.Validate rootNamespace t = some errs) := by
  refine ⟨Validate_eq_validateAll rootNamespace t, ?_, ?_⟩
  · intro errs h
    rw [Validate_eq_validateAll] at h
    exact validateAll_spec rootNamespace t.documents errs h
  · intro h
    rw [Validate_eq_validateAll]
    exact validateAll_returns rootNamespace t.documents h

/-- C17: for a document with data of a node `parent`, whatever `sanatize` returns, the
rulesets of the document are afterwards the rulesets it had, each with its subject replaced
by the canonical subject: the one tag-group of all tags of all its subject tag-groups that
do not start with `@org:`, in their order, followed by the canonical chain of the level of
`parent`; and `sanatize` returns when no ruleset pointer is nil. -/
theorem sanatize_sets_subject (env : Env) (parent : Namespace) (restore : String) (t : file)
    (cfg : prisma.Config) (data : prisma.Data)
    (hcfg : t.prismaConfig = some cfg) (hdata : cfg.Data = some data) :
    (∀ r, t.sanatize env parent restore = some r →
      ∃ cfg1 data1, r.t.prismaConfig = some cfg1 ∧ cfg1.Data = some data1 ∧
        data1.Networkrulesetpolicies
          = data.Networkrulesetpolicies.map (Option.map (fun rs =>
              { rs with Subject := canonicalSubject parent rs.Subject }))) ∧
    (none ∉ data.Networkrulesetpolicies → ∃ r, t.sanatize env parent restore = some r) := by
  constructor
  · intro r hs
    obtain ⟨-, -, h3⟩ := sanatize_t hcfg hdata hs
    rw [h3]
    exact ⟨_, _, rfl, rfl, rfl⟩
  · intro hn
    apply sanatize_returns
    intro cfg1 h1
    rw [hcfg, Option.some.injEq] at h1
    subst h1
    exact ⟨data, hdata, hn⟩

/-- Witness of C17: at `root/T1/C1/G1/K1` the subject `app=database, @org:tenant=bogus` of
`policy.yaml` becomes `app=database, @org:tenant=T1, @org:cloudaccount=C1, @org:group=G1,
@org:kubernetes=K1`. -/
theorem sanatize_sets_subject_witness :
    exampleFile.prismaConfig = some examplePolicy ∧
    exampleFile.sanatize exampleEnv exampleK1 "" = some exampleSanatizeResult ∧
    canonicalSubject exampleK1 [["app=database", "@org:tenant=bogus"]]
      = [["app=database", "@org:tenant=T1", "@org:cloudaccount=C1", "@org:group=G1",
          "@org:kubernetes=K1"]] ∧
    (∀ r, exampleFile.sanatize exampleEnv exampleK1 "" = some r →
      ∃ cfg1 data1, r.t.prismaConfig = some cfg1 ∧ cfg1.Data = some data1 ∧
        data1.Networkrulesetpolicies
          = exampleData.Networkrulesetpolicies.map (Option.map (fun rs =>
              { rs with Subject := canonicalSubject exampleK1 rs.Subject }))) :=
  ⟨rfl, rfl, by decide,
    (sanatize_sets_subject exampleEnv exampleK1 "" exampleFile examplePolicy exampleData
      rfl rfl).1⟩

/-- C18: whatever `sanatize` returns, every ruleset of the document is afterwards a ruleset
with exactly one subject tag-group, however many it had; and `sanatize` returns when the
document, if there is one, has its data section and no ruleset pointer is nil. -/
theorem one_subject_group (env : Env) (parent : Namespace) (restore : String) (t : file) :
    (∀ r, t.sanatize env parent restore = some r →
      ∀ cfg data, t.prismaConfig = some cfg → cfg.Data = some data →
      ∃ cfg1 data1, r.t.prismaConfig = some cfg1 ∧ cfg1.Data = some data1 ∧
        data1.Networkrulesetpolicies.length = data.Networkrulesetpolicies.length ∧
        ∀ ruleset ∈ data1.Networkrulesetpolicies,
          ∃ rs, ruleset = some rs ∧ rs.Subject.length = 1) ∧
    (sanatizable t → ∃ r, t.sanatize env parent restore = some r) := by
  refine ⟨?_, fun h => sanatize_returns h⟩
  intro r hs cfg data hcfg hdata
  obtain ⟨h1, -, h3⟩ := sanatize_t hcfg hdata hs
  rw [h3]
  refine ⟨_, _, rfl, rfl, by simp, ?_⟩
  intro ruleset hmem
  simp only [List.mem_map] at hmem
  obtain ⟨rs0, hrs0, he⟩ := hmem
  cases rs0 with
  | none => exact absurd hrs0 h1
  | some rs0 =>
    simp only [Option.map_some'] at he
    exact ⟨_, he.symm, by simp [canonicalSubject]⟩

/-- C19: for a loaded document that `read` registered for the file `filename` of the node
`parent`, whatever `sanatize` returns, the label of the document is afterwards the label of
`parent` followed by `:` and the file name, whatever it was before; and `sanatize` returns
when the document has its data section and no ruleset pointer is nil. -/
theorem sanatize_sets_label (env : Env) (parent : Namespace) (restore : String)
    (filename : String) (loadErr : Option String) (cfg : prisma.Config) :
    (∀ r, ((parent.newFile filename).load loadErr (some cfg)).1.sanatize env parent restore
        = some r →
      ∃ cfg1, r.t.prismaConfig = some cfg1 ∧ cfg1.Label = parent.label ++ ":" ++ filename) ∧
    (sanatizable ((parent.newFile filename).load loadErr (some cfg)).1 →
      ∃ r, ((parent.newFile filename).load loadErr (some cfg)).1.sanatize env parent restore
        = some r) := by
  refine ⟨?_, fun h => sanatize_returns h⟩
  intro r hs
  cases hd : cfg.Data with
  | none => simp [file.sanatize, file.load, hd] at hs
  | some data =>
    obtain ⟨-, -, h3⟩ :=
      sanatize_t (t := ((parent.newFile filename).load loadErr (some cfg)).1) rfl hd hs
    rw [h3]
    exact ⟨_, rfl, rfl⟩

/-- C20: sanitizing a file that `sanatize` has gone through changes nothing: for any
environment and any restore string, `sanatize` of the file returned by a first call (at the
same node) returns the same file, with the same subjects and label, finds it not dirty, does
no file system operation, leaves the restore string as it is, and returns no error. -/
theorem sanatize_idempotent (env env2 : Env) (parent : Namespace) (restore restore2 : String)
    (t : file) (r : sanatizeResult) (hs : t.sanatize env parent restore = some r) :
    r.t.sanatize env2 parent restore2
      = some { t := r.t, restore := restore2, ops := [], err := none } ∧
    (∀ cfg1 data1, r.t.prismaConfig = some cfg1 → cfg1.Data = some data1 →
      cfg1.Label = r.t.label ∧
      sanatizeRulesets parent data1.Networkrulesetpolicies
        = some data1.Networkrulesetpolicies ∧
      file.dirty env2 r.t cfg1 data1.Networkrulesetpolicies data1.Networkrulesetpolicies
        = false) := by
  cases hc : t.prismaConfig with
  | none =>
    simp only [file.sanatize, hc, Option.some.injEq] at hs
    subst hs
    simp [file.sanatize, hc]
  | some cfg =>
    cases hd : cfg.Data with
    | none => simp [file.sanatize, hc, hd] at hs
    | some data =>
      obtain ⟨-, h2, h3⟩ := sanatize_t hc hd hs
      have hidem := sanatizeRulesets_idem parent _ _ h2
      have hdirty : ∀ (cfg1 : prisma.Config)
          (ps : List (Option prisma.Networkrulesetpolicy)), cfg1.Label = r.t.label →
          file.dirty env2 r.t cfg1 ps ps = false := by
        intro cfg1 ps hl
        simp [file.dirty, hl]
      constructor
      · rw [h3] at hdirty ⊢
        simp only [file.sanatize, hidem]
        rw [hdirty _ _ rfl]
        simp
      · intro cfg1 data1 hc1 hd1
        rw [h3] at hc1
        simp only [Option.some.injEq] at hc1
        subst hc1
        simp only [Option.some.injEq] at hd1
        subst hd1
        refine ⟨?_, hidem, ?_⟩
        · rw [h3]
        · apply hdirty
          rw [h3]

/-- Witness of C20: `policy.yaml` of `root/T1/C1/G1/K1`; the first call archives and rewrites
the file, the second call on its result does nothing. -/
theorem sanatize_idempotent_witness :
    exampleFile.sanatize exampleEnv exampleK1 "" = some exampleSanatizeResult ∧
    exampleSanatizeResult.t.sanatize exampleEnv exampleK1 exampleSanatizeResult.restore
      = some { t := exampleSanatizeResult.t, restore := exampleSanatizeResult.restore,
               ops := [], err := none } :=
  ⟨rfl,
    (sanatize_idempotent exampleEnv exampleEnv exampleK1 "" exampleSanatizeResult.restore
      exampleFile exampleSanatizeResult rfl).1⟩

theorem inner_mk (childMap : List (String × Namespace)) (level : metaLevel)
    (tenant cloud group kubernetes : String) (fileMap : List (String × file))
    (path rpath label restore : String) (verbose : Bool) :
    Namespace.inner
        (.mk childMap level tenant cloud group kubernetes fileMap path rpath label restore
          verbose)
      ↔ Namespace.innerNode
          (.mk childMap level tenant cloud group kubernetes fileMap path rpath label restore
            verbose) ∧ innerList childMap := by
  simp only [Namespace.inner]

theorem inner_iff (t : Namespace) : t.inner ↔ t.innerNode ∧ innerList t.childMap := by
  cases t
  simp only [inner_mk, childMap_mk]

theorem innerList_cons (k : String) (m : Namespace) (rest : List (String × Namespace)) :
    innerList ((k, m) :: rest) ↔ m.inner ∧ innerList rest := by
  simp only [innerList]

theorem innerList_iff (childMap : List (String × Namespace)) :
    innerList childMap ↔ ∀ entry ∈ childMap, entry.2.inner := by
  induction childMap with
  | nil => simp [innerList]
  | cons entry rest ih =>
    obtain ⟨k, m⟩ := entry
    simp only [innerList_cons, ih, List.mem_cons, forall_eq_or_imp]

mutual
/-- The method `Sanatize` on a subtree of inner nodes: the pass over its documents, leaving
the rewritten subtree; no script is written. -/
theorem Sanatize_inner (env : Env) : ∀ (t : Namespace), t.inner → ∀ (restore : String),
    Namespace.Sanatize env false restore t
      = (sanatizeAll env restore t.owned).map (fun e =>
          { value := t.rewritten, restore := e.restore, ops := e.ops, err := e.err })
  | .mk childMap level tenant cloud group kubernetes fileMap path rpath label restore0
      verbose, h, restore => by
    rw [inner_mk] at h
    have h0 : restore0 = "" := h.1.2.1
    subst h0
    rw [Sanatize_node env false restore childMap level tenant cloud group kubernetes fileMap
      path rpath label "" verbose (sanatizeChildMap_inner env childMap h.2 restore)]
    simp [scriptOps, scriptErrors, Namespace.rewritten, Namespace.setRestore]
theorem sanatizeChildMap_inner (env : Env) : ∀ (childMap : List (String × Namespace)),
    innerList childMap → ∀ (restore : String),
    Namespace.sanatizeChildMap env restore childMap
      = (sanatizeAll env restore (ownedOfChildren childMap)).map (fun e =>
          { value := rewrittenChildMap childMap, restore := e.restore, ops := e.ops,
            err := e.err })
  | [], _, restore => by
    simp [Namespace.sanatizeChildMap, ownedOfChildren, sanatizeAll, rewrittenChildMap]
  | (k, m) :: rest, h, restore => by
    rw [innerList_cons] at h
    simp only [Namespace.sanatizeChildMap, ownedOfChildren, sanatizeAll_append,
      rewrittenChildMap, Sanatize_inner env m h.1 restore]
    cases sanatizeAll env restore m.owned with
    | none => rfl
    | some ea =>
      simp only [Option.map_some', Option.some_bind,
        sanatizeChildMap_inner env rest h.2 ea.restore]
      cases sanatizeAll env ea.restore (ownedOfChildren rest) with
      | none => rfl
      | some eb => rfl
end

/-- The method `Sanatize` on the root namespace of a tree of inner nodes: the pass over the
documents of the tree, then the write of the script when the restore string is not empty. -/
theorem Sanatize_root (env : Env) (t : Namespace) (h : innerList t.childMap)
    (restore : String) :
    Namespace.Sanatize env true restore t
      = (sanatizeAll env restore t.owned).map (fun e =>
          { value := t.rewritten.setRestore e.restore, restore := e.restore,
            ops := e.ops ++ scriptOps env t.path e.restore,
            err := e.err ++ scriptErrors env t.path e.restore }) := by
  cases t with
  | mk childMap level tenant cloud group kubernetes fileMap path rpath label restore0 verbose =>
    rw [Sanatize_node env true restore childMap level tenant cloud group kubernetes fileMap
      path rpath label restore0 verbose (sanatizeChildMap_inner env childMap h restore)]
    simp

/-! ### The tree `NewNamespace` builds is a root over inner nodes -/

theorem mem_mapSet {β : Type} (m : List (String × β)) (k : String) (v : β)
    (x : String × β) (h : x ∈ mapSet m k v) : x = (k, v) ∨ x ∈ m := by
  induction m with
  | nil => simpa [mapSet] using h
  | cons e rest ih =>
    obtain ⟨k1, v1⟩ := e
    simp only [mapSet] at h
    split at h
    · rcases List.mem_cons.mp h with h1 | h1
      · exact Or.inl h1
      · exact Or.inr (List.mem_cons_of_mem _ h1)
    · rcases List.mem_cons.mp h with h1 | h1
      · exact Or.inr (by rw [h1]; exact List.mem_cons_self _ _)
      · rcases ih h1 with h2 | h2
        · exact Or.inl h2
        · exact Or.inr (List.mem_cons_of_mem _ h2)

theorem header_rpath {t u : Namespace} (h : t.header = u.header) : t.rpath = u.rpath := by
  simp only [Namespace.header, Prod.mk.injEq] at h; exact h.2.2.2.2.2.2.1

theorem header_restore {t u : Namespace} (h : t.header = u.header) :
    t.restore = u.restore := by
  simp only [Namespace.header, Prod.mk.injEq] at h; exact h.2.2.2.2.2.2.2.2.1

theorem readStep_filesOK {t : Namespace} {errors : List Err} {e : FsEntry}
    {r : Namespace × List Err} (hf : filesOK t) (h : t.readStep errors e = some r) :
    filesOK r.1 := by
  cases e with
  | file fileName loadErr config =>
    simp only [Namespace.readStep] at h
    split at h
    · split at h
      · simp only [Option.some.injEq] at h; subst h; exact hf
      · simp only [Option.some.injEq] at h; subst h
        intro entry hm
        have hm2 : entry ∈ mapSet t.fileMap fileName
            ((t.newFile fileName).load loadErr config).1 := hm
        rcases mem_mapSet _ _ _ _ hm2 with h1 | h1
        · subst h1
          exact ⟨rfl, rfl, rfl⟩
        · exact hf entry h1
    · simp only [Option.some.injEq] at h; subst h; exact hf
  | dir fileName readErr entries =>
    simp only [Namespace.readStep] at h
    split at h
    · simp only [Option.some.injEq] at h; subst h; exact hf
    · split at h
      · simp only [Option.some.injEq] at h; subst h; exact hf
      · split at h
        · exact absurd h (by simp)
        · split at h
          · exact absurd h (by simp)
          · simp only [Option.some.injEq] at h; subst h; exact hf

theorem readLoop_filesOK (files : List FsEntry) : ∀ {t : Namespace} {errors : List Err}
    {r : Namespace × List Err}, filesOK t → t.readLoop errors files = some r →
    filesOK r.1 := by
  induction files with
  | nil => intro t errors r hf h; simp [readLoop_nil] at h; subst h; exact hf
  | cons e files ih =>
    intro t errors r hf h
    rw [readLoop_cons] at h
    cases hs : t.readStep errors e with
    | none => simp [hs] at h
    | some r1 =>
      simp only [hs, Option.some_bind] at h
      exact ih (readStep_filesOK hf hs) h

theorem read_filesOK {t : Namespace} {fs : FsEntry} {r : Namespace × List Err}
    (hf : filesOK t) (h : t.read fs = some r) : filesOK r.1 := by
  cases fs with
  | file name loadErr config =>
    simp only [Namespace.read, Option.some.injEq] at h; subst h; exact hf
  | dir name readErr entries =>
    cases readErr with
    | some e => simp only [Namespace.read, Option.some.injEq] at h; subst h; exact hf
    | none =>
      simp only [Namespace.read] at h
      exact readLoop_filesOK entries hf h

theorem newNamespace_restore {t m : Namespace} {name : String}
    (h : t.newNamespace name = some m) : m.restore = "" := by
  unfold Namespace.newNamespace at h
  cases hl : t.level <;> simp [hl] at h <;> subst h <;> rfl

theorem innerList_mapSet {childMap : List (String × Namespace)} (h : innerList childMap)
    (k : String) (m : Namespace) (hm : m.inner) : innerList (mapSet childMap k m) := by
  rw [innerList_iff] at h ⊢
  intro entry he
  rcases mem_mapSet _ _ _ _ he with h1 | h1
  · subst h1; exact hm
  · exact h entry h1

mutual
theorem read_innerList : ∀ (fs : FsEntry) (t : Namespace) (r : Namespace × List Err),
    innerList t.childMap → t.read fs = some r → innerList r.1.childMap
  | .file _ _ _, t, r, hg, h => by
    simp only [Namespace.read, Option.some.injEq] at h; subst h; exact hg
  | .dir _ (some e) _, t, r, hg, h => by
    simp only [Namespace.read, Option.some.injEq] at h; subst h; exact hg
  | .dir _ none files, t, r, hg, h => by
    simp only [Namespace.read] at h
    exact readLoop_innerList files t [] r hg h
theorem readLoop_innerList : ∀ (files : List FsEntry) (t : Namespace) (errors : List Err)
    (r : Namespace × List Err), innerList t.childMap → t.readLoop errors files = some r →
    innerList r.1.childMap
  | [], t, errors, r, hg, h => by
    simp only [Namespace.readLoop, Option.some.injEq] at h; subst h; exact hg
  | .dir fileName readErr entries :: files, t, errors, r, hg, h => by
    simp only [Namespace.readLoop] at h
    split at h
    · exact readLoop_innerList files t _ r hg h
    · split at h
      · exact readLoop_innerList files t _ r hg h
      · split at h
        · exact absurd h (by simp)
        · rename_i m hm
          split at h
          · exact absurd h (by simp)
          · rename_i m1 err hr
            have hh : m1.header = m.header := read_header hr
            have h1 : innerList m1.childMap :=
              read_innerList (.dir fileName readErr entries) m (m1, err)
                (by rw [(newNamespace_childMap hm).1]; exact True.intro) hr
            have h2 : filesOK m1 :=
              read_filesOK (t := m) (by
                intro entry he
                rw [(newNamespace_childMap hm).2] at he
                exact absurd he (List.not_mem_nil _)) hr
            have h3 : m1.inner := by
              rw [inner_iff]
              refine ⟨⟨?_, ?_, h2⟩, h1⟩
              · rw [header_level hh]; exact newNamespace_level_ne_root hm
              · rw [header_restore hh]; exact newNamespace_restore hm
            exact readLoop_innerList files _ _ r
              (by
                have : (t.setChild fileName m1).childMap = mapSet t.childMap fileName m1 := rfl
                rw [this]
                exact innerList_mapSet hg fileName m1 h3) h
  | .file fileName loadErr config :: files, t, errors, r, hg, h => by
    simp only [Namespace.readLoop] at h
    split at h
    · split at h
      · exact readLoop_innerList files t _ r hg h
      · exact readLoop_innerList files (t.setFile fileName _) _ r hg h
    · exact readLoop_innerList files t _ r hg h
end

/-- The tree `NewNamespace` returns: a root without files and with an empty restore string,
over inner nodes. -/
theorem NewNamespace_inner {path : String} {verbose : Bool} {fs : FsEntry} {t : Namespace}
    {err : List Err} (h : NewNamespace path verbose fs = some (some t, err)) :
    t.level = .metaLevelRoot ∧ t.fileMap = [] ∧ t.restore = "" ∧ t.path = path ∧
      innerList t.childMap := by
  have hh := (NewNamespace_spec h).1
  unfold NewNamespace at h
  split at h
  · simp at h
  · split at h
    · simp at h
    · rename_i t1 err1 hr
      simp only [Option.some.injEq, Prod.mk.injEq] at h
      obtain ⟨h1, h2⟩ := h
      subst h1
      have hl0 : (Namespace.mk [] .metaLevelRoot "" "" "" "" [] path "" "" "" verbose).level
          = .metaLevelRoot := rfl
      simp only [Namespace.header, Prod.mk.injEq] at hh
      refine ⟨hh.1, ?_, hh.2.2.2.2.2.2.2.2.1, hh.2.2.2.2.2.1, ?_⟩
      · cases fs with
        | file name loadErr config =>
          simp only [Namespace.read, Option.some.injEq, Prod.mk.injEq] at hr
          rw [← hr.1]
          rfl
        | dir name readErr entries =>
          cases readErr with
          | some e =>
            simp only [Namespace.read, Option.some.injEq, Prod.mk.injEq] at hr
            rw [← hr.1]
            rfl
          | none =>
            simp only [Namespace.read] at hr
            exact readLoop_root_fileMap entries hl0 hr
      · exact read_innerList fs
          (Namespace.mk [] .metaLevelRoot "" "" "" "" [] path "" "" "" verbose) _
          (by simp [innerList]) hr

/-! ### The rewritten tree -/

theorem rewritten_fields (parent : Namespace) (t : file) :
    (t.rewritten parent).filename = t.filename ∧ (t.rewritten parent).path = t.path ∧
    (t.rewritten parent).rpath = t.rpath ∧ (t.rewritten parent).label = t.label := by
  cases hc : t.prismaConfig with
  | none => simp [file.rewritten, hc]
  | some cfg =>
    cases hd : cfg.Data with
    | none => simp [file.rewritten, hc, hd]
    | some data => simp [file.rewritten, hc, hd]

theorem rewritten_header (t : Namespace) : t.rewritten.header = t.header := by
  cases t
  simp [Namespace.rewritten, Namespace.header]

theorem rewritten_childMap (t : Namespace) :
    t.rewritten.childMap = rewrittenChildMap t.childMap := by
  cases t
  simp [Namespace.rewritten]

theorem setRestore_childMap (t : Namespace) (s : String) :
    (t.setRestore s).childMap = t.childMap := by
  cases t
  rfl

theorem setRestore_path (t : Namespace) (s : String) : (t.setRestore s).path = t.path := by
  cases t
  rfl

theorem setRestore_restore (t : Namespace) (s : String) : (t.setRestore s).restore = s := by
  cases t
  rfl

theorem setRestore_fileMap (t : Namespace) (s : String) :
    (t.setRestore s).fileMap = t.fileMap := by
  cases t
  rfl

theorem setRestore_level (t : Namespace) (s : String) : (t.setRestore s).level = t.level := by
  cases t
  rfl

theorem canonicalChain_rewritten (t : Namespace) :
    canonicalChain t.rewritten = canonicalChain t := by
  have h := header_fields (rewritten_header t)
  exact canonicalChain_congr h.1 h.2.1 h.2.2.1 h.2.2.2.1 h.2.2.2.2.1

theorem mapGet_rewrittenChildMap (childMap : List (String × Namespace)) (k : String) :
    mapGet (rewrittenChildMap childMap) k = (mapGet childMap k).map Namespace.rewritten := by
  induction childMap with
  | nil => rfl
  | cons entry rest ih =>
    obtain ⟨k1, m⟩ := entry
    simp only [rewrittenChildMap, mapGet]
    split
    · rfl
    · exact ih

theorem firstFailure_childMap (rule path : String) {node node2 : Namespace}
    (h : node2.childMap = node.childMap) (nsPath : String)
    (levels : List (metaLevel × String)) :
    firstFailure rule path node2 nsPath levels = firstFailure rule path node nsPath levels := by
  cases levels with
  | nil => rfl
  | cons lv levels =>
    obtain ⟨level, value⟩ := lv
    simp only [firstFailure, h]

theorem firstFailure_rewritten (rule path : String) (levels : List (metaLevel × String)) :
    ∀ (node : Namespace) (nsPath : String),
    firstFailure rule path node.rewritten nsPath levels
      = firstFailure rule path node nsPath levels := by
  induction levels with
  | nil => intro node nsPath; rfl
  | cons lv levels ih =>
    intro node nsPath
    obtain ⟨level, value⟩ := lv
    simp only [firstFailure, rewritten_childMap, mapGet_rewrittenChildMap]
    split
    · rfl
    · cases mapGet node.childMap value with
      | none => rfl
      | some child => exact ih child _

/-- The validator finds the same on the tree after the pass as on the tree before it. -/
theorem objectCheck_rewritten (rootNamespace : Namespace) (s : String) (t t2 : file)
    (hp : t2.path = t.path) (errors : List Err) (rule : String) (object : List String) :
    objectCheck (rootNamespace.rewritten.setRestore s) t2 errors rule object
      = objectCheck rootNamespace t errors rule object := by
  rw [objectCheck_eq_firstFailure, objectCheck_eq_firstFailure, hp, setRestore_path,
    header_path (rewritten_header rootNamespace),
    firstFailure_childMap rule t.path (setRestore_childMap rootNamespace.rewritten s),
    firstFailure_rewritten]

theorem ruleCheck_rewritten (rootNamespace : Namespace) (s : String) (t t2 : file)
    (hp : t2.path = t.path) (rule : String) (rules : List (Option prisma.Rule)) :
    ∀ (errors : List Err),
    ruleCheck (rootNamespace.rewritten.setRestore s) t2 errors rule rules
      = ruleCheck rootNamespace t errors rule rules := by
  induction rules with
  | nil => intro errors; rfl
  | cons r rules ih =>
    intro errors
    cases r with
    | none => rfl
    | some r =>
      simp only [ruleCheck, objectCheck_rewritten rootNamespace s t t2 hp]
      exact ih _

theorem rulesetsCheck_rewritten (rootNamespace : Namespace) (s : String) (t t2 : file)
    (hp : t2.path = t.path) (g : List (List String) → List (List String))
    (policies : List (Option prisma.Networkrulesetpolicy)) :
    ∀ (errors : List Err),
    rulesetsCheck (rootNamespace.rewritten.setRestore s) t2 errors
        (policies.map (Option.map (fun rs => { rs with Subject := g rs.Subject })))
      = rulesetsCheck rootNamespace t errors policies := by
  induction policies with
  | nil => intro errors; rfl
  | cons rs policies ih =>
    intro errors
    cases rs with
    | none =>
      simp only [List.map_cons, Option.map_none', rulesetsCheck]
      exact ih _
    | some rs =>
      simp only [List.map_cons, Option.map_some', rulesetsCheck,
        ruleCheck_rewritten rootNamespace s t t2 hp]
      cases ruleCheck rootNamespace t errors "OutgoingRules" rs.OutgoingRules with
      | none => rfl
      | some errors1 =>
        simp only []
        cases ruleCheck rootNamespace t errors1 "IncomingRules" rs.IncomingRules with
        | none => rfl
        | some errors2 => exact ih _

theorem rulesetsCheck_rewritten_root (rootNamespace : Namespace) (s : String) (t : file)
    (policies : List (Option prisma.Networkrulesetpolicy)) (errors : List Err) :
    rulesetsCheck (rootNamespace.rewritten.setRestore s) t errors policies
      = rulesetsCheck rootNamespace t errors policies := by
  have h := rulesetsCheck_rewritten rootNamespace s t t rfl id policies errors
  have hid : policies.map (Option.map (fun rs : prisma.Networkrulesetpolicy =>
      { rs with Subject := id rs.Subject })) = policies := by
    induction policies with
    | nil => rfl
    | cons rs policies ih => cases rs <;> simp_all
  rw [hid] at h
  exact h

/-! ### Validation of the rewritten documents -/

theorem isLabelMismatch_of_isReferenceError {e : Err} (h : e.isReferenceError = true) :
    e.isLabelMismatch = false := by
  cases e <;> simp_all [Err.isReferenceError, Err.isLabelMismatch]

/-- The validation of a document against the tree after the pass gives the reference
errors of the validation before the pass. -/
theorem validate_rewritten (rootNamespace : Namespace) (s : String) (parent : Namespace)
    (t : file) :
    (file.validate (rootNamespace.rewritten.setRestore s) (t.rewritten parent)).map
        (List.filter Err.isReferenceError)
      = (file.validate rootNamespace t).map (List.filter Err.isReferenceError) := by
  cases hc : t.prismaConfig with
  | none => simp [file.rewritten, file.validate, hc]
  | some cfg =>
    cases hd : cfg.Data with
    | none => simp [file.rewritten, file.validate, hc, hd]
    | some data =>
      have hf := rewritten_fields parent t
      have hcfg : (t.rewritten parent).prismaConfig
          = some { cfg with
            Label := t.label
            Data := some { data with
              Networkrulesetpolicies :=
                data.Networkrulesetpolicies.map (Option.map (fun rs =>
                  { rs with Subject := canonicalSubject parent rs.Subject })) } } := by
        simp [file.rewritten, hc, hd]
      have key := rulesetsCheck_rewritten rootNamespace s t (t.rewritten parent) hf.2.1
        (canonicalSubject parent) data.Networkrulesetpolicies []
      simp only [file.validate, hcfg, hc, hd, key, hf.2.1, hf.2.2.2]
      cases rulesetsCheck rootNamespace t [] data.Networkrulesetpolicies with
      | none => rfl
      | some errors =>
        by_cases hl : cfg.Label = t.label
        · simp [hl]
        · simp [hl, Err.isReferenceError]

theorem validate_rewritten_root (rootNamespace : Namespace) (s : String) (t : file) :
    file.validate (rootNamespace.rewritten.setRestore s) t = file.validate rootNamespace t := by
  cases hc : t.prismaConfig with
  | none => simp [file.validate, hc]
  | some cfg =>
    cases hd : cfg.Data with
    | none => simp [file.validate, hc, hd]
    | some data =>
      simp only [file.validate, hc, hd, rulesetsCheck_rewritten_root]

/-- No label error for a rewritten document that `sanatize` can go through. -/
theorem validate_rewritten_label (rootNamespace parent : Namespace) (t : file)
    (hs : sanatizable t) (errs : List Err)
    (hv : file.validate rootNamespace (t.rewritten parent) = some errs) :
    ∀ e ∈ errs, e.isLabelMismatch = false := by
  cases hc : t.prismaConfig with
  | none =>
    simp only [file.rewritten, hc, file.validate, Option.some.injEq] at hv
    subst hv
    simp [Err.isLabelMismatch]
  | some cfg =>
    obtain ⟨data, hd, -⟩ := hs cfg hc
    simp only [file.rewritten, hc, hd, file.validate] at hv
    cases hr : rulesetsCheck rootNamespace
        { t with
          prismaConfig := some { cfg with
            Label := t.label
            Data := some { data with
              Networkrulesetpolicies :=
                data.Networkrulesetpolicies.map (Option.map (fun rs =>
                  { rs with Subject := canonicalSubject parent rs.Subject })) } } } []
        (data.Networkrulesetpolicies.map (Option.map (fun rs =>
          { rs with Subject := canonicalSubject parent rs.Subject }))) with
    | none => simp [hr] at hv
    | some errors =>
      simp only [hr, ne_eq, not_true_eq_false, if_false, Option.some.injEq] at hv
      subst hv
      have h0 := rulesetsCheck_eq _ _ _ _ _ hr
      rw [List.nil_append] at h0
      intro e he
      rw [h0] at he
      exact isLabelMismatch_of_isReferenceError
        (referenceErrors_isReferenceError _ _ _ e he)

theorem validateAll_map_congr {α : Type} (P : Err → Bool) (r r2 : Namespace)
    (g h : α → file)
    (hyp : ∀ x, (file.validate r2 (g x)).map (List.filter P)
      = (file.validate r (h x)).map (List.filter P)) (l : List α) :
    (validateAll r2 (l.map g)).map (List.filter P)
      = (validateAll r (l.map h)).map (List.filter P) := by
  induction l with
  | nil => rfl
  | cons x l ih =>
    rw [List.map_cons, List.map_cons, validateAll_cons, validateAll_cons]
    have hx := hyp x
    cases h1 : file.validate r2 (g x) with
    | none =>
      cases h2 : file.validate r (h x) with
      | none => rfl
      | some e2 => simp [h1, h2] at hx
    | some e1 =>
      cases h2 : file.validate r (h x) with
      | none => simp [h1, h2] at hx
      | some e2 =>
        simp only [h1, h2, Option.map_some', Option.some.injEq] at hx
        simp only [Option.some_bind]
        cases h3 : validateAll r2 (l.map g) with
        | none =>
          cases h4 : validateAll r (l.map h) with
          | none => rfl
          | some e4 => simp [h3, h4] at ih
        | some e3 =>
          cases h4 : validateAll r (l.map h) with
          | none => simp [h3, h4] at ih
          | some e4 =>
            simp only [h3, h4, Option.map_some', Option.some.injEq] at ih
            simp [hx, ih]

theorem validateAll_mem (r : Namespace) (fs : List file) :
    ∀ (errs : List Err), validateAll r fs = some errs →
    ∀ e ∈ errs, ∃ f ∈ fs, ∃ ef, file.validate r f = some ef ∧ e ∈ ef := by
  induction fs with
  | nil =>
    intro errs h e he
    simp only [validateAll, Option.some.injEq] at h
    subst h
    exact absurd he (List.not_mem_nil _)
  | cons f fs ih =>
    intro errs h e he
    rw [validateAll_cons] at h
    cases h1 : file.validate r f with
    | none => simp [h1] at h
    | some e1 =>
      cases h2 : validateAll r fs with
      | none => simp [h1, h2] at h
      | some e2 =>
        simp only [h1, h2, Option.some_bind, Option.map_some', Option.some.injEq] at h
        subst h
        rcases List.mem_append.mp he with hm | hm
        · exact ⟨f, List.mem_cons_self _ _, e1, h1, hm⟩
        · obtain ⟨f2, hf2, ef, hv, hme⟩ := ih e2 h2 e hm
          exact ⟨f2, List.mem_cons_of_mem _ hf2, ef, hv, hme⟩

/-! ### Documents and their nodes -/

mutual
theorem documents_eq_owned : ∀ (t : Namespace), t.documents = t.owned.map Prod.snd
  | .mk childMap _ _ _ _ _ fileMap _ _ _ _ _ => by
    simp only [Namespace.documents, Namespace.owned, List.map_append, List.map_map,
      documentsOfChildren_eq_owned childMap]
    rfl
theorem documentsOfChildren_eq_owned : ∀ (childMap : List (String × Namespace)),
    documentsOfChildren childMap = (ownedOfChildren childMap).map Prod.snd
  | [] => rfl
  | (_, m) :: rest => by
    simp only [documentsOfChildren, ownedOfChildren, List.map_append, documents_eq_owned m,
      documentsOfChildren_eq_owned rest]
end

mutual
theorem owned_rewritten : ∀ (t : Namespace), t.rewritten.owned = t.owned.map rewrittenPair
  | .mk childMap level tenant cloud group kubernetes fileMap path rpath label restore
      verbose => by
    simp only [Namespace.rewritten, Namespace.owned, List.map_append, List.map_map,
      ownedOfChildren_rewritten childMap]
    congr 1
    by_cases hl : level = .metaLevelRoot
    · subst hl
      simp [rewrittenPair, Namespace.rewritten]
    · simp [rewrittenPair, Namespace.rewritten, hl, Function.comp_def]
theorem ownedOfChildren_rewritten : ∀ (childMap : List (String × Namespace)),
    ownedOfChildren (rewrittenChildMap childMap) = (ownedOfChildren childMap).map rewrittenPair
  | [] => rfl
  | (_, m) :: rest => by
    simp only [rewrittenChildMap, ownedOfChildren, List.map_append, owned_rewritten m,
      ownedOfChildren_rewritten rest]
end

theorem setRestore_documents (t : Namespace) (s : String) :
    (t.setRestore s).documents = t.documents := by
  cases t
  rfl

theorem owned_of_fileMap_nil (t : Namespace) (h : t.fileMap = []) :
    t.owned = ownedOfChildren t.childMap := by
  cases t
  simp only [fileMap_mk] at h
  subst h
  simp [Namespace.owned]

mutual
theorem owned_innerNode : ∀ (t : Namespace), t.inner → ∀ pf ∈ t.owned,
    pf.1.innerNode ∧ ∃ k, (k, pf.2) ∈ pf.1.fileMap
  | .mk childMap level tenant cloud group kubernetes fileMap path rpath label restore
      verbose, h, pf, hm => by
    rw [inner_mk] at h
    simp only [Namespace.owned, List.mem_append, List.mem_map] at hm
    rcases hm with hm | ⟨entry, he, hpf⟩
    · exact ownedOfChildren_innerNode childMap h.2 pf hm
    · subst hpf
      exact ⟨h.1, entry.1, he⟩
theorem ownedOfChildren_innerNode : ∀ (childMap : List (String × Namespace)),
    innerList childMap → ∀ pf ∈ ownedOfChildren childMap,
    pf.1.innerNode ∧ ∃ k, (k, pf.2) ∈ pf.1.fileMap
  | [], _, pf, hm => by simp [ownedOfChildren] at hm
  | (_, m) :: rest, h, pf, hm => by
    rw [innerList_cons] at h
    simp only [ownedOfChildren, List.mem_append] at hm
    rcases hm with hm | hm
    · exact owned_innerNode m h.1 pf hm
    · exact ownedOfChildren_innerNode rest h.2 pf hm
end

mutual
theorem rewritten_inner : ∀ (t : Namespace), t.inner → t.rewritten.inner
  | .mk childMap level tenant cloud group kubernetes fileMap path rpath label restore
      verbose, h => by
    rw [inner_mk] at h
    obtain ⟨⟨h1, h2, h3⟩, h4⟩ := h
    simp only [level_mk] at h1
    simp only [Namespace.rewritten, inner_mk, ne_eq, h1, not_false_eq_true, if_true]
    refine ⟨⟨h1, h2, ?_⟩, rewrittenChildMap_inner childMap h4⟩
    intro entry he
    simp only [fileMap_mk, List.mem_map] at he
    obtain ⟨e0, he0, rfl⟩ := he
    have hf := rewritten_fields
      (.mk childMap level tenant cloud group kubernetes fileMap path rpath label restore
        verbose) e0.2
    have h0 := h3 e0 he0
    simp only [path_mk, rpath_mk] at h0 ⊢
    exact ⟨hf.1.trans h0.1, hf.2.1.trans h0.2.1, hf.2.2.1.trans h0.2.2⟩
theorem rewrittenChildMap_inner : ∀ (childMap : List (String × Namespace)),
    innerList childMap → innerList (rewrittenChildMap childMap)
  | [], _ => by simp [rewrittenChildMap, innerList]
  | (k, m) :: rest, h => by
    rw [innerList_cons] at h
    simp only [rewrittenChildMap, innerList_cons]
    exact ⟨rewritten_inner m h.1, rewrittenChildMap_inner rest h.2⟩
end

/-! ### A pass over a list of documents -/

theorem sanatizeAll_mem (env : Env) (l : List (Namespace × file)) :
    ∀ (restore : String) (e : passEffects), sanatizeAll env restore l = some e →
    ∀ pf ∈ l, pf.1.level ≠ .metaLevelRoot →
      ∃ restore0 r, pf.2.sanatize env pf.1 restore0 = some r := by
  induction l with
  | nil => intro restore e _ pf hm; exact absurd hm (List.not_mem_nil _)
  | cons x l ih =>
    intro restore e h pf hm hl
    obtain ⟨p, f⟩ := x
    rw [sanatizeAll_cons] at h
    by_cases hp : p.level = .metaLevelRoot
    · rw [if_pos hp] at h
      rcases List.mem_cons.mp hm with h1 | h1
      · subst h1; exact absurd hp hl
      · exact ih restore e h pf h1 hl
    · rw [if_neg hp] at h
      cases hs : f.sanatize env p restore with
      | none => simp [hs] at h
      | some r =>
        rcases List.mem_cons.mp hm with h1 | h1
        · subst h1; exact ⟨restore, r, hs⟩
        · cases ha : sanatizeAll env r.restore l with
          | none => simp [hs, ha] at h
          | some e1 => exact ih r.restore e1 ha pf h1 hl

/-- A second pass, over the rewritten documents, does nothing. -/
theorem sanatizeAll_again (env env2 : Env) (l : List (Namespace × file)) :
    ∀ (restore : String) (e : passEffects), sanatizeAll env restore l = some e →
    ∀ (restore2 : String), sanatizeAll env2 restore2 (l.map rewrittenPair)
      = some { restore := restore2, ops := [], err := [] } := by
  induction l with
  | nil => intro restore e _ restore2; rfl
  | cons x l ih =>
    intro restore e h restore2
    obtain ⟨p, f⟩ := x
    rw [sanatizeAll_cons] at h
    rw [List.map_cons, rewrittenPair, sanatizeAll_cons, header_level (rewritten_header p)]
    by_cases hp : p.level = .metaLevelRoot
    · rw [if_pos hp] at h ⊢
      exact ih restore e h restore2
    · rw [if_neg hp] at h ⊢
      cases hs : f.sanatize env p restore with
      | none => simp [hs] at h
      | some r =>
        cases ha : sanatizeAll env r.restore l with
        | none => simp [hs, ha] at h
        | some e1 =>
          simp only [ne_eq, hp, not_false_eq_true, if_true]
          rw [sanatize_congr env2 (canonicalChain_rewritten p)
            (header_path (rewritten_header p)) (header_rpath (rewritten_header p)),
            sanatize_again hs env2 restore2]
          simp [ih r.restore e1 ha restore2]

theorem file_rewritten_idem {p q : Namespace} (h : canonicalChain q = canonicalChain p)
    (t : file) : (t.rewritten p).rewritten q = t.rewritten p := by
  rw [rewritten_congr h]
  cases hc : t.prismaConfig with
  | none => simp [file.rewritten, hc]
  | some cfg =>
    cases hd : cfg.Data with
    | none => simp [file.rewritten, hc, hd]
    | some data =>
      have hmap : (data.Networkrulesetpolicies.map (Option.map
          (fun rs : prisma.Networkrulesetpolicy =>
            { rs with Subject := canonicalSubject p rs.Subject }))).map (Option.map
          (fun rs : prisma.Networkrulesetpolicy =>
            { rs with Subject := canonicalSubject p rs.Subject }))
          = data.Networkrulesetpolicies.map (Option.map
          (fun rs : prisma.Networkrulesetpolicy =>
            { rs with Subject := canonicalSubject p rs.Subject })) := by
        rw [List.map_map]
        apply List.map_congr_left
        intro rs _
        cases rs with
        | none => rfl
        | some rs => simp [canonicalSubject_idem]
      simp only [file.rewritten, hc, hd, hmap]

mutual
theorem rewritten_rewritten : ∀ (t : Namespace), t.rewritten.rewritten = t.rewritten
  | .mk childMap level tenant cloud group kubernetes fileMap path rpath label restore
      verbose => by
    have hch := canonicalChain_rewritten
      (.mk childMap level tenant cloud group kubernetes fileMap path rpath label restore
        verbose)
    simp only [Namespace.rewritten] at hch ⊢
    rw [rewrittenChildMap_rewritten childMap]
    by_cases hl : level = .metaLevelRoot
    · subst hl
      simp
    · simp only [ne_eq, hl, not_false_eq_true, if_true, List.map_map] at hch ⊢
      congr 1
      apply List.map_congr_left
      intro entry _
      simp only [Function.comp_def, file_rewritten_idem hch]
theorem rewrittenChildMap_rewritten : ∀ (childMap : List (String × Namespace)),
    rewrittenChildMap (rewrittenChildMap childMap) = rewrittenChildMap childMap
  | [] => rfl
  | (k, m) :: rest => by
    simp only [rewrittenChildMap, rewritten_rewritten m, rewrittenChildMap_rewritten rest]
end

/-! ### The restore string of a pass -/

theorem join_cons (x : String) (xs : List String) :
    String.join (x :: xs) = x ++ String.join xs := by
  simp [String.join_eq, String.ext_iff]

theorem sanatizeDirty_rename (env : Env) (parent : Namespace) (restore : String) (t : file)
    (cfg : prisma.Config) :
    (file.sanatizeDirty env parent restore t cfg).ops.filter FsOp.isRename
      = (if decide (archiveOp parent t ∈ (file.sanatizeDirty env parent restore t cfg).ops)
          then [archiveOp parent t] else []) := by
  rcases Option.eq_none_or_eq_some (env.mkdirAll (parent.path ++ "/.original")) with
    h1 | ⟨e1, h1⟩
  · rcases Option.eq_none_or_eq_some
        (env.rename t.path (parent.path ++ "/.original" ++ "/" ++ t.filename)) with
      h2 | ⟨e2, h2⟩
    · rcases Option.eq_none_or_eq_some (env.marshal cfg) with h3 | ⟨e3, h3⟩
      · rcases Option.eq_none_or_eq_some (env.writeFile t.path) with h4 | ⟨e4, h4⟩
        · simp [file.sanatizeDirty, archiveOp, h1, h2, h3, h4, FsOp.isRename]
        · simp [file.sanatizeDirty, archiveOp, h1, h2, h3, h4, FsOp.isRename]
      · simp [file.sanatizeDirty, archiveOp, h1, h2, h3, FsOp.isRename]
    · simp [file.sanatizeDirty, archiveOp, h1, h2, FsOp.isRename]
  · simp [file.sanatizeDirty, archiveOp, h1, FsOp.isRename]

theorem sanatize_archived {env : Env} {parent : Namespace} {restore : String} {t : file}
    {r : sanatizeResult} (hs : t.sanatize env parent restore = some r) :
    t.archived env parent = decide (archiveOp parent t ∈ r.ops) ∧
    r.restore = restore ++ (if t.archived env parent then cpLine parent t else "") ∧
    r.ops.filter FsOp.isRename = (if t.archived env parent then [archiveOp parent t] else []) := by
  obtain ⟨line, h1, h2, h3⟩ := sanatize_shift hs ""
  have ha : t.archived env parent = decide (archiveOp parent t ∈ r.ops) := by
    simp only [file.archived, h2]
  refine ⟨ha, ?_, ?_⟩
  · rw [h1, h3, ha]
    simp
  · rw [ha]
    cases hc : t.prismaConfig with
    | none =>
      simp only [file.sanatize, hc, Option.some.injEq] at hs
      subst hs
      simp
    | some cfg =>
      cases hd : cfg.Data with
      | none => simp [file.sanatize, hc, hd] at hs
      | some data =>
        cases hr : sanatizeRulesets parent data.Networkrulesetpolicies with
        | none => simp [file.sanatize, hc, hd, hr] at hs
        | some policies =>
          simp only [file.sanatize, hc, hd, hr] at hs
          by_cases hdy : file.dirty env t cfg data.Networkrulesetpolicies policies = true
          · rw [if_pos hdy] at hs
            simp only [Option.some.injEq] at hs
            subst hs
            exact sanatizeDirty_rename env parent restore _ _
          · rw [if_neg hdy] at hs
            simp only [Option.some.injEq] at hs
            subst hs
            simp

theorem archivedOf_cons (env : Env) (p : Namespace) (f : file)
    (l : List (Namespace × file)) :
    archivedOf env ((p, f) :: l)
      = (if p.level ≠ .metaLevelRoot ∧ f.archived env p = true then [(p, f)] else [])
        ++ archivedOf env l := by
  simp only [archivedOf, List.filter_cons]
  by_cases h1 : p.level = .metaLevelRoot <;> by_cases h2 : f.archived env p = true <;>
    simp [h1, h2]

theorem archivedOf_append (env : Env) (a b : List (Namespace × file)) :
    archivedOf env (a ++ b) = archivedOf env a ++ archivedOf env b := by
  simp [archivedOf]

theorem ledgerOf_append (env : Env) (a b : List (Namespace × file)) :
    ledgerOf env (a ++ b) = ledgerOf env a ++ ledgerOf env b := by
  simp only [ledgerOf, archivedOf_append, List.map_append]
  simp [String.join_eq, String.ext_iff]

/-- The restore string after a pass is the one before it followed by the lines of the
archived documents, and the archive operations of the pass are those of these documents, in
the same order. -/
theorem sanatizeAll_ledger (env : Env) (l : List (Namespace × file)) :
    ∀ (restore : String) (e : passEffects), sanatizeAll env restore l = some e →
    e.restore = restore ++ ledgerOf env l ∧
    e.ops.filter FsOp.isRename = (archivedOf env l).map (fun pf => archiveOp pf.1 pf.2) := by
  induction l with
  | nil =>
    intro restore e h
    simp only [sanatizeAll, Option.some.injEq] at h
    subst h
    simp [ledgerOf, archivedOf, String.join_eq, String.ext_iff]
  | cons x l ih =>
    intro restore e h
    obtain ⟨p, f⟩ := x
    rw [sanatizeAll_cons] at h
    simp only [ledgerOf] at ih ⊢
    rw [archivedOf_cons]
    by_cases hp : p.level = .metaLevelRoot
    · rw [if_pos hp] at h
      simpa [hp] using ih restore e h
    · rw [if_neg hp] at h
      cases hs : f.sanatize env p restore with
      | none => simp [hs] at h
      | some r =>
        cases ha : sanatizeAll env r.restore l with
        | none => simp [hs, ha] at h
        | some e1 =>
          simp only [hs, ha, Option.some_bind, Option.map_some', Option.some.injEq] at h
          subst h
          obtain ⟨-, h2, h3⟩ := sanatize_archived hs
          obtain ⟨i1, i2⟩ := ih r.restore e1 ha
          simp only [List.filter_append, h3, i2, i1, h2]
          by_cases hf : f.archived env p = true
          · simp [hp, hf, join_cons, String.append_assoc]
          · simp [hp, hf]

/-! ### Nodes below the root -/

theorem childOf_rpath {p c : Namespace} {k : String} (h : childOf p k c) :
    c.rpath = (if p.rpath = "" then k else p.rpath ++ "/" ++ k) := by
  obtain ⟨m, hm, hh⟩ := h
  rw [header_rpath hh]
  unfold Namespace.newNamespace at hm
  cases hl : p.level <;> simp only [hl, Option.some.injEq, reduceCtorEq] at hm <;> subst hm <;>
    rfl

/-- Relative path of the node reached along non-empty `names` from a root. -/
theorem node_rpath {t : Namespace} (hroot : t.rpath = "") (hinv : TreeInv t)
    (names : List String) : ∀ (node : Namespace), (∀ n ∈ names, n ≠ "") →
      descend names t = some node → node.rpath = "/".intercalate names := by
  induction names using List.reverseRecOn with
  | nil =>
    intro node _ hd
    simp only [descend, Option.some.injEq] at hd
    subst hd
    simp [hroot, String.intercalate]
  | append_singleton names k ih =>
    intro node hne hd
    rw [descend_snoc] at hd
    cases hp : descend names t with
    | none => simp [hp] at hd
    | some p =>
      simp only [hp, Option.some_bind] at hd
      have hne1 : ∀ n ∈ names, n ≠ "" := fun n hn => hne n (by simp [hn])
      have ihl := ih p hne1 hp
      rw [childOf_rpath (hinv names p k node hp hd), intercalate_snoc, ihl]
      by_cases hnil : names = []
      · subst hnil
        simp [String.intercalate]
      · have : "/".intercalate names ≠ "" := fun h => hnil (intercalate_eq_empty "/" names hne1 h)
        simp [hnil, this]

theorem mapGet_mem {β : Type} (m : List (String × β)) (k : String) (v : β)
    (h : mapGet m k = some v) : (k, v) ∈ m := by
  induction m with
  | nil => simp [mapGet] at h
  | cons e rest ih =>
    obtain ⟨k1, v1⟩ := e
    simp only [mapGet] at h
    split at h
    · rename_i hk
      simp only [Option.some.injEq] at h
      subst hk
      subst h
      exact List.mem_cons_self _ _
    · exact List.mem_cons_of_mem _ (ih h)

theorem descend_inner (names : List String) : ∀ (t node : Namespace),
    innerList t.childMap → names ≠ [] → descend names t = some node → node.inner := by
  induction names with
  | nil => intro t node _ hne; exact absurd rfl hne
  | cons n names ih =>
    intro t node hi _ hd
    simp only [descend] at hd
    cases hc : mapGet t.childMap n with
    | none => simp [hc] at hd
    | some c =>
      simp only [hc] at hd
      have hci : c.inner := (innerList_iff _).mp hi (n, c) (mapGet_mem _ _ _ hc)
      cases names with
      | nil =>
        simp only [descend, Option.some.injEq] at hd
        subst hd
        exact hci
      | cons n2 names =>
        exact ih c node ((inner_iff c).mp hci).2 (List.cons_ne_nil _ _) hd

/-! ### `Sanatize` of the tree `NewNamespace` builds -/

/-- The pass over the tree `NewNamespace` returns, read off `Sanatize_root`. -/
theorem Sanatize_new {path : String} {verbose : Bool} {fs : FsEntry} {t : Namespace}
    {err : List Err} {env : Env} {r : passResult Namespace}
    (hnew : NewNamespace path verbose fs = some (some t, err))
    (hs : Namespace.Sanatize env true t.restore t = some r) :
    ∃ e, sanatizeAll env "" (ownedOfChildren t.childMap) = some e ∧
      t.owned = ownedOfChildren t.childMap ∧
      r.value = t.rewritten.setRestore e.restore ∧ r.restore = e.restore ∧
      r.ops = e.ops ++ scriptOps env path e.restore ∧
      r.err = e.err ++ scriptErrors env path e.restore := by
  obtain ⟨-, hfm, hrs, hpath, hin⟩ := NewNamespace_inner hnew
  rw [Sanatize_root env t hin, owned_of_fileMap_nil t hfm, hrs] at hs
  cases he : sanatizeAll env "" (ownedOfChildren t.childMap) with
  | none => simp [he] at hs
  | some e =>
    simp only [he, Option.map_some', Option.some.injEq] at hs
    subst hs
    rw [hpath]
    exact ⟨e, rfl, owned_of_fileMap_nil t hfm, rfl, rfl, rfl, rfl⟩

theorem rewritten_setRestore (t : Namespace) (hl : t.level = .metaLevelRoot) (s : String) :
    (t.setRestore s).rewritten = t.rewritten.setRestore s := by
  cases t
  simp only [level_mk] at hl
  subst hl
  simp [Namespace.rewritten, Namespace.setRestore]

theorem setRestore_setRestore (t : Namespace) (s s2 : String) :
    (t.setRestore s).setRestore s2 = t.setRestore s2 := by
  cases t
  rfl

theorem rewritten_fileMap_nil (t : Namespace) (h : t.fileMap = []) :
    t.rewritten.fileMap = [] := by
  cases t
  simp only [fileMap_mk] at h
  subst h
  simp [Namespace.rewritten]

theorem scriptOps_filter (env : Env) (path restore : String) :
    (scriptOps env path restore).filter FsOp.isRename = [] := by
  unfold scriptOps
  split
  · cases env.writeFile (path ++ "/restore.sh") <;> simp [FsOp.isRename]
  · rfl

/-- The tree after the pass over the tree `NewNamespace` returns is again a root without
files over inner nodes, and its documents are the rewritten documents. -/
theorem rewritten_new {path : String} {verbose : Bool} {fs : FsEntry} {t : Namespace}
    {err : List Err} (hnew : NewNamespace path verbose fs = some (some t, err)) (s : String) :
    innerList (t.rewritten.setRestore s).childMap ∧
    (t.rewritten.setRestore s).owned = (ownedOfChildren t.childMap).map rewrittenPair ∧
    (t.rewritten.setRestore s).documents
      = (ownedOfChildren t.childMap).map (fun pf => pf.2.rewritten pf.1) ∧
    (t.rewritten.setRestore s).path = path ∧
    (t.rewritten.setRestore s).level = .metaLevelRoot := by
  obtain ⟨hl, hfm, -, hpath, hin⟩ := NewNamespace_inner hnew
  have hcm : (t.rewritten.setRestore s).childMap = rewrittenChildMap t.childMap := by
    rw [setRestore_childMap, rewritten_childMap]
  have hown : (t.rewritten.setRestore s).owned
      = (ownedOfChildren t.childMap).map rewrittenPair := by
    rw [owned_of_fileMap_nil _ (by rw [setRestore_fileMap]; exact rewritten_fileMap_nil t hfm),
      hcm, ownedOfChildren_rewritten]
  refine ⟨?_, hown, ?_, ?_, ?_⟩
  · rw [hcm]
    exact rewrittenChildMap_inner _ hin
  · rw [documents_eq_owned, hown, List.map_map]
    apply List.map_congr_left
    intro pf hpf
    have h1 := (ownedOfChildren_innerNode _ hin pf hpf).1.1
    simp [rewrittenPair, h1]
  · rw [setRestore_path, header_path (rewritten_header t), hpath]
  · rw [setRestore_level, header_level (rewritten_header t), hl]

theorem sanatizeAll_returns (env : Env) (l : List (Namespace × file))
    (h : ∀ pf ∈ l, sanatizable pf.2) :
    ∀ (restore : String), ∃ e, sanatizeAll env restore l = some e := by
  induction l with
  | nil => intro restore; exact ⟨_, rfl⟩
  | cons x l ih =>
    intro restore
    obtain ⟨p, f⟩ := x
    have ih1 := ih (fun pf hpf => h pf (List.mem_cons_of_mem _ hpf))
    rw [sanatizeAll_cons]
    by_cases hp : p.level = .metaLevelRoot
    · rw [if_pos hp]
      exact ih1 restore
    · rw [if_neg hp]
      obtain ⟨r, hr⟩ := @sanatize_returns env p restore f (h (p, f) (List.mem_cons_self _ _))
      obtain ⟨e, he⟩ := ih1 r.restore
      rw [hr, Option.some_bind, he, Option.map_some']
      exact ⟨_, rfl⟩

/-- The pass over the tree `NewNamespace` returns does return when `sanatize` can go through
every document of the tree. -/
theorem Sanatize_new_returns {path : String} {verbose : Bool} {fs : FsEntry} {t : Namespace}
    {err : List Err} (env : Env)
    (hnew : NewNamespace path verbose fs = some (some t, err))
    (h : ∀ f ∈ t.documents, sanatizable f) :
    ∃ r, Namespace.Sanatize env true t.restore t = some r := by
  obtain ⟨-, -, -, -, hin⟩ := NewNamespace_inner hnew
  rw [Sanatize_root env t hin]
  obtain ⟨e, he⟩ := sanatizeAll_returns env t.owned (fun pf hpf => h pf.2 (by
    rw [documents_eq_owned]
    exact List.mem_map_of_mem _ hpf)) t.restore
  rw [he, Option.map_some']
  exact ⟨_, rfl⟩

/-! ## Claims C21 to C30: the pass of the sanitizer over the tree, the conversions -/

/-- C21 as stated fails: on the tree of `root/T1/C1/G1/K1/policy.yaml` the first pass
archives the document and leaves one line in the restore string of the root; the second pass
on the same tree finds this line still there and writes `restore.sh` again. -/
theorem second_pass_writes_script :
    NewNamespace "root" false exampleFs = some (some exampleRoot, []) ∧
    Namespace.Sanatize exampleEnv true exampleRoot.restore exampleRoot
      = some exampleTreeResult ∧
    (Namespace.Sanatize exampleEnv true exampleTreeResult.value.restore
        exampleTreeResult.value).map (fun r => (r.restore, r.ops))
      = some ("cp T1/C1/G1/K1/.original/policy.yaml T1/C1/G1/K1/policy.yaml\n",
          [FsOp.writeScript "root/restore.sh" exampleScript]) ∧
    ¬ ((Namespace.Sanatize exampleEnv true exampleTreeResult.value.restore
        exampleTreeResult.value).map (fun r => (r.restore, r.ops)) = some ("", [])) := by
  refine ⟨rfl, rfl, by decide, by decide⟩

/-- C21, amended: for the tree `NewNamespace` returns and a first pass of `Sanatize` over it
that returns, a second pass over the tree the first pass left (in any environment) returns,
leaves the tree and every document as they are, archives and rewrites no document and adds
nothing to the restore string of the root, which keeps the lines of the first pass; the one
file system operation a second pass can do is the write of `restore.sh`, done again with the
same lines exactly when the restore string is not empty (then the write either succeeds or
gives the one error of the pass).  With the restore string of the root emptied, as in a
tree built anew, the second pass does no file system operation at all. -/
theorem second_pass_only_script (path : String) (verbose : Bool) (fs : FsEntry)
    (t : Namespace) (err : List Err) (env env2 : Env) (r1 : passResult Namespace)
    (hnew : NewNamespace path verbose fs = some (some t, err))
    (h1 : Namespace.Sanatize env true t.restore t = some r1) :
    r1.value.restore = r1.restore ∧
    ∃ r2, Namespace.Sanatize env2 true r1.value.restore r1.value = some r2 ∧
      r2.value = r1.value ∧ r2.restore = r1.restore ∧
      (∀ op ∈ r2.ops,
        op = FsOp.writeScript (path ++ "/restore.sh") (restoreScript ++ r1.restore)) ∧
      (r1.restore = "" → r2.ops = [] ∧ r2.err = []) ∧
      (r1.restore ≠ "" → env2.writeFile (path ++ "/restore.sh") = none →
        r2.ops = [FsOp.writeScript (path ++ "/restore.sh") (restoreScript ++ r1.restore)] ∧
        r2.err = []) ∧
      (r1.restore ≠ "" → ∀ e, env2.writeFile (path ++ "/restore.sh") = some e →
        r2.ops = [] ∧ r2.err = [Err.io e]) ∧
      (Namespace.Sanatize env2 true "" (r1.value.setRestore "")).map
          (fun r3 => (r3.restore, r3.ops, r3.err)) = some ("", [], []) := by
  obtain ⟨e1, he1, -, hv, hr, -, -⟩ := Sanatize_new hnew h1
  obtain ⟨hl, -, -, -, -⟩ := NewNamespace_inner hnew
  obtain ⟨hin2, hown2, -, hpath2, -⟩ := rewritten_new hnew e1.restore
  have hrest : r1.value.restore = r1.restore := by rw [hv, hr, setRestore_restore]
  refine ⟨hrest, ?_⟩
  rw [hrest, hv, hr, Sanatize_root env2 _ hin2, hown2,
    sanatizeAll_again env env2 _ "" e1 he1 e1.restore, hpath2]
  refine ⟨_, rfl, ?_, rfl, ?_, ?_, ?_, ?_, ?_⟩
  rotate_right
  · rw [setRestore_setRestore, Sanatize_root env2 _ (rewritten_new hnew "").1,
      (rewritten_new hnew "").2.1, sanatizeAll_again env env2 _ "" e1 he1 ""]
    simp [scriptOps, scriptErrors]
  · simp only []
    rw [rewritten_setRestore _ (by rw [header_level (rewritten_header t)]; exact hl),
      rewritten_rewritten, setRestore_setRestore]
  · intro op hop
    simp only [List.nil_append, scriptOps] at hop
    split at hop
    · cases hw : env2.writeFile (path ++ "/restore.sh") with
      | none => simpa [hw] using hop
      | some e => simp [hw] at hop
    · simp at hop
  · intro h0
    simp [scriptOps, scriptErrors, h0]
  · intro h0 hw
    simp [scriptOps, scriptErrors, h0, hw]
  · intro h0 e hw
    simp [scriptOps, scriptErrors, h0, hw]

/-- Witness of C21 (amended) on the tree of `root/T1/C1/G1/K1/policy.yaml`. -/
theorem second_pass_only_script_witness :
    NewNamespace "root" false exampleFs = some (some exampleRoot, []) ∧
    Namespace.Sanatize exampleEnv true exampleRoot.restore exampleRoot
      = some exampleTreeResult ∧
    exampleTreeResult.value.restore = exampleTreeResult.restore ∧
    ∃ r2, Namespace.Sanatize exampleEnv true exampleTreeResult.value.restore
        exampleTreeResult.value = some r2 ∧ r2.value = exampleTreeResult.value ∧
      r2.restore = exampleTreeResult.restore :=
  ⟨rfl, rfl,
    (second_pass_only_script "root" false exampleFs exampleRoot [] exampleEnv exampleEnv
      exampleTreeResult rfl rfl).1,
    (second_pass_only_script "root" false exampleFs exampleRoot [] exampleEnv exampleEnv
      exampleTreeResult rfl rfl).2.imp (fun _ h => ⟨h.1, h.2.1, h.2.2.1⟩)⟩

/-- C22: for a document with data that `sanatize` goes through, whose rulesets are rewritten
to `policies`: the file is dirty exactly when the strings of the rulesets before and after
the rewrite differ or the label of the document is not the label of the file.  When it is
not dirty, `sanatize` does no file system operation, leaves the restore string as it is and
returns no error.  When it is dirty and the calls to the operating system and the encoder
succeed, `sanatize` makes `.original`, moves the file there, adds the line
`cp <rpath>/.original/<file> <rpath of the file>` to the restore string and writes the
rewritten document to the path of the file.  Whatever the environment, an operation or a
change of the restore string happens only for a dirty file. -/
theorem sanatize_mutates_iff_dirty (env : Env) (parent : Namespace) (restore : String)
    (t : file) (cfg : prisma.Config) (data : prisma.Data)
    (policies : List (Option prisma.Networkrulesetpolicy))
    (hc : t.prismaConfig = some cfg) (hd : cfg.Data = some data)
    (hp : sanatizeRulesets parent data.Networkrulesetpolicies = some policies) :
    (file.dirty env t cfg data.Networkrulesetpolicies policies = true ↔
      ruleSetHash env data.Networkrulesetpolicies ≠ ruleSetHash env policies ∨
        cfg.Label ≠ t.label) ∧
    ∃ r, t.sanatize env parent restore = some r ∧
      (file.dirty env t cfg data.Networkrulesetpolicies policies = false →
        r.ops = [] ∧ r.restore = restore ∧ r.err = none) ∧
      (file.dirty env t cfg data.Networkrulesetpolicies policies = true →
        env.mkdirAll (parent.path ++ "/.original") = none →
        env.rename t.path (parent.path ++ "/.original" ++ "/" ++ t.filename) = none →
        env.marshal { cfg with
          Label := t.label
          Data := some { data with Networkrulesetpolicies := policies } } = none →
        env.writeFile t.path = none →
        r.ops = [FsOp.mkdirAll (parent.path ++ "/.original"),
          FsOp.rename t.path (parent.path ++ "/.original" ++ "/" ++ t.filename),
          FsOp.writeConfig t.path { cfg with
            Label := t.label
            Data := some { data with Networkrulesetpolicies := policies } }] ∧
        r.restore = restore ++ ("cp " ++ (parent.rpath ++ "/.original" ++ "/" ++ t.filename)
          ++ " " ++ t.rpath ++ "\n") ∧
        r.err = none) ∧
      ((r.ops ≠ [] ∨ r.restore ≠ restore) →
        file.dirty env t cfg data.Networkrulesetpolicies policies = true) := by
  constructor
  · simp [file.dirty]
  · by_cases hdy : file.dirty env t cfg data.Networkrulesetpolicies policies = true
    · have hs : t.sanatize env parent restore
          = some (file.sanatizeDirty env parent restore
              { t with prismaConfig := some { cfg with
                  Label := t.label
                  Data := some { data with Networkrulesetpolicies := policies } } }
              { cfg with
                  Label := t.label
                  Data := some { data with Networkrulesetpolicies := policies } }) := by
        simp only [file.sanatize, hc, hd, hp, hdy, if_true]
      refine ⟨_, hs, ?_, ?_, ?_⟩
      · intro hf
        rw [hdy] at hf
        exact absurd hf (by decide)
      · intro _ h1 h2 h3 h4
        simp [file.sanatizeDirty, h1, h2, h3, h4]
      · intro _
        exact hdy
    · have hs : t.sanatize env parent restore
          = some { t := { t with prismaConfig := some { cfg with
                      Label := t.label
                      Data := some { data with Networkrulesetpolicies := policies } } },
                   restore := restore, ops := [], err := none } := by
        simp only [file.sanatize, hc, hd, hp, hdy]
        rfl
      refine ⟨_, hs, ?_, ?_, ?_⟩
      · intro _
        exact ⟨rfl, rfl, rfl⟩
      · intro ht
        exact absurd ht hdy
      · intro h
        simp at h

/-- Witness of C22: `policy.yaml` of `root/T1/C1/G1/K1`, dirty because of its stale subject
tag, in an environment where every call succeeds. -/
theorem sanatize_mutates_iff_dirty_witness :
    exampleFile.prismaConfig = some examplePolicy ∧ examplePolicy.Data = some exampleData ∧
    sanatizeRulesets exampleK1 exampleData.Networkrulesetpolicies
      = some (exampleData.Networkrulesetpolicies.map (Option.map (fun rs =>
          { rs with Subject := canonicalSubject exampleK1 rs.Subject }))) ∧
    exampleFile.sanatize exampleEnv exampleK1 "" = some exampleSanatizeResult ∧
    (file.dirty exampleEnv exampleFile examplePolicy exampleData.Networkrulesetpolicies
        (exampleData.Networkrulesetpolicies.map (Option.map (fun rs =>
          { rs with Subject := canonicalSubject exampleK1 rs.Subject }))) = true ↔
      ruleSetHash exampleEnv exampleData.Networkrulesetpolicies
          ≠ ruleSetHash exampleEnv (exampleData.Networkrulesetpolicies.map (Option.map
            (fun rs => { rs with Subject := canonicalSubject exampleK1 rs.Subject }))) ∨
        examplePolicy.Label ≠ exampleFile.label) :=
  ⟨rfl, rfl, rfl, rfl,
    (sanatize_mutates_iff_dirty exampleEnv exampleK1 "" exampleFile examplePolicy exampleData
      _ rfl rfl rfl).1⟩

/-- C23: for the tree `NewNamespace` returns, whatever a pass of `Sanatize` over it returns:
the restore string of the root after the pass is made of one line per archived document, in
the order the documents are gone through, which is the order of the archive operations of
the pass; the line of a document is `cp <rpath>/.original/<file> <rpath>/<file>` with the
relative path `rpath` of the node that holds it; the restore string sits in the root, and
the field `restore` of every node below the root is empty after the pass.  The relative path
of the node reached through the non-empty directory names `names` is these names joined by
`/`.  The pass returns when `sanatize` can go through every document of the tree. -/
theorem ledger_one_line_per_archived (path : String) (verbose : Bool) (fs : FsEntry)
    (t : Namespace) (err : List Err) (env : Env)
    (hnew : NewNamespace path verbose fs = some (some t, err)) :
    (∀ r, Namespace.Sanatize env true t.restore t = some r →
      r.restore = String.join ((archivedOf env t.owned).map (fun pf =>
        "cp " ++ (pf.1.rpath ++ "/.original" ++ "/" ++ pf.2.filename) ++ " "
          ++ (pf.1.rpath ++ "/" ++ pf.2.filename) ++ "\n")) ∧
      r.ops.filter FsOp.isRename = (archivedOf env t.owned).map (fun pf =>
        FsOp.rename (pf.1.path ++ "/" ++ pf.2.filename)
          (pf.1.path ++ "/.original" ++ "/" ++ pf.2.filename)) ∧
      r.value.restore = r.restore ∧
      (∀ names node, names ≠ [] → descend names r.value = some node → node.restore = "")) ∧
    (∀ names node, (∀ n ∈ names, n ≠ "") → descend names t = some node →
      node.rpath = "/".intercalate names) ∧
    ((∀ f ∈ t.documents, sanatizable f) →
      ∃ r, Namespace.Sanatize env true t.restore t = some r) := by
  refine ⟨?_, ?_, Sanatize_new_returns env hnew⟩
  rotate_left
  · intro names node hne hd
    have hh := (NewNamespace_spec hnew).1
    simp only [Namespace.header, Prod.mk.injEq] at hh
    exact node_rpath hh.2.2.2.2.2.2.1 (NewNamespace_spec hnew).2 names node hne hd
  intro r hs
  obtain ⟨e, he, hown, hv, hr, hops, -⟩ := Sanatize_new hnew hs
  obtain ⟨-, -, -, -, hin⟩ := NewNamespace_inner hnew
  obtain ⟨h1, h2⟩ := sanatizeAll_ledger env _ "" e he
  have hfields : ∀ pf ∈ archivedOf env t.owned,
      pf.2.path = pf.1.path ++ "/" ++ pf.2.filename ∧
      pf.2.rpath = pf.1.rpath ++ "/" ++ pf.2.filename := by
    intro pf hpf
    rw [hown] at hpf
    obtain ⟨hnode, k, hk⟩ := ownedOfChildren_innerNode _ hin pf (List.mem_of_mem_filter hpf)
    have h3 := hnode.2.2 (k, pf.2) hk
    simp only at h3
    rw [h3.1]
    exact ⟨h3.2.1, h3.2.2⟩
  refine ⟨?_, ?_, ?_, ?_⟩
  · rw [hr, h1, ← hown]
    simp only [ledgerOf, cpLine]
    have : "" ++ String.join (List.map (fun pf : Namespace × file =>
        "cp " ++ (pf.1.rpath ++ "/.original" ++ "/" ++ pf.2.filename) ++ " " ++ pf.2.rpath
          ++ "\n") (archivedOf env t.owned))
        = String.join (List.map (fun pf : Namespace × file =>
        "cp " ++ (pf.1.rpath ++ "/.original" ++ "/" ++ pf.2.filename) ++ " " ++ pf.2.rpath
          ++ "\n") (archivedOf env t.owned)) := by
      simp [String.ext_iff]
    rw [this]
    congr 1
    apply List.map_congr_left
    intro pf hpf
    rw [(hfields pf hpf).2]
  · rw [hops, List.filter_append, scriptOps_filter, List.append_nil, h2, ← hown]
    apply List.map_congr_left
    intro pf hpf
    simp only [archiveOp]
    rw [(hfields pf hpf).1]
  · rw [hv, hr, setRestore_restore]
  · intro names node hne hd
    rw [hv] at hd
    exact ((inner_iff node).mp
      (descend_inner names _ node (rewritten_new hnew e.restore).1 hne hd)).1.2.1

/-- Witness of C23 on the tree of `root/T1/C1/G1/K1/policy.yaml`: one archived document, one
line. -/
theorem ledger_one_line_per_archived_witness :
    NewNamespace "root" false exampleFs = some (some exampleRoot, []) ∧
    Namespace.Sanatize exampleEnv true exampleRoot.restore exampleRoot
      = some exampleTreeResult ∧
    archivedOf exampleEnv exampleRoot.owned = [(exampleK1, exampleFile)] ∧
    exampleTreeResult.restore
      = "cp T1/C1/G1/K1/.original/policy.yaml T1/C1/G1/K1/policy.yaml\n" ∧
    exampleTreeResult.restore = String.join ((archivedOf exampleEnv exampleRoot.owned).map
      (fun pf => "cp " ++ (pf.1.rpath ++ "/.original" ++ "/" ++ pf.2.filename) ++ " "
        ++ (pf.1.rpath ++ "/" ++ pf.2.filename) ++ "\n")) :=
  ⟨rfl, rfl, rfl, rfl,
    ((ledger_one_line_per_archived "root" false exampleFs exampleRoot [] exampleEnv
      rfl).1 exampleTreeResult rfl).1⟩

/-- C24: the content of the restore script is the constant `restoreScript` followed by the
restore string, and the constant starts with a line break: the first line of the script is
empty and `#!/bin/sh -e` is its second line.  On the tree of
`root/T1/C1/G1/K1/policy.yaml` the last operation of the pass writes `exampleScript`. -/
theorem restore_script_first_line_empty :
    (Namespace.Sanatize exampleEnv true exampleRoot.restore exampleRoot).map
        (fun r => r.ops.getLast?)
      = some (some (FsOp.writeScript "root/restore.sh" exampleScript)) ∧
    exampleScript = restoreScript
      ++ "cp T1/C1/G1/K1/.original/policy.yaml T1/C1/G1/K1/policy.yaml\n" ∧
    exampleScript.data.head? = some '\n' ∧
    HasPrefix exampleScript "#!/bin/sh -e" = false ∧
    HasPrefix exampleScript "\n#!/bin/sh -e\n\ncd \"$(dirname \"$0\")\"\n\ncp " = true ∧
    ∀ restore : String, HasPrefix (restoreScript ++ restore) "#!/bin/sh -e" = false ∧
      (restoreScript ++ restore).data.head? = some '\n' := by
  refine ⟨by decide, by decide, by decide, by decide, by decide, ?_⟩
  intro restore
  constructor
  · simp [HasPrefix, restoreScript, List.isPrefixOf]
  · simp [restoreScript]

/-- C25 as stated fails: in the tree with the documents `root/T1/policy.yaml` and
`root/T1/C1/policy.yaml`, both dirty, the pass archives the document of the child node `C1`
first and the document of its parent `T1` after it, and the line of `T1/C1` precedes the line
of `T1` in the restore string. -/
theorem child_documents_sanatized_first :
    NewNamespace "root" false exampleNestedFs = some (some exampleNestedRoot, []) ∧
    descend ["T1"] exampleNestedRoot = some exampleNestedT1 ∧
    descend ["T1", "C1"] exampleNestedRoot = some exampleNestedC1 ∧
    (Namespace.Sanatize exampleEnv true exampleNestedRoot.restore exampleNestedRoot).map
        (fun r => (r.restore, r.ops.filter FsOp.isRename))
      = some ("cp T1/C1/.original/policy.yaml T1/C1/policy.yaml\n"
            ++ "cp T1/.original/policy.yaml T1/policy.yaml\n",
          [FsOp.rename "root/T1/C1/policy.yaml" "root/T1/C1/.original/policy.yaml",
           FsOp.rename "root/T1/policy.yaml" "root/T1/.original/policy.yaml"]) := by
  refine ⟨rfl, rfl, rfl, by decide⟩

/-- C25, amended: in the tree `NewNamespace` returns, `Sanatize` of a node below the root
goes through the documents of all nodes below the node first and through the documents of
the node itself after them (children before parent): the call is the pass over the documents
below the node followed by the pass over its own documents, so the operations and the
restore lines of the documents below the node precede those of the documents of the node. -/
theorem descendants_before_own_documents (path : String) (verbose : Bool) (fs : FsEntry)
    (t : Namespace) (err : List Err) (env : Env) (names : List String) (node : Namespace)
    (restore : String) (r : passResult Namespace)
    (hnew : NewNamespace path verbose fs = some (some t, err)) (hne : names ≠ [])
    (hd : descend names t = some node)
    (hs : Namespace.Sanatize env false restore node = some r) :
    (∃ below own, sanatizeAll env restore (ownedOfChildren node.childMap) = some below ∧
      sanatizeAll env below.restore node.ownFiles = some own ∧
      r.ops = below.ops ++ own.ops ∧ r.err = below.err ++ own.err ∧
      r.restore = own.restore) ∧
    r.restore = restore ++ ledgerOf env (ownedOfChildren node.childMap)
      ++ ledgerOf env node.ownFiles ∧
    r.ops.filter FsOp.isRename
      = (archivedOf env (ownedOfChildren node.childMap)).map (fun pf => archiveOp pf.1 pf.2)
        ++ (archivedOf env node.ownFiles).map (fun pf => archiveOp pf.1 pf.2) := by
  obtain ⟨-, -, -, -, hin⟩ := NewNamespace_inner hnew
  have hni := descend_inner names t node hin hne hd
  have hown : node.owned = ownedOfChildren node.childMap ++ node.ownFiles := by
    cases node
    rfl
  rw [Sanatize_inner env node hni restore, hown, sanatizeAll_append] at hs
  cases hb : sanatizeAll env restore (ownedOfChildren node.childMap) with
  | none => simp [hb] at hs
  | some below =>
    cases ho : sanatizeAll env below.restore node.ownFiles with
    | none => simp [hb, ho] at hs
    | some own =>
      simp only [hb, ho, Option.some_bind, Option.map_some', Option.some.injEq] at hs
      subst hs
      obtain ⟨b1, b2⟩ := sanatizeAll_ledger env _ restore below hb
      obtain ⟨o1, o2⟩ := sanatizeAll_ledger env _ below.restore own ho
      refine ⟨⟨below, own, rfl, ho, rfl, rfl, rfl⟩, ?_, ?_⟩
      · simp only []
        rw [o1, b1]
      · simp only [List.filter_append, b2, o2]

/-- Witness of C25 (amended): the tenant node `T1` of the tree with the documents
`root/T1/policy.yaml` and `root/T1/C1/policy.yaml`. -/
theorem descendants_before_own_documents_witness :
    NewNamespace "root" false exampleNestedFs = some (some exampleNestedRoot, []) ∧
    ["T1"] ≠ [] ∧ descend ["T1"] exampleNestedRoot = some exampleNestedT1 ∧
    ledgerOf exampleEnv (ownedOfChildren exampleNestedT1.childMap)
      = "cp T1/C1/.original/policy.yaml T1/C1/policy.yaml\n" ∧
    ledgerOf exampleEnv exampleNestedT1.ownFiles
      = "cp T1/.original/policy.yaml T1/policy.yaml\n" ∧
    Namespace.Sanatize exampleEnv false "" exampleNestedT1 = some exampleNestedResult ∧
    exampleNestedResult.restore
      = "" ++ ledgerOf exampleEnv (ownedOfChildren exampleNestedT1.childMap)
        ++ ledgerOf exampleEnv exampleNestedT1.ownFiles :=
  ⟨rfl, by decide, rfl, by decide, by decide, rfl,
    (descendants_before_own_documents "root" false exampleNestedFs exampleNestedRoot []
      exampleEnv ["T1"] exampleNestedT1 "" exampleNestedResult rfl (by decide) rfl rfl).2.1⟩

/-- C26: a call of `sanatize` that returns leaves the file name, the paths and the label of
the file as they are; a file without a document stays without one; in a document it leaves
`APIVersion`, `Identities`, the API authorization policies and the external networks as they
are, keeps the number and order of the rulesets, and leaves every field of every ruleset
other than `Subject` as it is, the incoming and outgoing rules among them.  Only the label of
the document and the subjects can differ. -/
theorem sanatize_changes_only_subject_and_label (env : Env) (parent : Namespace)
    (restore : String) (t : file) (r : sanatizeResult)
    (hs : t.sanatize env parent restore = some r) :
    r.t.filename = t.filename ∧ r.t.path = t.path ∧ r.t.rpath = t.rpath ∧
    r.t.label = t.label ∧
    (t.prismaConfig = none → r.t.prismaConfig = none) ∧
    ∀ cfg, t.prismaConfig = some cfg →
      ∃ data cfg1 data1, cfg.Data = some data ∧ r.t.prismaConfig = some cfg1 ∧
        cfg1.Data = some data1 ∧
        cfg1.APIVersion = cfg.APIVersion ∧ cfg1.Identities = cfg.Identities ∧
        data1.Apiauthorizationpolicies = data.Apiauthorizationpolicies ∧
        data1.Externalnetworks = data.Externalnetworks ∧
        data1.Networkrulesetpolicies.map (Option.map withoutSubject)
          = data.Networkrulesetpolicies.map (Option.map withoutSubject) ∧
        data1.Networkrulesetpolicies.map (Option.map (fun rs => rs.IncomingRules))
          = data.Networkrulesetpolicies.map (Option.map (fun rs => rs.IncomingRules)) ∧
        data1.Networkrulesetpolicies.map (Option.map (fun rs => rs.OutgoingRules))
          = data.Networkrulesetpolicies.map (Option.map (fun rs => rs.OutgoingRules)) := by
  have hf := rewritten_fields parent t
  rw [← sanatize_rewritten hs] at hf
  refine ⟨hf.1, hf.2.1, hf.2.2.1, hf.2.2.2, ?_, ?_⟩
  · intro hc
    rw [sanatize_rewritten hs]
    simp [file.rewritten, hc]
  · intro cfg hc
    obtain ⟨data, hd, -⟩ := sanatize_sanatizable hs cfg hc
    rw [sanatize_rewritten hs]
    have hcfg : (t.rewritten parent).prismaConfig
        = some { cfg with
          Label := t.label
          Data := some { data with
            Networkrulesetpolicies :=
              data.Networkrulesetpolicies.map (Option.map (fun rs =>
                { rs with Subject := canonicalSubject parent rs.Subject })) } } := by
      simp [file.rewritten, hc, hd]
    refine ⟨data, _, { data with
        Networkrulesetpolicies :=
          data.Networkrulesetpolicies.map (Option.map (fun rs =>
            { rs with Subject := canonicalSubject parent rs.Subject })) },
      hd, hcfg, rfl, rfl, rfl, rfl, rfl, ?_, ?_, ?_⟩
    · simp only [List.map_map]
      apply List.map_congr_left
      intro rs _
      cases rs <;> rfl
    · simp only [List.map_map]
      apply List.map_congr_left
      intro rs _
      cases rs <;> rfl
    · simp only [List.map_map]
      apply List.map_congr_left
      intro rs _
      cases rs <;> rfl

/-- Witness of C26: `policy.yaml` of `root/T1/C1/G1/K1`, whose subject and nothing else is
rewritten. -/
theorem sanatize_changes_only_subject_and_label_witness :
    exampleFile.sanatize exampleEnv exampleK1 "" = some exampleSanatizeResult ∧
    exampleSanatizeResult.t.filename = exampleFile.filename ∧
    exampleSanatizeResult.t.path = exampleFile.path ∧
    exampleSanatizeResult.t.rpath = exampleFile.rpath ∧
    exampleSanatizeResult.t.label = exampleFile.label ∧
    exampleSanatizedPolicy ≠ examplePolicy :=
  ⟨rfl,
    (sanatize_changes_only_subject_and_label exampleEnv exampleK1 "" exampleFile
      exampleSanatizeResult rfl).1,
    (sanatize_changes_only_subject_and_label exampleEnv exampleK1 "" exampleFile
      exampleSanatizeResult rfl).2.1,
    (sanatize_changes_only_subject_and_label exampleEnv exampleK1 "" exampleFile
      exampleSanatizeResult rfl).2.2.1,
    (sanatize_changes_only_subject_and_label exampleEnv exampleK1 "" exampleFile
      exampleSanatizeResult rfl).2.2.2.1, by decide⟩

/-- C27: for the tree `NewNamespace` returns, whatever a pass of `Sanatize` over it returns:
`Validate` of the tree the pass left reports no label error, whatever it returns, and it
returns whenever no rule pointer of a document of the tree is nil.  The pass returns when
`sanatize` can go through every document of the tree. -/
theorem no_label_error_after_sanatize (path : String) (verbose : Bool) (fs : FsEntry)
    (t : Namespace) (err : List Err) (env : Env)
    (hnew : NewNamespace path verbose fs = some (some t, err)) :
    (∀ r, Namespace.Sanatize env true t.restore t = some r →
      (∀ errs, Namespace.Validate r.value r.value = some errs →
        ∀ e ∈ errs, e.isLabelMismatch = false) ∧
      ((∀ f ∈ t.documents, rulesPresent f) →
        ∃ errs, Namespace.Validate r.value r.value = some errs)) ∧
    ((∀ f ∈ t.documents, sanatizable f) →
      ∃ r, Namespace.Sanatize env true t.restore t = some r) := by
  refine ⟨?_, Sanatize_new_returns env hnew⟩
  intro r hs
  obtain ⟨e0, he0, hown, hv, -, -, -⟩ := Sanatize_new hnew hs
  obtain ⟨-, -, -, -, hin⟩ := NewNamespace_inner hnew
  obtain ⟨-, -, hdocs, -, -⟩ := rewritten_new hnew e0.restore
  constructor
  · intro errs hval e he
    rw [Validate_eq_validateAll, hv, hdocs] at hval
    obtain ⟨f, hf, ef, hvf, hef⟩ := validateAll_mem _ _ errs hval e he
    obtain ⟨pf, hpf, rfl⟩ := List.mem_map.mp hf
    have hl := (ownedOfChildren_innerNode _ hin pf hpf).1.1
    obtain ⟨restore0, r0, hr0⟩ := sanatizeAll_mem env _ "" e0 he0 pf hpf hl
    exact validate_rewritten_label _ pf.1 pf.2 (sanatize_sanatizable hr0) ef hvf e hef
  · intro hrules
    have h1 : ∃ errs, Namespace.Validate t t = some errs := by
      rw [Validate_eq_validateAll]
      exact validateAll_returns t t.documents (fun f hf => validate_returns (hrules f hf))
    obtain ⟨errs, herrs⟩ := h1
    have h2 : (Namespace.Validate r.value r.value).map (List.filter Err.isReferenceError)
        = (Namespace.Validate t t).map (List.filter Err.isReferenceError) := by
      rw [Validate_eq_validateAll, Validate_eq_validateAll, hv, hdocs, documents_eq_owned,
        hown]
      exact validateAll_map_congr Err.isReferenceError t _ (fun pf => pf.2.rewritten pf.1)
        Prod.snd (fun pf => validate_rewritten t e0.restore pf.1 pf.2) _
    rw [herrs] at h2
    cases hres : Namespace.Validate r.value r.value with
    | none => simp [hres] at h2
    | some errs2 => exact ⟨errs2, rfl⟩

/-- Witness of C27: the tree of `root/T1/C1/G1/K1/policy.yaml`, whose document has a stale
subject; after the pass `Validate` returns no error. -/
theorem no_label_error_after_sanatize_witness :
    NewNamespace "root" false exampleFs = some (some exampleRoot, []) ∧
    Namespace.Sanatize exampleEnv true exampleRoot.restore exampleRoot
      = some exampleTreeResult ∧
    Namespace.Validate exampleTreeResult.value exampleTreeResult.value = some [] ∧
    ∀ e ∈ ([] : List Err), e.isLabelMismatch = false :=
  ⟨rfl, rfl, rfl,
    ((no_label_error_after_sanatize "root" false exampleFs exampleRoot [] exampleEnv
      rfl).1 exampleTreeResult rfl).1 [] rfl⟩

/-- C28: for the tree `NewNamespace` returns, whatever a pass of `Sanatize` over it returns:
`Validate` of the tree the pass left reports the same reference errors, in the same order,
as `Validate` of the tree before the pass, and panics exactly when that one does.  The pass
returns when `sanatize` can go through every document of the tree. -/
theorem reference_errors_unchanged (path : String) (verbose : Bool) (fs : FsEntry)
    (t : Namespace) (err : List Err) (env : Env)
    (hnew : NewNamespace path verbose fs = some (some t, err)) :
    (∀ r, Namespace.Sanatize env true t.restore t = some r →
      (Namespace.Validate r.value r.value).map (List.filter Err.isReferenceError)
        = (Namespace.Validate t t).map (List.filter Err.isReferenceError)) ∧
    ((∀ f ∈ t.documents, sanatizable f) →
      ∃ r, Namespace.Sanatize env true t.restore t = some r) := by
  refine ⟨?_, Sanatize_new_returns env hnew⟩
  intro r hs
  obtain ⟨e0, -, hown, hv, -, -, -⟩ := Sanatize_new hnew hs
  obtain ⟨-, -, hdocs, -, -⟩ := rewritten_new hnew e0.restore
  rw [Validate_eq_validateAll, Validate_eq_validateAll, hv, hdocs, documents_eq_owned, hown]
  exact validateAll_map_congr Err.isReferenceError t _ (fun pf => pf.2.rewritten pf.1)
    Prod.snd (fun pf => validate_rewritten t e0.restore pf.1 pf.2) _

/-- Witness of C28: the document `root/T1/policy.yaml` refers to the cloud account `ghost`,
which does not exist; before the pass `Validate` reports the reference and the stale label,
after the pass it still reports the reference. -/
theorem reference_errors_unchanged_witness :
    NewNamespace "root" false exampleGhostFs = some (some exampleGhostRoot, []) ∧
    Namespace.Sanatize exampleEnv true exampleGhostRoot.restore exampleGhostRoot
      = some exampleGhostResult ∧
    Namespace.Validate exampleGhostRoot exampleGhostRoot
      = some [Err.nonExistent .metaLevelCloud "OutgoingRules" "root/T1/policy.yaml"
                "root/T1/ghost",
              Err.labelMismatch "stale" "T1:policy.yaml" "root/T1/policy.yaml"] ∧
    Namespace.Validate exampleGhostResult.value exampleGhostResult.value
      = some [Err.nonExistent .metaLevelCloud "OutgoingRules" "root/T1/policy.yaml"
                "root/T1/ghost"] ∧
    (Namespace.Validate exampleGhostResult.value exampleGhostResult.value).map
        (List.filter Err.isReferenceError)
      = (Namespace.Validate exampleGhostRoot exampleGhostRoot).map
        (List.filter Err.isReferenceError) :=
  ⟨rfl, rfl, rfl, rfl,
    (reference_errors_unchanged "root" false exampleGhostFs exampleGhostRoot [] exampleEnv
      rfl).1 exampleGhostResult rfl⟩

/-- C29: `TrafficActionFromString` converts the string forms of `Allow` and `Reject` to
these actions with no error, and has no case for `Inherit`: the string form of
`TrafficActionInherit` gives `TrafficActionUndefined` and the error that it is not a valid
type.  The three strings are ASCII, so this holds whatever the case table of the library
is. -/
theorem inherit_not_converted (upper : Char → Char) :
    prisma.TrafficActionFromString upper prisma.TrafficActionAllow
      = (prisma.TrafficActionAllow, none) ∧
    prisma.TrafficActionFromString upper prisma.TrafficActionReject
      = (prisma.TrafficActionReject, none) ∧
    prisma.ToUpper upper prisma.TrafficActionInherit = "INHERIT" ∧
    prisma.TrafficActionFromString upper prisma.TrafficActionInherit
      = (prisma.TrafficActionUndefined,
          some "String Inherit is not a valid TrafficAction type") ∧
    (prisma.TrafficActionFromString upper prisma.TrafficActionInherit).1
      ≠ prisma.TrafficActionInherit := by
  have h1 : prisma.ToUpper upper prisma.TrafficActionAllow = "ALLOW" := by
    simp [prisma.ToUpper, prisma.TrafficActionAllow]
  have h2 : prisma.ToUpper upper prisma.TrafficActionReject = "REJECT" := by
    simp [prisma.ToUpper, prisma.TrafficActionReject]
  have h3 : prisma.ToUpper upper prisma.TrafficActionInherit = "INHERIT" := by
    simp [prisma.ToUpper, prisma.TrafficActionInherit]
  refine ⟨?_, ?_, h3, ?_, ?_⟩
  · rw [prisma.TrafficActionFromString, h1]
    decide
  · rw [prisma.TrafficActionFromString, h2]
    decide
  · rw [prisma.TrafficActionFromString, h3]
    decide
  · rw [prisma.TrafficActionFromString, h3]
    decide

/-- C30 as stated fails: `GROUP` is not the string form of a defined namespace type, yet
`NamespaceTypeFromString` converts it to `NamespaceTypeGroup` with no error, as it does for
`group`, whatever the case table of the library is; and with a case table that maps the
long s to `S`, as the one of the library does, the string `kubernete` followed by a long s is
converted to `NamespaceTypeKubernetes`. -/
theorem upper_case_group_converted :
    "GROUP" ∉ [prisma.NamespaceTypeCloudAccount, prisma.NamespaceTypeGroup,
      prisma.NamespaceTypeKubernetes] ∧
    (∀ upper : Char → Char,
      prisma.NamespaceTypeFromString upper "GROUP" = (prisma.NamespaceTypeGroup, none) ∧
      prisma.NamespaceTypeFromString upper "group" = (prisma.NamespaceTypeGroup, none) ∧
      ¬ (prisma.NamespaceTypeFromString upper "GROUP"
        = (prisma.NamespaceTypeUndefined,
            some "String GROUP is not a valid NamespaceType type"))) ∧
    prisma.NamespaceTypeFromString exampleUpper "kubernete\u017f"
      = (prisma.NamespaceTypeKubernetes, none) := by
  refine ⟨by decide, ?_, by decide⟩
  intro upper
  have h1 : prisma.ToUpper upper "GROUP" = "GROUP" := by simp [prisma.ToUpper]
  have h2 : prisma.ToUpper upper "group" = "GROUP" := by simp [prisma.ToUpper]
  refine ⟨?_, ?_, ?_⟩
  · rw [prisma.NamespaceTypeFromString, h1]
    decide
  · rw [prisma.NamespaceTypeFromString, h2]
    decide
  · rw [prisma.NamespaceTypeFromString, h1]
    decide

/-- C30, amended: `NamespaceTypeFromString` compares the upper-cased string, whatever the
case table of the library is.  For a string whose upper case is not `CLOUDACCOUNT`: it
returns no error exactly when the upper case is `GROUP` or `KUBERNETES`, returning
`NamespaceTypeGroup` and `NamespaceTypeKubernetes`; in every other case it returns
`NamespaceTypeUndefined` with the error that the string is not a valid type.  The string
forms of `NamespaceTypeGroup` and `NamespaceTypeKubernetes` are converted to these types. -/
theorem namespace_type_ignores_case (upper : Char → Char) (s : String)
    (_ : prisma.ToUpper upper s ≠ "CLOUDACCOUNT") :
    ((prisma.NamespaceTypeFromString upper s).2 = none ↔
      prisma.ToUpper upper s = "GROUP" ∨ prisma.ToUpper upper s = "KUBERNETES") ∧
    (prisma.ToUpper upper s = "GROUP" →
      prisma.NamespaceTypeFromString upper s = (prisma.NamespaceTypeGroup, none)) ∧
    (prisma.ToUpper upper s = "KUBERNETES" →
      prisma.NamespaceTypeFromString upper s = (prisma.NamespaceTypeKubernetes, none)) ∧
    (prisma.ToUpper upper s ≠ "GROUP" → prisma.ToUpper upper s ≠ "KUBERNETES" →
      prisma.NamespaceTypeFromString upper s
        = (prisma.NamespaceTypeUndefined,
            some ("String " ++ s ++ " is not a valid NamespaceType type"))) ∧
    prisma.ToUpper upper prisma.NamespaceTypeGroup = "GROUP" ∧
    prisma.ToUpper upper prisma.NamespaceTypeKubernetes = "KUBERNETES" ∧
    prisma.ToUpper upper prisma.NamespaceTypeCloudAccount = "CLOUDACCOUNT" ∧
    prisma.NamespaceTypeFromString upper prisma.NamespaceTypeGroup
      = (prisma.NamespaceTypeGroup, none) ∧
    prisma.NamespaceTypeFromString upper prisma.NamespaceTypeKubernetes
      = (prisma.NamespaceTypeKubernetes, none) := by
  have hg : prisma.ToUpper upper prisma.NamespaceTypeGroup = "GROUP" := by
    simp [prisma.ToUpper, prisma.NamespaceTypeGroup]
  have hk : prisma.ToUpper upper prisma.NamespaceTypeKubernetes = "KUBERNETES" := by
    simp [prisma.ToUpper, prisma.NamespaceTypeKubernetes]
  have hc : prisma.ToUpper upper prisma.NamespaceTypeCloudAccount = "CLOUDACCOUNT" := by
    simp [prisma.ToUpper, prisma.NamespaceTypeCloudAccount]
  refine ⟨?_, ?_, ?_, ?_, hg, hk, hc, ?_, ?_⟩
  · by_cases h1 : prisma.ToUpper upper s = "GROUP"
    · simp [prisma.NamespaceTypeFromString, h1]
    · by_cases h2 : prisma.ToUpper upper s = "KUBERNETES"
      · simp [prisma.NamespaceTypeFromString, h2]
      · simp [prisma.NamespaceTypeFromString, h1, h2]
  · intro h1
    simp [prisma.NamespaceTypeFromString, h1]
  · intro h2
    simp [prisma.NamespaceTypeFromString, h2]
  · intro h1 h2
    simp [prisma.NamespaceTypeFromString, h1, h2]
  · rw [prisma.NamespaceTypeFromString, hg]
    decide
  · rw [prisma.NamespaceTypeFromString, hk]
    decide

/-- Witness of C30 (amended): the string `kubernetes`, and the string `kubernete` followed
by a long s under a case table that maps the long s to `S`. -/
theorem namespace_type_ignores_case_witness :
    prisma.ToUpper exampleUpper "kubernetes" ≠ "CLOUDACCOUNT" ∧
    prisma.ToUpper exampleUpper "kubernetes" = "KUBERNETES" ∧
    prisma.NamespaceTypeFromString exampleUpper "kubernetes"
      = (prisma.NamespaceTypeKubernetes, none) ∧
    prisma.ToUpper exampleUpper "kubernete\u017f" = "KUBERNETES" ∧
    prisma.NamespaceTypeFromString exampleUpper "kubernete\u017f"
      = (prisma.NamespaceTypeKubernetes, none) :=
  ⟨by decide, by decide,
    (namespace_type_ignores_case exampleUpper "kubernetes" (by decide)).2.2.1 (by decide),
    by decide,
    (namespace_type_ignores_case exampleUpper "kubernete\u017f" (by decide)).2.2.1
      (by decide)⟩

/-! ### `keyValueSplit` -/

theorem splitChars_eq (sep : Char) (cs : List Char) :
    splitChars sep cs = cs.takeWhile (fun c => c ≠ sep)
      :: (if sep ∈ cs then splitChars sep (cs.dropWhile (fun c => c ≠ sep)).tail else []) := by
  induction cs with
  | nil => simp [splitChars]
  | cons c cs ih =>
    by_cases hc : c = sep
    · subst hc
      simp [splitChars]
    · have hne : ¬ sep = c := fun h => hc h.symm
      simp only [splitChars, hc, if_false, ih]
      simp [hc, hne]

theorem split_first (sep : Char) (cs : List Char) (h : sep ∈ cs) :
    cs = cs.takeWhile (fun c => c ≠ sep) ++ sep :: (cs.dropWhile (fun c => c ≠ sep)).tail := by
  induction cs with
  | nil => simp at h
  | cons c cs ih =>
    by_cases hc : c = sep
    · subst hc
      simp
    · have hm : sep ∈ cs := by
        rcases List.mem_cons.mp h with h1 | h1
        · exact absurd h1.symm hc
        · exact h1
      simp only [List.takeWhile_cons, List.dropWhile_cons, hc, ne_eq, not_false_eq_true,
        decide_True, if_true, List.cons_append]
      exact congrArg _ (ih hm)

theorem not_mem_takeWhile (sep : Char) (cs : List Char) :
    sep ∉ cs.takeWhile (fun c => c ≠ sep) := by
  intro h
  have := List.mem_takeWhile_imp h
  simp at this

theorem takeWhile_of_not_mem (sep : Char) (cs : List Char) (h : sep ∉ cs) :
    cs.takeWhile (fun c => c ≠ sep) = cs := by
  induction cs with
  | nil => rfl
  | cons c cs ih =>
    have hc : c ≠ sep := fun hc => h (by rw [hc]; exact List.mem_cons_self _ _)
    have hm : sep ∉ cs := fun hm => h (List.mem_cons_of_mem _ hm)
    simp [List.takeWhile_cons, hc]
    exact fun x hx hxe => hm (hxe ▸ hx)

/-- The key and the value `keyValueSplit` returns. -/
theorem keyValueSplit_eq (s : String) :
    keyValueSplit s
      = (beforeEq s, if '=' ∈ s.data then beforeEq (afterEq s) else "") := by
  simp only [keyValueSplit, Split, beforeEq, afterEq]
  rw [splitChars_eq]
  by_cases h : '=' ∈ s.data
  · rw [if_pos h, if_pos h, splitChars_eq]
    simp
  · rw [if_neg h, if_neg h]
    simp

theorem takeWhile_eq_self_iff_not_mem (sep : Char) (cs : List Char) :
    cs.takeWhile (fun c => c ≠ sep) = cs ↔ sep ∉ cs := by
  constructor
  · intro h hm
    rw [← h] at hm
    exact not_mem_takeWhile sep cs hm
  · exact takeWhile_of_not_mem sep cs

theorem roundtrip_iff_count (cs : List Char) (h : '=' ∈ cs) :
    cs.takeWhile (fun c => c ≠ '=')
        ++ '=' :: ((cs.dropWhile (fun c => c ≠ '=')).tail.takeWhile (fun c => c ≠ '=')) = cs
      ↔ cs.count '=' = 1 := by
  have hs := split_first '=' cs h
  have hn := not_mem_takeWhile '=' cs
  generalize cs.takeWhile (fun c => c ≠ '=') = tw at hs hn ⊢
  generalize (cs.dropWhile (fun c => c ≠ '=')).tail = rest at hs ⊢
  subst hs
  have hc : tw.count '=' = 0 := List.count_eq_zero.mpr hn
  rw [List.append_cancel_left_eq, List.cons.injEq, takeWhile_eq_self_iff_not_mem,
    List.count_append, List.count_cons_self, hc, ← List.count_eq_zero]
  constructor
  · intro h1
    omega
  · intro h1
    exact ⟨rfl, by omega⟩

theorem two_le_count (cs : List Char) (h : 2 ≤ cs.count '=') :
    '=' ∈ cs ∧ '=' ∈ (cs.dropWhile (fun c => c ≠ '=')).tail := by
  have hm : '=' ∈ cs := by
    by_contra hn
    rw [List.count_eq_zero.mpr hn] at h
    omega
  refine ⟨hm, ?_⟩
  have hs := split_first '=' cs hm
  have hn := not_mem_takeWhile '=' cs
  generalize cs.takeWhile (fun c => c ≠ '=') = tw at hs hn
  generalize (cs.dropWhile (fun c => c ≠ '=')).tail = rest at hs ⊢
  subst hs
  rw [List.count_append, List.count_cons_self, List.count_eq_zero.mpr hn] at h
  by_contra hr
  rw [List.count_eq_zero.mpr hr] at h
  omega

theorem string_split_first (s : String) (h : '=' ∈ s.data) :
    s = beforeEq s ++ "=" ++ afterEq s := by
  apply String.ext
  simp only [String.data_append, beforeEq, afterEq, List.append_assoc]
  exact split_first '=' s.data h

/-! ### Nil rule pointers -/

theorem ruleCheck_nil_rule (rootNamespace : Namespace) (t : file) (rule : String)
    (rules : List (Option prisma.Rule)) : ∀ (errors : List Err), none ∈ rules →
    ruleCheck rootNamespace t errors rule rules = none := by
  induction rules with
  | nil => intro errors h; simp at h
  | cons r rules ih =>
    intro errors h
    cases r with
    | none => rfl
    | some r =>
      simp only [ruleCheck]
      exact ih _ (by simpa using h)

theorem rulesetsCheck_nil_rule (rootNamespace : Namespace) (t : file)
    (rs : prisma.Networkrulesetpolicy)
    (hn : none ∈ rs.OutgoingRules ∨ none ∈ rs.IncomingRules)
    (policies : List (Option prisma.Networkrulesetpolicy)) : ∀ (errors : List Err),
    some rs ∈ policies → rulesetsCheck rootNamespace t errors policies = none := by
  induction policies with
  | nil => intro errors h; simp at h
  | cons p policies ih =>
    intro errors h
    cases p with
    | none =>
      simp only [rulesetsCheck]
      exact ih _ (by simpa using h)
    | some p =>
      simp only [rulesetsCheck]
      cases ho : ruleCheck rootNamespace t errors "OutgoingRules" p.OutgoingRules with
      | none => rfl
      | some errors1 =>
        simp only []
        cases hi : ruleCheck rootNamespace t errors1 "IncomingRules" p.IncomingRules with
        | none => rfl
        | some errors2 =>
          simp only []
          rcases List.mem_cons.mp h with h1 | h1
          · simp only [Option.some.injEq] at h1
            subst h1
            rcases hn with hn | hn
            · rw [ruleCheck_nil_rule _ _ _ _ _ hn] at ho
              exact absurd ho (by simp)
            · rw [ruleCheck_nil_rule _ _ _ _ _ hn] at hi
              exact absurd hi (by simp)
          · exact ih _ h1

/-! ### The validator does not read the subjects -/

theorem objectCheck_path (rootNamespace : Namespace) (t t2 : file) (hp : t2.path = t.path)
    (errors : List Err) (rule : String) (object : List String) :
    objectCheck rootNamespace t2 errors rule object
      = objectCheck rootNamespace t errors rule object := by
  rw [objectCheck_eq_firstFailure, objectCheck_eq_firstFailure, hp]

theorem ruleCheck_path (rootNamespace : Namespace) (t t2 : file) (hp : t2.path = t.path)
    (rule : String) (rules : List (Option prisma.Rule)) : ∀ (errors : List Err),
    ruleCheck rootNamespace t2 errors rule rules = ruleCheck rootNamespace t errors rule rules := by
  induction rules with
  | nil => intro errors; rfl
  | cons r rules ih =>
    intro errors
    cases r with
    | none => rfl
    | some r =>
      simp only [ruleCheck, objectCheck_path rootNamespace t t2 hp]
      exact ih _

theorem rulesetsCheck_subject (rootNamespace : Namespace) (t t2 : file)
    (hp : t2.path = t.path) (g : List (List String) → List (List String))
    (policies : List (Option prisma.Networkrulesetpolicy)) : ∀ (errors : List Err),
    rulesetsCheck rootNamespace t2 errors
        (policies.map (Option.map (fun rs => { rs with Subject := g rs.Subject })))
      = rulesetsCheck rootNamespace t errors policies := by
  induction policies with
  | nil => intro errors; rfl
  | cons rs policies ih =>
    intro errors
    cases rs with
    | none =>
      simp only [List.map_cons, Option.map_none', rulesetsCheck]
      exact ih _
    | some rs =>
      simp only [List.map_cons, Option.map_some', rulesetsCheck,
        ruleCheck_path rootNamespace t t2 hp]
      cases ruleCheck rootNamespace t errors "OutgoingRules" rs.OutgoingRules with
      | none => rfl
      | some errors1 =>
        simp only []
        cases ruleCheck rootNamespace t errors1 "IncomingRules" rs.IncomingRules with
        | none => rfl
        | some errors2 => exact ih _

/-- The validation of a file is the validation of the file with the subjects left out. -/
theorem validate_withoutSubjects (rootNamespace : Namespace) (t : file) :
    t.withoutSubjects.validate rootNamespace = t.validate rootNamespace := by
  cases hc : t.prismaConfig with
  | none => simp [file.validate, file.withoutSubjects, hc]
  | some cfg =>
    cases hd : cfg.Data with
    | none => simp [file.validate, file.withoutSubjects, configWithoutSubjects, hc, hd]
    | some data =>
      have key : rulesetsCheck rootNamespace t.withoutSubjects []
            (data.Networkrulesetpolicies.map (Option.map withoutSubject))
          = rulesetsCheck rootNamespace t [] data.Networkrulesetpolicies :=
        rulesetsCheck_subject rootNamespace t t.withoutSubjects rfl (fun _ => [])
          data.Networkrulesetpolicies []
      simp only [file.validate, file.withoutSubjects, configWithoutSubjects, hc, hd,
        Option.map_some'] at key ⊢
      rw [key]

/-! ### The tags of the canonical chain, read back by the validator -/

theorem takeWhile_append_sep (sep : Char) (l r : List Char) (h : sep ∉ l) :
    (l ++ sep :: r).takeWhile (fun c => c ≠ sep) = l := by
  induction l with
  | nil => simp
  | cons c l ih =>
    have hc : c ≠ sep := fun hc => h (by rw [hc]; exact List.mem_cons_self _ _)
    have hm : sep ∉ l := fun hm => h (List.mem_cons_of_mem _ hm)
    simp only [List.cons_append, List.takeWhile_cons, hc, ne_eq, not_false_eq_true,
      decide_True, if_true, ih hm]

theorem dropWhile_append_sep (sep : Char) (l r : List Char) (h : sep ∉ l) :
    (l ++ sep :: r).dropWhile (fun c => c ≠ sep) = sep :: r := by
  induction l with
  | nil => simp
  | cons c l ih =>
    have hc : c ≠ sep := fun hc => h (by rw [hc]; exact List.mem_cons_self _ _)
    have hm : sep ∉ l := fun hm => h (List.mem_cons_of_mem _ hm)
    simp only [List.cons_append, List.dropWhile_cons, hc, ne_eq, not_false_eq_true,
      decide_True, if_true, ih hm]

/-- A tag made of a key and a value without `=` is split into this key and this value. -/
theorem keyValueSplit_tag (k v : String) (hk : '=' ∉ k.data) (hv : '=' ∉ v.data) :
    keyValueSplit (k ++ "=" ++ v) = (k, v) := by
  have hd : (k ++ "=" ++ v).data = k.data ++ '=' :: v.data := by
    simp [String.data_append]
  have hm : '=' ∈ (k ++ "=" ++ v).data := by
    rw [hd]
    simp
  rw [keyValueSplit_eq, if_pos hm]
  simp only [beforeEq, afterEq, hd, takeWhile_append_sep '=' _ _ hk,
    dropWhile_append_sep '=' _ _ hk, List.tail_cons, takeWhile_of_not_mem '=' _ hv]

theorem key_not_org (tag : String) (h : HasPrefix tag "@org:" = false) :
    (keyValueSplit tag).1 ∉ orgKeys := by
  intro hk
  rw [keyValueSplit_eq] at hk
  have hpre : (beforeEq tag).data <+: tag.data := List.takeWhile_prefix _
  have horg : "@org:".data <+: (beforeEq tag).data := by
    simp only [orgKeys, List.mem_cons, List.mem_singleton, List.not_mem_nil, or_false] at hk
    rcases hk with hk | hk | hk | hk <;> rw [hk, ← List.isPrefixOf_iff_prefix] <;> decide
  have := horg.trans hpre
  rw [← List.isPrefixOf_iff_prefix] at this
  simp only [HasPrefix] at h
  rw [this] at h
  exact absurd h (by decide)

theorem foldl_objectCheckStep_other (l : List String)
    (h : ∀ tag ∈ l, (keyValueSplit tag).1 ∉ orgKeys) : ∀ (s : orgValues),
    l.foldl objectCheckStep s = s := by
  induction l with
  | nil => intro s; rfl
  | cons tag l ih =>
    intro s
    rw [List.foldl_cons, objectCheckStep_other s tag (h tag (List.mem_cons_self _ _))]
    exact ih (fun x hx => h x (List.mem_cons_of_mem _ hx)) s

theorem objectCheckStep_tenant (s : orgValues) (v : String) (hv : '=' ∉ v.data) :
    objectCheckStep s ("@org:tenant=" ++ v) = { s with tenant := v } := by
  have e : "@org:tenant=" = "@org:tenant" ++ "=" := by decide
  have hkv := keyValueSplit_tag "@org:tenant" v (by decide) hv
  rw [← e] at hkv
  simp [objectCheckStep, hkv]

theorem objectCheckStep_cloud (s : orgValues) (v : String) (hv : '=' ∉ v.data) :
    objectCheckStep s ("@org:cloudaccount=" ++ v) = { s with cloud := v } := by
  have e : "@org:cloudaccount=" = "@org:cloudaccount" ++ "=" := by decide
  have hkv := keyValueSplit_tag "@org:cloudaccount" v (by decide) hv
  rw [← e] at hkv
  simp [objectCheckStep, hkv]

theorem objectCheckStep_group (s : orgValues) (v : String) (hv : '=' ∉ v.data) :
    objectCheckStep s ("@org:group=" ++ v) = { s with group := v } := by
  have e : "@org:group=" = "@org:group" ++ "=" := by decide
  have hkv := keyValueSplit_tag "@org:group" v (by decide) hv
  rw [← e] at hkv
  simp [objectCheckStep, hkv]

theorem objectCheckStep_kubernetes (s : orgValues) (v : String) (hv : '=' ∉ v.data) :
    objectCheckStep s ("@org:kubernetes=" ++ v) = { s with kubernetes := v } := by
  have e : "@org:kubernetes=" = "@org:kubernetes" ++ "=" := by decide
  have hkv := keyValueSplit_tag "@org:kubernetes" v (by decide) hv
  rw [← e] at hkv
  simp [objectCheckStep, hkv]

/-- The values the validator reads from a tag-group made of tags without an `@org:` key
followed by the canonical chain of a node whose identity fields hold no `=`. -/
theorem objectCheckValues_chain (node : Namespace) (tags : List String)
    (h1 : '=' ∉ node.tenant.data) (h2 : '=' ∉ node.cloud.data) (h3 : '=' ∉ node.group.data)
    (h4 : '=' ∉ node.kubernetes.data) :
    objectCheckValues
        (tags.filter (fun tag => !HasPrefix tag "@org:") ++ canonicalChain node)
      = match node.level with
        | .metaLevelRoot => { tenant := "", cloud := "", group := "", kubernetes := "" }
        | .metaLevelTenant =>
          { tenant := node.tenant, cloud := "", group := "", kubernetes := "" }
        | .metaLevelCloud =>
          { tenant := node.tenant, cloud := node.cloud, group := "", kubernetes := "" }
        | .metaLevelGroup =>
          { tenant := node.tenant, cloud := node.cloud, group := node.group,
            kubernetes := "" }
        | .metaLevelKubernetes =>
          { tenant := node.tenant, cloud := node.cloud, group := node.group,
            kubernetes := node.kubernetes } := by
  have hnon : ∀ tag ∈ tags.filter (fun tag => !HasPrefix tag "@org:"),
      (keyValueSplit tag).1 ∉ orgKeys := by
    intro tag htag
    have := (List.mem_filter.mp htag).2
    exact key_not_org tag (by simpa using this)
  simp only [objectCheckValues, List.foldl_append, foldl_objectCheckStep_other _ hnon,
    canonicalChain]
  cases node.level <;>
    simp [objectCheckStep_tenant _ _ h1, objectCheckStep_cloud _ _ h2,
      objectCheckStep_group _ _ h3, objectCheckStep_kubernetes _ _ h4]

/-- In the tree `NewNamespace` builds, the canonical chain of the node reached through
non-empty names without `=` is read back by the validator as the identity fields of the
node, and these name the node. -/
theorem values_of_node {t : Namespace} (hroot : t.level = .metaLevelRoot ∧ t.tenant = "" ∧
      t.cloud = "" ∧ t.group = "" ∧ t.kubernetes = "") (hinv : TreeInv t)
    (names : List String) (node : Namespace) (hne : names ≠ [])
    (hnames : ∀ n ∈ names, n ≠ "" ∧ '=' ∉ n.data) (hd : descend names t = some node) :
    (∀ tags : List String, objectCheckValues
        (tags.filter (fun tag => !HasPrefix tag "@org:") ++ canonicalChain node)
      = node.values) ∧ chainExists t node.values := by
  obtain ⟨hdep, hfields⟩ := node_fields hroot hinv names node hd
  have hle := depth_le_four node.level
  have hempty : '=' ∉ "".data := by decide
  rcases names with _ | ⟨a, _ | ⟨b, _ | ⟨c, _ | ⟨d, _ | ⟨e, rest⟩⟩⟩⟩⟩
  · exact absurd rfl hne
  · have hl := depth_eq_one hdep
    simp only [List.length_singleton, List.singleton_append, List.replicate,
      List.cons.injEq, and_true] at hfields
    obtain ⟨f1, f2, f3, f4⟩ := hfields
    have ha := hnames a (by simp)
    constructor
    · intro tags
      rw [objectCheckValues_chain node tags (by rw [f1]; exact ha.2) (by rw [f2]; exact hempty)
        (by rw [f3]; exact hempty) (by rw [f4]; exact hempty), hl]
      simp [Namespace.values, f2, f3, f4]
    · simp [chainExists, Namespace.values, f1, f2, f3, f4, ha.1, hd]
  · have hl := depth_eq_two hdep
    simp only [List.length_cons, List.length_nil, List.cons_append, List.nil_append,
      List.replicate, List.cons.injEq, and_true] at hfields
    obtain ⟨f1, f2, f3, f4⟩ := hfields
    have ha := hnames a (by simp)
    have hb := hnames b (by simp)
    constructor
    · intro tags
      rw [objectCheckValues_chain node tags (by rw [f1]; exact ha.2) (by rw [f2]; exact hb.2)
        (by rw [f3]; exact hempty) (by rw [f4]; exact hempty), hl]
      simp [Namespace.values, f3, f4]
    · simp [chainExists, Namespace.values, f1, f2, f3, f4, ha.1, hb.1, hd]
  · have hl := depth_eq_three hdep
    simp only [List.length_cons, List.length_nil, List.cons_append, List.nil_append,
      List.replicate, List.cons.injEq, and_true] at hfields
    obtain ⟨f1, f2, f3, f4⟩ := hfields
    have ha := hnames a (by simp)
    have hb := hnames b (by simp)
    have hc := hnames c (by simp)
    constructor
    · intro tags
      rw [objectCheckValues_chain node tags (by rw [f1]; exact ha.2) (by rw [f2]; exact hb.2)
        (by rw [f3]; exact hc.2) (by rw [f4]; exact hempty), hl]
      simp [Namespace.values, f4]
    · simp [chainExists, Namespace.values, f1, f2, f3, f4, ha.1, hb.1, hc.1, hd]
  · have hl : node.level = .metaLevelKubernetes := by
      cases hlv : node.level <;> simp [hlv, metaLevel.depth] at hdep ⊢
    simp only [List.length_cons, List.length_nil, List.cons_append, List.nil_append,
      List.replicate, List.cons.injEq, and_true] at hfields
    obtain ⟨f1, f2, f3, f4⟩ := hfields
    have ha := hnames a (by simp)
    have hb := hnames b (by simp)
    have hc := hnames c (by simp)
    have hk := hnames d (by simp)
    constructor
    · intro tags
      rw [objectCheckValues_chain node tags (by rw [f1]; exact ha.2) (by rw [f2]; exact hb.2)
        (by rw [f3]; exact hc.2) (by rw [f4]; exact hk.2), hl]
      simp [Namespace.values]
    · simp [chainExists, Namespace.values, f1, f2, f3, f4, ha.1, hb.1, hc.1, hk.1, hd]
  · simp only [List.length_cons] at hdep
    omega

/-! ## Claims C31 to C38 -/

/-- C31: `NewNamespace` with an empty path does not read any directory: it returns no
namespace and the error `path is required`, whatever the file system holds.  With a path it
returns a namespace, and its error is nil exactly when the construction found no error in
the directory tree. -/
theorem empty_path_is_refused (verbose : Bool) (fs : FsEntry) :
    NewNamespace "" verbose fs = some (none, [Err.pathRequired]) ∧
    Err.pathRequired.Error = "path is required" ∧
    ∀ path, path ≠ "" →
      ∃ t err, NewNamespace path verbose fs = some (some t, err) ∧
        err = errorsFound .metaLevelRoot path fs ∧
        (err = [] ↔ errorsFound .metaLevelRoot path fs = []) := by
  refine ⟨rfl, rfl, ?_⟩
  intro path hp
  obtain ⟨⟨t, err⟩, hr⟩ :=
    read_returns fs (Namespace.mk [] .metaLevelRoot "" "" "" "" [] path "" "" "" verbose)
  have he := read_errorsFound fs _ _ hr
  simp only [level_mk, path_mk] at he
  refine ⟨t, err, by simp [NewNamespace, hp, hr], he, by rw [he]⟩

/-- C32: the key `keyValueSplit` returns is the text before the first `=` of the string: it
holds no `=`, and the string is the key followed by `=` and the text after the first `=`;
for a string without `=` the key is the whole string and the value is empty. -/
theorem keyValueSplit_key_before_first_eq (s : String) :
    (keyValueSplit s).1 = beforeEq s ∧
    '=' ∉ (keyValueSplit s).1.data ∧
    ('=' ∈ s.data → s = (keyValueSplit s).1 ++ "=" ++ afterEq s) ∧
    ('=' ∉ s.data → (keyValueSplit s).1 = s ∧ (keyValueSplit s).2 = "") := by
  rw [keyValueSplit_eq]
  refine ⟨rfl, not_mem_takeWhile '=' s.data, string_split_first s, ?_⟩
  intro h
  constructor
  · apply String.ext
    exact takeWhile_of_not_mem '=' s.data h
  · simp only [h, if_false]

/-- C36: for a string with two or more `=`, the value `keyValueSplit` returns is the text
between the first and the second `=`, and what follows the second `=` is dropped; for every
string, the key followed by `=` and the value is the string exactly when the string holds
one `=`. -/
theorem keyValueSplit_roundtrip_iff_one_eq (s : String) :
    (2 ≤ countEq s →
      (keyValueSplit s).2 = beforeEq (afterEq s) ∧ '=' ∉ (keyValueSplit s).2.data ∧
      s = (keyValueSplit s).1 ++ "=" ++ (keyValueSplit s).2 ++ "=" ++ afterEq (afterEq s)) ∧
    ((keyValueSplit s).1 ++ "=" ++ (keyValueSplit s).2 = s ↔ countEq s = 1) := by
  rw [keyValueSplit_eq]
  constructor
  · intro h
    obtain ⟨h1, h2⟩ := two_le_count s.data h
    simp only [h1, if_true]
    refine ⟨by simp, not_mem_takeWhile '=' _, ?_⟩
    have e1 := string_split_first s h1
    have e2 := string_split_first (afterEq s) h2
    calc s = beforeEq s ++ "=" ++ afterEq s := e1
      _ = beforeEq s ++ "=" ++ (beforeEq (afterEq s) ++ "=" ++ afterEq (afterEq s)) := by
        rw [← e2]
      _ = beforeEq s ++ "=" ++ beforeEq (afterEq s) ++ "=" ++ afterEq (afterEq s) := by
        simp only [String.append_assoc]
  · by_cases h : '=' ∈ s.data
    · simp only [h, if_true, countEq]
      rw [← roundtrip_iff_count s.data h, String.ext_iff]
      simp [beforeEq, afterEq, String.data_append]
    · simp only [h, if_false, countEq, List.count_eq_zero.mpr h]
      constructor
      · intro he
        have hd := congrArg String.data he
        simp only [String.data_append, beforeEq, takeWhile_of_not_mem '=' s.data h] at hd
        have hl := congrArg List.length hd
        simp at hl
      · intro he
        omega

/-- C33: `NewNamespace` never panics, whatever the directory tree holds and however deep it
is; in the tree it returns, a node of the kubernetes level has an empty child map, and every
entry of a child map was made by a call of `newNamespace` that returned, on a node above the
kubernetes level. -/
theorem kubernetes_nodes_have_no_children (path : String) (verbose : Bool) (fs : FsEntry) :
    (∃ r, NewNamespace path verbose fs = some r) ∧
    ∀ t err, NewNamespace path verbose fs = some (some t, err) →
      (∀ names node, descend names t = some node → node.level = .metaLevelKubernetes →
        node.childMap = []) ∧
      (∀ names node name child, descend names t = some node →
        mapGet node.childMap name = some child →
        node.level ≠ .metaLevelKubernetes ∧ (node.newNamespace name).isSome = true) := by
  constructor
  · by_cases hp : path = ""
    · exact ⟨(none, [Err.pathRequired]), by simp [NewNamespace, hp]⟩
    · obtain ⟨t, err, h⟩ := NewNamespace_returns path verbose fs hp
      exact ⟨_, h⟩
  · intro t err hnew
    have hinv := (NewNamespace_spec hnew).2
    have key : ∀ names node name child, descend names t = some node →
        mapGet node.childMap name = some child →
        node.level ≠ .metaLevelKubernetes ∧ (node.newNamespace name).isSome = true := by
      intro names node name child hd hg
      have hc := hinv names node name child hd hg
      refine ⟨(childOf_fields hc).2.2.2.2.2.2.2, ?_⟩
      obtain ⟨m, hm, -⟩ := hc
      rw [hm]
      rfl
    refine ⟨?_, key⟩
    intro names node hd hl
    cases hcm : node.childMap with
    | nil => rfl
    | cons entry rest =>
      obtain ⟨k, c⟩ := entry
      have hg : mapGet node.childMap k = some c := by simp [hcm, mapGet]
      exact absurd hl (key names node k c hd hg).1

/-- C34: `sanatize` reads `t.prismaConfig.Data.Networkrulesetpolicies` and `ruleset.Subject`
without a nil check: for a document without a data section, and for a document whose list of
rulesets holds a nil entry, the call panics (the result `none`), whatever the environment;
only a file without a document is passed over.  `NewNamespace` registers such documents
without an error: for `root/T1/policy.yaml` without a data section, and with a nil ruleset,
`Sanatize` of the tree panics, while `Validate` of the same trees returns. -/
theorem sanatize_panics_on_absent_value :
    NewNamespace "root" false exampleNoDataFs = some (some exampleNoDataRoot, []) ∧
    Namespace.Sanatize exampleEnv true exampleNoDataRoot.restore exampleNoDataRoot = none ∧
    Namespace.Validate exampleNoDataRoot exampleNoDataRoot
      = some [Err.missingData "root/T1/policy.yaml"] ∧
    NewNamespace "root" false exampleNilRulesetFs = some (some exampleNilRulesetRoot, []) ∧
    Namespace.Sanatize exampleEnv true exampleNilRulesetRoot.restore exampleNilRulesetRoot
      = none ∧
    Namespace.Validate exampleNilRulesetRoot exampleNilRulesetRoot
      = some [Err.labelMismatch "T1:C1:G1:K1:policy.yaml" "T1:policy.yaml"
          "root/T1/policy.yaml"] ∧
    (∀ (env : Env) (parent : Namespace) (restore : String) (t : file) (cfg : prisma.Config),
      t.prismaConfig = some cfg → cfg.Data = none → t.sanatize env parent restore = none) ∧
    (∀ (env : Env) (parent : Namespace) (restore : String) (t : file) (cfg : prisma.Config)
        (data : prisma.Data),
      t.prismaConfig = some cfg → cfg.Data = some data →
      none ∈ data.Networkrulesetpolicies → t.sanatize env parent restore = none) ∧
    (∀ (env : Env) (parent : Namespace) (restore : String) (t : file),
      t.prismaConfig = none →
      t.sanatize env parent restore
        = some { t := t, restore := restore, ops := [], err := none }) := by
  refine ⟨rfl, rfl, rfl, rfl, rfl, rfl, ?_, ?_, ?_⟩
  · intro env parent restore t cfg hc hd
    simp [file.sanatize, hc, hd]
  · intro env parent restore t cfg data hc hd hn
    cases hr : sanatizeRulesets parent data.Networkrulesetpolicies with
    | none => simp [file.sanatize, hc, hd, hr]
    | some policies => exact absurd hn (sanatizeRulesets_eq parent _ policies hr).1
  · intro env parent restore t hc
    simp [file.sanatize, hc]

/-- C35: `ruleCheck` reads `rules.Object` without a nil check: for a document with a nil
entry in a list of outgoing or incoming rules, `validate` panics (the result `none`).
`NewNamespace` registers such a document without an error, and `Validate` of the tree of
`root/T1/policy.yaml` with a nil outgoing rule panics.  A file without a document and a
document without a data section give an error, and `validate` returns whenever no rule
pointer is nil, a nil entry in the list of rulesets included. -/
theorem validate_panics_on_nil_rule :
    NewNamespace "root" false exampleNilRuleFs = some (some exampleNilRuleRoot, []) ∧
    exampleNilRuleFile.validate exampleNilRuleRoot = none ∧
    Namespace.Validate exampleNilRuleRoot exampleNilRuleRoot = none ∧
    (∀ (rootNamespace : Namespace) (t : file) (cfg : prisma.Config) (data : prisma.Data)
        (rs : prisma.Networkrulesetpolicy),
      t.prismaConfig = some cfg → cfg.Data = some data →
      some rs ∈ data.Networkrulesetpolicies →
      (none ∈ rs.OutgoingRules ∨ none ∈ rs.IncomingRules) →
      t.validate rootNamespace = none) ∧
    (∀ (rootNamespace : Namespace) (t : file), t.prismaConfig = none →
      t.validate rootNamespace = some [Err.missingPrismaConfig t.path]) ∧
    (∀ (rootNamespace : Namespace) (t : file) (cfg : prisma.Config),
      t.prismaConfig = some cfg → cfg.Data = none →
      t.validate rootNamespace = some [Err.missingData t.path]) ∧
    (∀ (rootNamespace : Namespace) (t : file), rulesPresent t →
      ∃ errs, t.validate rootNamespace = some errs) := by
  refine ⟨rfl, rfl, rfl, ?_, ?_, ?_, ?_⟩
  · intro rootNamespace t cfg data rs hc hd hp hn
    simp only [file.validate, hc, hd, rulesetsCheck_nil_rule rootNamespace t rs hn _ [] hp]
  · intro rootNamespace t hc
    simp [file.validate, hc]
  · intro rootNamespace t cfg hc hd
    simp [file.validate, hc, hd]
  · intro rootNamespace t hp
    exact validate_returns hp

/-- C38: two files that are the same once the subjects of the rulesets of their documents
are left out (the same file name, paths and label, the same document but for the subjects)
get the same result of `validate` against any tree: the same errors in the same order, or a
panic for both. -/
theorem validate_ignores_subjects (rootNamespace : Namespace) (t t2 : file)
    (h : t.withoutSubjects = t2.withoutSubjects) :
    t.validate rootNamespace = t2.validate rootNamespace := by
  rw [← validate_withoutSubjects rootNamespace t, ← validate_withoutSubjects rootNamespace t2,
    h]

/-- Witness of C38: `policy.yaml` of `root/T1/C1/G1/K1` before and after `sanatize`, which
differ in the subject of the ruleset. -/
theorem validate_ignores_subjects_witness :
    exampleFile.withoutSubjects = exampleSanatizedFile.withoutSubjects ∧
    exampleFile ≠ exampleSanatizedFile ∧
    exampleFile.validate exampleRoot = exampleSanatizedFile.validate exampleRoot :=
  ⟨by decide, by decide,
    validate_ignores_subjects exampleRoot exampleFile exampleSanatizedFile (by decide)⟩

/-- C37: in the tree `NewNamespace` returns, for the node reached through the non-empty
directory names `names`, none of which holds `=`: the identity fields of the node are these
names; the one subject tag-group the sanitizer makes for a ruleset of a document of the
node, whatever the subject was, is read by `objectCheck` as exactly these fields (tenant,
cloud account, group, kubernetes; the fields below the level of the node are empty), these
values name the node in the tree, and `objectCheck` adds no error for the tag-group.  The
same holds for the subject of every ruleset of the file a call of `sanatize` returns; and
for a file whose document has its data section and no nil ruleset the call does return, in
every environment, with a document that has as many rulesets as before, each with such a
subject. -/
theorem sanitized_subject_resolves_to_node (path : String) (verbose : Bool) (fs : FsEntry)
    (t : Namespace) (err : List Err) (names : List String) (node : Namespace)
    (hnew : NewNamespace path verbose fs = some (some t, err)) (hne : names ≠ [])
    (hnames : ∀ n ∈ names, n ≠ "" ∧ '=' ∉ n.data) (hd : descend names t = some node) :
    [node.tenant, node.cloud, node.group, node.kubernetes]
      = names ++ List.replicate (4 - names.length) "" ∧
    (∀ subject, ∃ g, canonicalSubject node subject = [g] ∧
      objectCheckValues g = node.values ∧ chainExists t (objectCheckValues g) ∧
      ∀ (f : file) (errors : List Err) (rule : String),
        objectCheck t f errors rule g = errors) ∧
    (∀ (env : Env) (restore : String) (f : file) (r : sanatizeResult)
        (cfg1 : prisma.Config) (data1 : prisma.Data) (rs1 : prisma.Networkrulesetpolicy),
      f.sanatize env node restore = some r → r.t.prismaConfig = some cfg1 →
      cfg1.Data = some data1 → some rs1 ∈ data1.Networkrulesetpolicies →
      ∃ g, rs1.Subject = [g] ∧ objectCheckValues g = node.values ∧
        ∀ (errors : List Err) (rule : String), objectCheck t r.t errors rule g = errors) ∧
    (∀ (env : Env) (restore : String) (f : file), sanatizable f →
      ∃ r, f.sanatize env node restore = some r ∧
        ∀ cfg data, f.prismaConfig = some cfg → cfg.Data = some data →
          ∃ cfg1 data1, r.t.prismaConfig = some cfg1 ∧ cfg1.Data = some data1 ∧
            data1.Networkrulesetpolicies.length = data.Networkrulesetpolicies.length ∧
            ∀ p ∈ data1.Networkrulesetpolicies, ∃ rs1 g, p = some rs1 ∧ rs1.Subject = [g] ∧
              objectCheckValues g = node.values ∧ chainExists t (objectCheckValues g) ∧
              ∀ (errors : List Err) (rule : String),
                objectCheck t r.t errors rule g = errors) := by
  have hroot := (NewNamespace_root hnew).1
  have hinv := (NewNamespace_spec hnew).2
  obtain ⟨hval, hch⟩ := values_of_node hroot hinv names node hne hnames hd
  have hsub : ∀ subject, ∃ g, canonicalSubject node subject = [g] ∧
      objectCheckValues g = node.values ∧ chainExists t (objectCheckValues g) ∧
      ∀ (f : file) (errors : List Err) (rule : String),
        objectCheck t f errors rule g = errors := by
    intro subject
    refine ⟨_, rfl, hval subject.flatten, ?_, ?_⟩
    · rw [hval subject.flatten]
      exact hch
    · intro f errors rule
      simp only [objectCheck]
      exact nsCheck_of_chainExists t f errors rule _ (by rw [hval subject.flatten]; exact hch)
  refine ⟨(node_fields hroot hinv names node hd).2, hsub, ?_, ?_⟩
  rotate_left
  · intro env restore f hf
    obtain ⟨r, hs⟩ := @sanatize_returns env node restore f hf
    refine ⟨r, hs, ?_⟩
    intro cfg data hc hdat
    obtain ⟨hnone, -, h3⟩ := sanatize_t hc hdat hs
    rw [h3]
    refine ⟨_, _, rfl, rfl, by simp, ?_⟩
    intro p hp
    simp only [List.mem_map] at hp
    obtain ⟨p0, hp0, he⟩ := hp
    cases p0 with
    | none => exact absurd hp0 hnone
    | some rs0 =>
      simp only [Option.map_some'] at he
      obtain ⟨g, hg, hv, hce, ho⟩ := hsub rs0.Subject
      exact ⟨_, g, he.symm, hg, hv, hce, fun errors rule => ho _ errors rule⟩
  intro env restore f r cfg1 data1 rs1 hs hc1 hd1 hm
  cases hc : f.prismaConfig with
  | none =>
    simp only [file.sanatize, hc, Option.some.injEq] at hs
    subst hs
    rw [hc] at hc1
    exact absurd hc1 (by simp)
  | some cfg =>
    cases hdat : cfg.Data with
    | none => simp [file.sanatize, hc, hdat] at hs
    | some data =>
      obtain ⟨-, -, h3⟩ := sanatize_t hc hdat hs
      rw [h3] at hc1
      simp only [Option.some.injEq] at hc1
      subst hc1
      simp only [Option.some.injEq] at hd1
      subst hd1
      simp only [List.mem_map] at hm
      obtain ⟨rs0, -, he⟩ := hm
      cases rs0 with
      | none => simp at he
      | some rs0 =>
        simp only [Option.map_some', Option.some.injEq] at he
        subst he
        obtain ⟨g, hg, hv, -, ho⟩ := hsub rs0.Subject
        exact ⟨g, hg, hv, fun errors rule => ho r.t errors rule⟩

/-- Witness of C37: the node `root/T1/C1/G1/K1` and its document with a stale subject;
`sanatize` returns `exampleSanatizeResult`, and the subject it wrote is read back as the
fields of the node and adds no error. -/
theorem sanitized_subject_resolves_to_node_witness :
    NewNamespace "root" false exampleFs = some (some exampleRoot, []) ∧
    ["T1", "C1", "G1", "K1"] ≠ [] ∧
    (∀ n ∈ ["T1", "C1", "G1", "K1"], n ≠ "" ∧ '=' ∉ n.data) ∧
    descend ["T1", "C1", "G1", "K1"] exampleRoot = some exampleK1 ∧
    exampleFile.sanatize exampleEnv exampleK1 "" = some exampleSanatizeResult ∧
    exampleSanatizeResult.t.prismaConfig = some exampleSanatizedPolicy ∧
    exampleSanatizedPolicy.Data = some exampleSanatizedData ∧
    some exampleSanatizedRuleset ∈ exampleSanatizedData.Networkrulesetpolicies ∧
    exampleSanatizedRuleset.Subject
      = [["app=database", "@org:tenant=T1", "@org:cloudaccount=C1", "@org:group=G1",
          "@org:kubernetes=K1"]] ∧
    objectCheckValues ["app=database", "@org:tenant=T1", "@org:cloudaccount=C1",
        "@org:group=G1", "@org:kubernetes=K1"]
      = { tenant := "T1", cloud := "C1", group := "G1", kubernetes := "K1" } ∧
    objectCheck exampleRoot exampleSanatizeResult.t [] "OutgoingRules"
        ["app=database", "@org:tenant=T1", "@org:cloudaccount=C1", "@org:group=G1",
          "@org:kubernetes=K1"] = [] ∧
    (∃ g, exampleSanatizedRuleset.Subject = [g] ∧ objectCheckValues g = exampleK1.values ∧
      ∀ (errors : List Err) (rule : String),
        objectCheck exampleRoot exampleSanatizeResult.t errors rule g = errors) ∧
    [exampleK1.tenant, exampleK1.cloud, exampleK1.group, exampleK1.kubernetes]
      = ["T1", "C1", "G1", "K1"] ++ List.replicate (4 - 4) "" :=
  ⟨rfl, by decide, by decide, rfl, rfl, rfl, rfl, by decide, rfl, by decide, by decide,
    (sanitized_subject_resolves_to_node "root" false exampleFs exampleRoot []
      ["T1", "C1", "G1", "K1"] exampleK1 rfl (by decide) (by decide) rfl).2.2.1
        exampleEnv "" exampleFile exampleSanatizeResult exampleSanatizedPolicy
        exampleSanatizedData exampleSanatizedRuleset rfl rfl rfl (by decide),
    (sanitized_subject_resolves_to_node "root" false exampleFs exampleRoot []
      ["T1", "C1", "G1", "K1"] exampleK1 rfl (by decide) (by decide) rfl).1⟩

end processor
